import Mathlib

/-! # Collage: reliable stream protocol (RSP) and full master change manager

A shallow embedding of the parts of `co/rspConnection.cpp` and
`co/fullMasterCM.cpp` that the specification makes claims about, and the
proofs that settle these claims.

Conventions of the embedding

* machine integers are natural numbers or integers; every place where the
  C++ code truncates to 16, 32 or 64 bits is written as an explicit
  remainder;
* a `Buffer*` is modelled by the value of the buffer it points to, a queue or
  deque by the list of its elements from front to back, a null pointer in a
  queue by `none`;
* logging, instrumentation counters, mutexes and event notification are left
  out, a blocking wait that can only be ended by another thread is the result
  `none` or `blocked`.
-/

namespace co

/-! # Definitions -/

/-! ## Datagrams and buffers -/

/-- Value of `DatagramType::DATA`, the first enumerator. -/
def DATA : Nat := 0

/-- Value of `sizeof(DatagramData)`: four 16-bit header fields. -/
def sizeofDatagramData : Nat := 8

/-- Number of values of a `uint16_t`. -/
def seqMod : Nat := 65536

/-- A data buffer: the `DatagramData` header at its start (`type`, `size`,
`writerID`, `sequence`, all `uint16_t`) and the payload bytes that follow the
header. -/
structure Buffer where
  type : Nat
  size : Nat
  writerID : Nat
  sequence : Nat
  payload : List UInt8
deriving DecidableEq, Repr

/-- The call `memcpy(dst + off, src, n)` on byte areas: `n` bytes of `src`
replace the bytes `off .. off + n - 1` of `dst`. -/
def memcpyAt (dst : List UInt8) (off : Nat) (src : List UInt8) (n : Nat) : List UInt8 :=
  dst.take off ++ src.take n ++ dst.drop (off + n)

/-- The bytes a buffer carries: the first `size` bytes of its payload area. -/
def Buffer.data (b : Buffer) : List UInt8 := b.payload.take b.size

/-! ## The application side: `write` and `readSync` -/

/-- Loop of `RSPConnection::write` over the datagrams `i < nDatagrams`.
`data` is what is left between the pointers `data` and `end`; `pops` are the
free buffers that the successive `_appBuffers.timedPop` calls hand out. A pop
that times out closes the connection and `write` returns -1: `none`. The
result lists the buffers pushed to `_threadBuffers`, in order. -/
def writeLoop (payloadSize id : Nat) : Nat → List UInt8 → List Buffer → Option (List Buffer)
  | 0, _, _ => some []
  | n + 1, data, pops =>
    match pops with
    | [] => none
    | buffer :: pops' =>
      let packetSize := min data.length payloadSize
      let queued : Buffer :=
        { buffer with
            type := DATA
            size := packetSize % seqMod
            writerID := id
            payload := memcpyAt buffer.payload 0 data packetSize }
      (writeLoop payloadSize id n (data.drop packetSize) pops').map (fun l => queued :: l)

/-- Number of datagrams computed at the start of `RSPConnection::write`. -/
def nDatagrams (payloadSize bytes : Nat) : Nat :=
  if (bytes / payloadSize) * payloadSize ≠ bytes then bytes / payloadSize + 1
  else bytes / payloadSize

/-- The function `RSPConnection::write` on a listening connection with
identifier `id`: the buffers queued for the protocol thread, or `none` when a
free buffer could not be had. -/
def write (payloadSize id : Nat) (pops : List Buffer) (inData : List UInt8) :
    Option (List Buffer) :=
  writeLoop payloadSize id (nDatagrams payloadSize inData.length) inData pops

/-- A child connection: the per-writer reader state a listener keeps. A
`none` in `appBuffers` is the null buffer pushed on close, a `none` in
`recvBuffers` a hole of the out-of-order deque. -/
structure ChildConnection where
  id : Nat
  sequence : Nat
  acked : Nat
  connected : Bool
  threadBuffers : List Buffer
  appBuffers : List (Option Buffer)
  recvBuffers : List (Option Buffer)
  readBuffer : Option Buffer
  readBufferPos : Nat
deriving DecidableEq, Repr

/-- Outcome of one `readSync` call: it returned `ret` after copying `data` to
the caller, or it waits in `_appBuffers.pop()` on an empty queue. -/
inductive ReadOutcome where
  | returned (ret : Int) (data : List UInt8) (conn : ChildConnection)
  | blocked (data : List UInt8) (conn : ChildConnection)
deriving DecidableEq, Repr

/-- Start of an iteration of the loop of `readSync`: when there is no read
buffer the next one is popped from `_appBuffers`. The result is the read
buffer to use, which is `none` when the null buffer was popped; there is no
result when the pop waits on an empty queue. -/
def nextReadBuffer (c : ChildConnection) : Option (Option Buffer × ChildConnection) :=
  match c.readBuffer with
  | some b => some (some b, c)
  | none =>
    match c.appBuffers with
    | [] => none
    | x :: rest => some (x, { c with appBuffers := rest, readBuffer := x })

/-- Number of bytes an iteration of the loop of `readSync` copies from the
read buffer `b`: `LB_MIN(bytesLeft, header->size - _readBufferPos)`, the
difference taken in 64 bits. -/
def copySize (b : Buffer) (readBufferPos bytesLeft : Nat) : Nat :=
  min bytesLeft ((b.size + 2 ^ 64 - readBufferPos) % 2 ^ 64)

/-- End of an iteration of the loop of `readSync`: the read position moves
on by `size`, and a buffer whose data was all taken goes to `_threadBuffers`. -/
def advanceRead (c : ChildConnection) (b : Buffer) (size : Nat) : ChildConnection :=
  if c.readBufferPos + size ≥ b.size then
    { c with threadBuffers := c.threadBuffers ++ [b], readBuffer := none, readBufferPos := 0 }
  else { c with readBufferPos := c.readBufferPos + size }

/-- The loop `while (bytesLeft)` of `RSPConnection::readSync`. `bytes` is the
requested count, `out` the bytes copied so far. The first argument bounds the
number of iterations; `none` means the bound was too small. -/
def readSyncLoop (bytes : Nat) : Nat → ChildConnection → Nat → List UInt8 → Option ReadOutcome
  | 0, _, _, _ => none
  | fuel + 1, c, bytesLeft, out =>
    if bytesLeft = 0 then some (.returned bytes out c)
    else
      match nextReadBuffer c with
      | none => some (.blocked out c)
      | some (none, c1) =>
        some (.returned (if bytes = bytesLeft then -1 else (bytes - bytesLeft : Nat)) out
          { c1 with connected := false })
      | some (some b, c1) =>
        let size := copySize b c1.readBufferPos bytesLeft
        readSyncLoop bytes fuel (advanceRead c1 b size) (bytesLeft - size)
          (out ++ (b.payload.drop c1.readBufferPos).take size)

/-- The function `RSPConnection::readSync` called for `bytes` bytes. Every
iteration of its loop either ends the loop or releases a buffer, so the bound
handed to the loop is never reached. -/
def readSync (c : ChildConnection) (bytes : Nat) : Option ReadOutcome :=
  if !c.connected then some (.returned (-1) [] c)
  else readSyncLoop bytes (c.appBuffers.length + 2) c bytes []

/-- What a sequence of `readSync` calls, one per requested size, returns:
the return value and the bytes of each call. A call that does not return ends
the sequence with `none`. -/
def readChunks : ChildConnection → List Nat → Option (List (Int × List UInt8))
  | _, [] => some []
  | c, n :: rest =>
    match readSync c n with
    | some (.returned ret data c1) => (readChunks c1 rest).map (fun l => (ret, data) :: l)
    | _ => none

/-- A connected child to which the buffers `bufs` were delivered in this
order and of which nothing was read yet. -/
def deliveredChild (id sequence : Nat) (bufs : List Buffer) : ChildConnection :=
  { id := id, sequence := sequence, acked := 65535, connected := true, threadBuffers := [],
    appBuffers := bufs.map some, recvBuffers := [], readBuffer := none, readBufferPos := 0 }

/-- The round trip of C1: `write` queues `B` in buffers, the buffers reach the
reader in order, and one `readSync` per chunk size returns that many bytes,
which together are `B`. -/
def RoundTrip (payloadSize id : Nat) (pops : List Buffer) (B : List UInt8)
    (chunks : List Nat) : Prop :=
  ∃ bufs results,
    write payloadSize id pops B = some bufs ∧
    readChunks (deliveredChild id 0 bufs) chunks = some results ∧
    results.map Prod.fst = chunks.map Int.ofNat ∧
    (results.map Prod.snd).flatten = B

/-- A buffer whose size field fits its 16 bits and its payload area. -/
def WFBuffer (b : Buffer) : Prop := b.size ≤ b.payload.length ∧ b.size < seqMod

/-- The bytes still queued in `_appBuffers`. -/
def pendingApp : List (Option Buffer) → List UInt8
  | [] => []
  | some b :: rest => b.data ++ pendingApp rest
  | none :: rest => pendingApp rest

/-- The bytes a reader has not read yet: the rest of the read buffer and the
data of the queued buffers. -/
def pending (c : ChildConnection) : List UInt8 :=
  (match c.readBuffer with
   | some b => b.data.drop c.readBufferPos
   | none => []) ++ pendingApp c.appBuffers

/-- The state of a reader between two `readSync` calls. -/
structure ReadReady (c : ChildConnection) : Prop where
  connected : c.connected = true
  cur : ∀ b, c.readBuffer = some b → c.readBufferPos < b.size ∧ WFBuffer b
  idle : c.readBuffer = none → c.readBufferPos = 0
  apps : ∀ x ∈ c.appBuffers, ∃ b, x = some b ∧ WFBuffer b

/-- A free buffer with an all-zero header and no payload yet. -/
def emptyBuffer : Buffer := { type := 0, size := 0, writerID := 0, sequence := 0, payload := [] }

/-- An input of 65536 zero bytes. -/
def zeros65536 : List UInt8 := List.replicate 65536 0

/-! ## The protocol thread, reader side: `_handleData` -/

/-- A range of missing packets, `struct Nack`: the sequences `start` to `end`,
both included. The field `end` is spelled `end_` here. -/
structure Nack where
  start : Nat
  end_ : Nat
deriving DecidableEq, Repr

/-- A control datagram handed to the socket by `_sendAck`, or a negative
acknowledgement handed to `_sendNack`, which sends it unless it is for the
sender itself. -/
inductive Sent where
  | ack (readerID writerID sequence : Nat)
  | nack (readerID writerID : Nat) (nacks : List Nack)
deriving DecidableEq, Repr

/-- The function `RSPConnection::_newDataBuffer` called on a child: a free
buffer is popped from `_threadBuffers` and swapped with `inBuffer`. The result
is the new buffer, which now holds what `inBuffer` held, the new content of
`inBuffer`, and the child; it is `none` (a null pointer) when no buffer is
free. -/
def _newDataBuffer (c : ChildConnection) (inBuffer : Buffer) :
    Option (Buffer × Buffer × ChildConnection) :=
  match c.threadBuffers with
  | [] => none
  | buffer :: rest => some (inBuffer, buffer, { c with threadBuffers := rest })

/-- The function `RSPConnection::_pushDataBuffer` called on a child of the
listener with identifier `parentID`: an acknowledgement is sent every
`ackFreq` packets, the expected sequence moves on and the buffer is queued
for the application. -/
def _pushDataBuffer (parentID ackFreq : Nat) (c : ChildConnection) (buffer : Buffer) :
    ChildConnection × List Sent :=
  ({ c with sequence := (c.sequence + 1) % seqMod, appBuffers := c.appBuffers ++ [some buffer] },
   if (c.sequence + parentID) % ackFreq = 0 then [Sent.ack parentID c.id c.sequence] else [])

/-- The loop of `_handleData` that enqueues ready pending data: buffers are
taken from the front of `_recvBuffers`, given as the first argument, and
pushed until the deque is empty or starts with a hole. -/
def enqueueReady (parentID ackFreq : Nat) :
    List (Option Buffer) → ChildConnection → List Sent → ChildConnection × List Sent
  | some newBuffer :: rest, c, sent =>
    let r := _pushDataBuffer parentID ackFreq { c with recvBuffers := rest } newBuffer
    enqueueReady parentID ackFreq rest r.1 (sent ++ r.2)
  | recv, c, sent => ({ c with recvBuffers := recv }, sent)

/-- The loop `while (i >= 0 && !recvBuffers[i]) --i` of the early nack of
`_handleData`, started at `i = n - 1`: the index of the last buffer at or
before `n - 1`, or `none` when the loop ends with `i = -1`. -/
def lastBufferBefore (recv : List (Option Buffer)) : Nat → Option Nat
  | 0 => none
  | i + 1 => if (recv.getD i none).isSome then some i else lastBufferBefore recv i

/-- What `_handleData` leaves behind: the child the datagram was for, the
receive buffer `_recvBuffer` and the datagrams sent. -/
structure HandleDataResult where
  connection : ChildConnection
  recvBuffer : Buffer
  sent : List Sent
deriving DecidableEq, Repr

/-- The step `if (!_recvBuffers.empty() && !_recvBuffers.front()) pop_front()`
of `_handleData`, the update of the out-of-order deque for the new expected
sequence. -/
def popFrontHole (c : ChildConnection) : ChildConnection :=
  match c.recvBuffers with
  | none :: rest => { c with recvBuffers := rest }
  | _ => c

/-- The branch of `_handleData` for an in-order packet, one whose sequence is
the expected sequence of the child. -/
def handleInOrder (id ackFreq : Nat) (connection : ChildConnection) (recvBuffer : Buffer) :
    HandleDataResult :=
  match _newDataBuffer connection recvBuffer with
  | none => ⟨connection, recvBuffer, []⟩
  | some (newBuffer, recvBuffer1, c1) =>
    let r := _pushDataBuffer id ackFreq c1 newBuffer
    let r2 := enqueueReady id ackFreq r.1.recvBuffers r.1 r.2
    ⟨popFrontHole r2.1, recvBuffer1, r2.2⟩

/-- The early nack at the end of `_handleData`, after the buffer was stored
at index `size - 1` of the deque `recv`: the ranges handed to `_sendNack`, or
`none` when the function returns without a nack because the previous packet
is there. -/
def earlyNack (connectionSequence sequence size : Nat) (recv : List (Option Buffer)) :
    Option Nack :=
  let nack : Nack := ⟨connectionSequence, (sequence + seqMod - 1) % seqMod⟩
  let clip (nack : Nack) : Nack :=
    if nack.end_ < nack.start then { nack with end_ := 65535 } else nack
  if size - 1 > 1 then
    if (recv.getD (size - 2) none).isSome then none
    else
      match lastBufferBefore recv (size - 1) with
      | some i => some (clip { nack with start := (connectionSequence + i) % seqMod })
      | none => some (clip nack)
  else some (clip nack)

/-- The branch of `_handleData` for a packet ahead of the expected sequence
and inside the window: it is stored in the out-of-order deque unless it is
there already or no buffer is free. -/
def handleOutOfOrder (id : Nat) (connection : ChildConnection) (recvBuffer : Buffer) :
    HandleDataResult :=
  let writerID := recvBuffer.writerID
  let sequence := recvBuffer.sequence
  let size := (sequence + seqMod - connection.sequence) % seqMod
  let gotPacket := decide (connection.recvBuffers.length ≥ size) &&
    (connection.recvBuffers.getD (size - 1) none).isSome
  if gotPacket then ⟨connection, recvBuffer, []⟩
  else
    match _newDataBuffer connection recvBuffer with
    | none => ⟨connection, recvBuffer, []⟩
    | some (newBuffer, recvBuffer1, c1) =>
      let resized :=
        if c1.recvBuffers.length < size then
          c1.recvBuffers ++ List.replicate (size - c1.recvBuffers.length) none
        else c1.recvBuffers
      let recv := resized.set (size - 1) (some newBuffer)
      ⟨{ c1 with recvBuffers := recv }, recvBuffer1,
        match earlyNack connection.sequence sequence size recv with
        | some nack => [Sent.nack id writerID [nack]]
        | none => []⟩

/-- The function `RSPConnection::_handleData` of the listener with identifier
`id`, for a datagram that has its header. `recvBuffer` is the receive buffer
`_recvBuffer` holding the datagram, `connection` the child that
`_findConnection(writerID)` returned. The comparisons of the window test are
made on `int` values, without wrap-around. -/
def _handleData (id ackFreq numBuffers : Nat) (connection : ChildConnection)
    (recvBuffer : Buffer) : HandleDataResult :=
  let sequence := recvBuffer.sequence
  if connection.sequence = sequence then handleInOrder id ackFreq connection recvBuffer
  else if (connection.sequence > sequence ∧ 65535 - connection.sequence + sequence > numBuffers) ∨
      (connection.sequence < sequence ∧ sequence - connection.sequence > numBuffers) then
    -- ignore it if it is a repetition for another reader
    ⟨connection, recvBuffer, []⟩
  else handleOutOfOrder id connection recvBuffer

/-- The child that `_addConnection(id, sequence)` creates: connected,
nothing acknowledged, all its buffers free for reading. -/
def newChild (id sequence : Nat) (buffers : List Buffer) : ChildConnection :=
  { id := id, sequence := sequence, acked := 65535, connected := true, threadBuffers := buffers,
    appBuffers := [], recvBuffers := [], readBuffer := none, readBufferPos := 0 }

/-- The datagram number `j` of a burst of one-byte DATA datagrams that the
writer `writerID` starts at sequence `q`. -/
def burstDatagram (writerID q j : Nat) : Buffer :=
  { type := DATA, size := 1, writerID := writerID, sequence := (q + j) % 65536,
    payload := [UInt8.ofNat j] }

/-- A finite `float` value: `mant * 2 ^ exp`, negated when `neg` is set. -/
structure F32 where
  neg : Bool
  mant : Nat
  exp : Int
deriving DecidableEq, Repr

namespace F32

/-- Number of binary digits of `n`; the first argument bounds the recursion. -/
def bitsAux : Nat → Nat → Nat
  | 0, _ => 0
  | fuel + 1, n => if n = 0 then 0 else bitsAux fuel (n / 2) + 1

/-- Number of binary digits of `n`. -/
def bits (n : Nat) : Nat := bitsAux n n

/-- The integer nearest to `num / den`, the even one of two nearest. -/
def nearestEven (num den : Nat) : Nat :=
  let q := num / den
  let r := num % den
  if 2 * r < den then q
  else if den < 2 * r then q + 1
  else if q % 2 = 0 then q else q + 1

/-- The `float` nearest to the rational `num / den`, with the given sign:
rounding to 24 binary digits. -/
def round (neg : Bool) (num den : Nat) : F32 :=
  if num = 0 ∨ den = 0 then ⟨neg, 0, 0⟩
  else
    -- the leading digit of `num / den` has the exponent `e0` or `e0 - 1`
    let e0 : Int := (bits num : Int) - (bits den : Int)
    let reaches (e : Int) : Bool :=
      if 0 ≤ e then den * 2 ^ e.toNat ≤ num else den ≤ num * 2 ^ (-e).toNat
    let e : Int := if reaches e0 then e0 else e0 - 1
    -- scaled by `2 ^ (23 - e)` the quotient has 24 digits
    let s : Int := 23 - e
    let m :=
      if 0 ≤ s then nearestEven (num * 2 ^ s.toNat) den
      else nearestEven num (den * 2 ^ (-s).toNat)
    if m = 2 ^ 24 then ⟨neg, 2 ^ 23, e - 23 + 1⟩ else ⟨neg, m, e - 23⟩

/-- Conversion of an integer to `float`, as in `float(n)`. -/
def ofInt (n : Int) : F32 := round (decide (n < 0)) n.natAbs 1

/-- The product of two `float` values. -/
def mul (a b : F32) : F32 :=
  if 0 ≤ a.exp + b.exp then round (a.neg != b.neg) (a.mant * b.mant * 2 ^ (a.exp + b.exp).toNat) 1
  else round (a.neg != b.neg) (a.mant * b.mant) (2 ^ (-(a.exp + b.exp)).toNat)

/-- Conversion of a `float` to an integer, as in `int64_t(a)`: the fraction is
dropped. -/
def toInt (a : F32) : Int :=
  let magnitude : Nat :=
    if 0 ≤ a.exp then a.mant * 2 ^ a.exp.toNat else a.mant / 2 ^ (-a.exp).toNat
  if a.neg then -(magnitude : Int) else magnitude

/-- The value of `a` in units of `2 ^ unit`, for a `unit` not above the
exponent of `a`. -/
def scaled (a : F32) (unit : Int) : Int :=
  if a.neg then -((a.mant * 2 ^ (a.exp - unit).toNat : Nat) : Int)
  else ((a.mant * 2 ^ (a.exp - unit).toNat : Nat) : Int)

/-- The comparison `a < b` of two `float` values. -/
def lt (a b : F32) : Bool :=
  decide (scaled a (min a.exp b.exp) < scaled b (min a.exp b.exp))

/-- The macro `LB_MIN(a, b)`, which is `((a) < (b) ? (a) : (b))`. -/
def lbMin (a b : F32) : F32 := if lt a b then a else b

end F32

/-- The literal `.001f`. -/
def f001 : F32 := F32.round false 1 1000

/-- The literal `.01f`. -/
def f01 : F32 := F32.round false 1 100

/-! ## The protocol thread, writer side -/

/-- The configuration a connection reads: the global attributes
`IATTR_UDP_MTU`, `IATTR_RSP_ACK_FREQUENCY`, `IATTR_RSP_NUM_BUFFERS`,
`IATTR_RSP_ERROR_DOWNSCALE`, `IATTR_RSP_ERROR_UPSCALE`,
`IATTR_RSP_ERROR_MAXSCALE` and `IATTR_RSP_MIN_SENDRATE_SHIFT`, and the
bandwidth of the connection description. -/
structure Config where
  mtu : Nat
  ackFreq : Nat
  numBuffers : Nat
  errorDownscale : Int
  errorUpscale : Int
  errorMaxscale : Int
  minSendrateShift : Nat
  bandwidth : Int
deriving DecidableEq, Repr

/-- The member `_payloadSize`, a `uint32_t` initialised with
`_mtu - sizeof(DatagramData)`. -/
def Config.payloadSize (cfg : Config) : Nat := (cfg.mtu + 2 ^ 32 - sizeofDatagramData) % 2 ^ 32

/-- A listening connection, the writer and the owner of the protocol thread.
`wire` lists, oldest first, the DATA datagrams handed to `_write->send`: the
header and the `size` payload bytes sent with it. The token bucket
`_bucketSize` and the clock that fills it are not part of the state. -/
structure RSPConnection where
  id : Nat
  sequence : Nat
  children : List ChildConnection
  threadBuffers : List Buffer
  appBuffers : List Buffer
  writeBuffers : List Buffer
  repeatQueue : List Nack
  sendRate : Int
  timeouts : Nat
  wire : List Buffer
deriving DecidableEq, Repr

/-- The function `RSPConnection::_findConnection`: the first child with the
identifier `id`. -/
def _findConnection (children : List ChildConnection) (id : Nat) : Option ChildConnection :=
  children.find? (fun c => c.id = id)

/-- The children after the child that `_findConnection(id)` returns was
changed to `c1`. -/
def setConnection (id : Nat) (c1 : ChildConnection) : List ChildConnection → List ChildConnection
  | [] => []
  | c :: rest => if c.id = id then c1 :: rest else c :: setConnection id c1 rest

/-- The function `RSPConnection::_waitWritable`. It waits until the token
bucket, which the wall clock fills, holds the tokens for the datagram; this
wait changes nothing but `_bucketSize` and is left out. Then, when the send
rate is below the bandwidth, it adds
`int64_t(float(upscale) * float(bandwidth) * .001f)` to the send rate. -/
def _waitWritable (cfg : Config) (c : RSPConnection) : RSPConnection :=
  if c.sendRate < cfg.bandwidth then
    { c with sendRate := c.sendRate +
        (F32.mul (F32.mul (F32.ofInt cfg.errorUpscale) (F32.ofInt cfg.bandwidth)) f001).toInt }
  else c

/-- The two tests of `_addRepeat` on a queued range `old` that overlaps the
range `nack`: the queued range is extended to the start and to the end of
`nack`. The result is the range, the number of packets added to `lost` and
the flag `merged`. -/
def extendNack (old nack : Nack) : Nack × Nat × Bool :=
  let r1 : Nack × Nat × Bool :=
    if old.start > nack.start then ({ old with start := nack.start }, old.start - nack.start, true)
    else (old, 0, false)
  if r1.1.end_ < nack.end_ then
    ({ r1.1 with end_ := nack.end_ }, r1.2.1 + (nack.end_ - r1.1.end_), true)
  else r1

/-- The inner loop of `_addRepeat` over the repeat queue, which runs until a
queued range was extended. The result is the queue, the number of packets
added to `lost` and the flag `merged`. -/
def mergeNack (nack : Nack) : List Nack → List Nack × Nat × Bool
  | [] => ([], 0, false)
  | old :: rest =>
    if old.start ≤ nack.end_ ∧ old.end_ ≥ nack.start then
      let r := extendNack old nack
      if r.2.2 then (r.1 :: rest, r.2.1, true)
      else
        let r2 := mergeNack nack rest
        (r.1 :: r2.1, r.2.1 + r2.2.1, r2.2.2)
    else
      let r2 := mergeNack nack rest
      (old :: r2.1, r2.2.1, r2.2.2)

/-- The outer loop of `_addRepeat` over the ranges of a nack. The result is
the repeat queue and the count `lost`. -/
def queueRepeats : List Nack → List Nack → Nat → List Nack × Nat
  | [], repeatQueue, lost => (repeatQueue, lost)
  | nack :: rest, repeatQueue, lost =>
    let r := mergeNack nack repeatQueue
    if r.2.2 then queueRepeats rest r.1 (lost + r.2.1)
    else
      queueRepeats rest (r.1 ++ [nack])
        (lost + r.2.1 + ((nack.end_ + seqMod - nack.start) % seqMod + 1))

/-- The factor `downScale` of `_addRepeat`:
`LB_MIN(float(lost) * .001f * downscale, .01f * float(maxscale))`. -/
def downScale (cfg : Config) (lost : Nat) : F32 :=
  F32.lbMin (F32.mul (F32.mul (F32.ofInt lost) f001) (F32.ofInt cfg.errorDownscale))
    (F32.mul f01 (F32.ofInt cfg.errorMaxscale))

/-- The function `RSPConnection::_addRepeat`: the ranges of a nack are merged
into the repeat queue, and a send rate above `bandwidth >> minShift` is
lowered by `1 + int64_t(_sendRate * downScale)`. -/
def _addRepeat (cfg : Config) (c : RSPConnection) (nacks : List Nack) : RSPConnection :=
  let r := queueRepeats nacks c.repeatQueue 0
  if c.sendRate > cfg.bandwidth >>> cfg.minSendrateShift then
    { c with
      repeatQueue := r.1
      sendRate := c.sendRate - (1 + (F32.mul (F32.ofInt c.sendRate) (downScale cfg r.2)).toInt) }
  else { c with repeatQueue := r.1 }

/-- The loop of `_finishWriteQueue` that runs while `_writeBuffers` holds
more than `size` buffers. The front buffer is swapped with a free buffer of
the self child `connection`; the buffer taken goes to `readBuffers`, the
other one to `freeBuffers`. When the self child has no free buffer the loop
waits for the application to return one: `none`. The result is what is left
of `_writeBuffers`, the self child, `readBuffers` and `freeBuffers`. -/
def finishLoop (size : Nat) :
    List Buffer → ChildConnection → List Buffer → List Buffer →
      Option (List Buffer × ChildConnection × List Buffer × List Buffer)
  | [], connection, readBuffers, freeBuffers => some ([], connection, readBuffers, freeBuffers)
  | buffer :: rest, connection, readBuffers, freeBuffers =>
    if (buffer :: rest).length > size then
      match _newDataBuffer connection buffer with
      | none => none
      | some (newBuffer, buffer1, connection1) =>
        finishLoop size rest connection1 (readBuffers ++ [newBuffer]) (freeBuffers ++ [buffer1])
    else some (buffer :: rest, connection, readBuffers, freeBuffers)

/-- The function `RSPConnection::_finishWriteQueue`: the written buffers up
to `sequence` are taken from `_writeBuffers`, handed to the self child as
received data and returned to the free buffers `_appBuffers`. There is no
result when there is no self child or when the self child runs out of free
buffers. -/
def _finishWriteQueue (c : RSPConnection) (sequence : Nat) : Option RSPConnection :=
  match _findConnection c.children c.id with
  | none => none
  | some connection =>
    let size := (c.sequence + 2 * seqMod - sequence - 1) % seqMod
    match finishLoop size c.writeBuffers connection [] [] with
    | none => none
    | some (writeBuffers, connection1, readBuffers, freeBuffers) =>
      let connection2 : ChildConnection :=
        { connection1 with
          appBuffers := connection1.appBuffers ++ readBuffers.map some
          sequence := (connection1.sequence + readBuffers.length) % seqMod }
      let connection3 : ChildConnection :=
        { connection2 with acked := (connection2.sequence + seqMod - 1) % seqMod }
      some { c with
        writeBuffers := writeBuffers
        appBuffers := c.appBuffers ++ freeBuffers
        children := setConnection c.id connection3 c.children
        timeouts := 0 }

/-- An ACK datagram, `struct DatagramAck` without its type field. -/
structure DatagramAck where
  readerID : Nat
  writerID : Nat
  sequence : Nat
deriving DecidableEq, Repr

/-- The loop of `_handleAck` over the children that checks how far `_acked`
can advance: a child other than the self child whose `_acked` is more than
`numBuffers` from `acked`, in 16 bits, replaces `acked`. -/
def ackedByAll (id numBuffers : Nat) : List ChildConnection → Nat → Nat
  | [], acked => acked
  | child :: rest, acked =>
    if child.id = id then ackedByAll id numBuffers rest acked
    else if (child.acked + seqMod - acked) % seqMod > numBuffers then
      ackedByAll id numBuffers rest child.acked
    else ackedByAll id numBuffers rest acked

/-- The function `RSPConnection::_handleAck` for a datagram that has the
size of an ACK. There is no result when the self child is missing or the
call of `_finishWriteQueue` has none. -/
def _handleAck (cfg : Config) (c : RSPConnection) (ack : DatagramAck) : Option RSPConnection :=
  if ack.writerID ≠ c.id then some c
  else
    match _findConnection c.children ack.readerID with
    | none => some c
    | some connection =>
      if connection.acked ≥ ack.sequence ∧ connection.acked - ack.sequence ≤ cfg.numBuffers then
        -- a later ack was received from the reader before
        some c
      else
        let c1 : RSPConnection :=
          { c with
            children := setConnection ack.readerID { connection with acked := ack.sequence }
              c.children
            timeouts := 0 }
        let acked := ackedByAll c.id cfg.numBuffers c1.children ack.sequence
        match _findConnection c1.children c.id with
        | none => none
        | some selfChild =>
          if (acked + seqMod - selfChild.acked) % seqMod ≤ cfg.numBuffers then
            _finishWriteQueue c1 acked
          else some c1

/-- The loop of `_writeData` that merges following buffers into the datagram
`buffer` while it is not full and the next buffer still fits. The result is
the datagram, what is left of `_threadBuffers` and the merged buffers. -/
def mergeWrites (payloadSize : Nat) : Buffer → List Buffer → List Buffer →
    Buffer × List Buffer × List Buffer
  | buffer, [], merged => (buffer, [], merged)
  | buffer, buffer2 :: rest, merged =>
    if buffer.size < payloadSize then
      if buffer.size + buffer2.size > payloadSize then (buffer, buffer2 :: rest, merged)
      else
        mergeWrites payloadSize
          { buffer with
            payload := memcpyAt buffer.payload buffer.size buffer2.payload buffer2.size
            size := (buffer.size + buffer2.size) % seqMod }
          rest (merged ++ [buffer2])
    else (buffer, buffer2 :: rest, merged)

/-- The first part of `_writeData`, for the buffer `buffer` popped from
`_threadBuffers` and the buffers `rest` queued behind it: the buffer gets the
next sequence number, takes in the buffers behind it that fit, is sent and
saved in `_writeBuffers`; the merged buffers go back to `_appBuffers`. -/
def sendNext (cfg : Config) (c : RSPConnection) (buffer : Buffer) (rest : List Buffer) :
    RSPConnection :=
  let header : Buffer := { buffer with sequence := c.sequence }
  let r := mergeWrites cfg.payloadSize header rest []
  let c2 := _waitWritable cfg
    { c with
      timeouts := 0
      sequence := (c.sequence + 1) % seqMod
      threadBuffers := r.2.1
      appBuffers := c.appBuffers ++ r.2.2 }
  { c2 with
    wire := c2.wire ++ [{ r.1 with payload := r.1.payload.take r.1.size }]
    writeBuffers := c2.writeBuffers ++ [r.1] }

/-- The function `RSPConnection::_writeData`, compiled with
`CO_RSP_MERGE_WRITES`: the next queued buffer is merged, sent and saved, and a
writer that is alone finishes its write queue at once. There is no result
when that call of `_finishWriteQueue` has none. -/
def _writeData (cfg : Config) (c : RSPConnection) : Option RSPConnection :=
  match c.threadBuffers with
  | [] => some c
  | buffer :: rest =>
    let c3 := sendNext cfg c buffer rest
    if c3.children.length = 1 then
      _finishWriteQueue c3 ((c3.sequence + seqMod - 1) % seqMod)
    else some c3

/-! ## Concrete configurations and states -/

/-- The default configuration of the specification: MTU 1400, an ack every 64
packets, 256 buffers, speed-up 1 permille, slow-down 5 permille per lost
packet and at most 50 percent, minimum send rate shift 3; the bandwidth is
the 102400 KB/s that the constructor sets. -/
def defaultConfig : Config :=
  { mtu := 1400, ackFreq := 64, numBuffers := 256, errorDownscale := 5, errorUpscale := 1,
    errorMaxscale := 50, minSendrateShift := 3, bandwidth := 102400 }

/-- A listening writer with identifier 1 that has nothing queued and nothing
in flight, with the given send rate and repeat queue. -/
def idleWriter (sendRate : Int) (repeatQueue : List Nack) : RSPConnection :=
  { id := 1, sequence := 0, children := [], threadBuffers := [], appBuffers := [],
    writeBuffers := [], repeatQueue := repeatQueue, sendRate := sendRate, timeouts := 0,
    wire := [] }

/-- A child with 16 free buffers that expects `sequence` and has
acknowledged `acked`. -/
def ackedChild (id sequence acked : Nat) : ChildConnection :=
  { newChild id sequence (List.replicate 16 emptyBuffer) with acked := acked }

/-- A writer with identifier 1 and 16 buffers per connection that has sent
the datagrams 990 to 999, none of them released yet. Its children are, in
the order they joined: itself, reader 2, which acknowledged up to 989,
reader 3, just added by `_addConnection` and still with the `_acked` of the
constructor, and reader 4, which acknowledged up to 995. -/
def writerWithNewReader : RSPConnection :=
  { id := 1, sequence := 1000,
    children := [ackedChild 1 990 989, ackedChild 2 0 989,
      newChild 3 0 (List.replicate 16 emptyBuffer), ackedChild 4 0 995],
    threadBuffers := [], appBuffers := [],
    writeBuffers := (List.range 10).map (burstDatagram 1 990),
    repeatQueue := [], sendRate := 102400, timeouts := 0, wire := [] }

/-- The send rate of an idle writer with the send rate `rate` after
`_addRepeat` handled a nack with the single range `nack`. -/
def rateAfterNack (cfg : Config) (nack : Nack) (rate : Int) : Int :=
  (_addRepeat cfg (idleWriter rate []) [nack]).sendRate

/-- The send rate of an idle writer with the send rate `rate` after one
call of `_waitWritable`. -/
def rateAfterSend (cfg : Config) (rate : Int) : Int :=
  (_waitWritable cfg (idleWriter rate [])).sendRate

/-! ## The full master change manager -/

/-- A retained instance snapshot of `FullMasterCM`: the version of its stream
(`os.getVersion()`) and the commit count at which it was produced. The
serialized data is not modelled. -/
structure InstanceData where
  version : Nat
  commitCount : Nat
deriving DecidableEq, Repr

/-- The state of a `FullMasterCM`: the version (a `uint128_t`), the commit
count and the auto-obsolete count (both `uint32_t`) and the deque
`_instanceDatas` of retained snapshots, oldest first. The free list
`_instanceDataCache`, which only recycles memory, is left out. -/
structure FullMasterCM where
  version : Nat
  commitCount : Nat
  nVersions : Nat
  instanceDatas : List InstanceData
deriving DecidableEq, Repr

namespace FullMasterCM

/-- The change manager as its constructor leaves it: version `VERSION_NONE`,
nothing committed, nothing retained. -/
def new : FullMasterCM := { version := 0, commitCount := 0, nVersions := 0, instanceDatas := [] }

/-- The loop of `FullMasterCM::_obsolete` over the front of the deque: while
more than one snapshot is retained and the commit count exceeds the obsolete
count, a front snapshot older than `_commitCount - _nVersions` is released. -/
def obsoleteLoop (commitCount nVersions : Nat) : List InstanceData → List InstanceData
  | [] => []
  | [data] => [data]
  | data :: next :: rest =>
    if commitCount > nVersions then
      if data.commitCount ≥ commitCount - nVersions then data :: next :: rest
      else obsoleteLoop commitCount nVersions (next :: rest)
    else data :: next :: rest

/-- The function `FullMasterCM::_obsolete`. -/
def _obsolete (cm : FullMasterCM) : FullMasterCM :=
  { cm with instanceDatas := obsoleteLoop cm.commitCount cm.nVersions cm.instanceDatas }

/-- The function `FullMasterCM::init`: the snapshot of `VERSION_FIRST` is
retained, version and commit count move on by one. -/
def init (cm : FullMasterCM) : FullMasterCM :=
  { cm with
    instanceDatas := cm.instanceDatas ++ [⟨1, cm.commitCount⟩]
    version := (cm.version + 1) % 2 ^ 128
    commitCount := (cm.commitCount + 1) % 2 ^ 32 }

/-- The function `FullMasterCM::setAutoObsolete`. -/
def setAutoObsolete (cm : FullMasterCM) (count : Nat) : FullMasterCM :=
  _obsolete { cm with nVersions := count }

/-- The loop of `FullMasterCM::_updateCommitCount` that obsoletes the future
snapshots from the back of the deque, given here back first: while more than
one snapshot is retained, a back snapshot with a commit count above the new
one is released. -/
def dropFuture (commitCount : Nat) : List InstanceData → List InstanceData
  | [] => []
  | [data] => [data]
  | data :: next :: rest =>
    if data.commitCount ≤ commitCount then data :: next :: rest
    else dropFuture commitCount (next :: rest)

/-- The function `FullMasterCM::_updateCommitCount`. `commitNext` is the value
of the constant `CO_COMMIT_NEXT`, whose definition is not part of the
sources at hand. -/
def _updateCommitCount (commitNext : Nat) (cm : FullMasterCM) (incarnation : Nat) :
    FullMasterCM :=
  if incarnation = commitNext then { cm with commitCount := (cm.commitCount + 1) % 2 ^ 32 }
  else if incarnation ≥ cm.commitCount then { cm with commitCount := incarnation }
  else
    -- obsolete the future snapshots
    match dropFuture incarnation cm.instanceDatas.reverse with
    | [] => { cm with commitCount := incarnation, instanceDatas := [] }
    | data :: older =>
      if data.commitCount > incarnation then
        -- tweak the commit count of the minimum retained version
        { cm with
          commitCount := incarnation
          instanceDatas := (({ data with commitCount := 0 } : InstanceData) :: older).reverse
          version := data.version }
      else { cm with commitCount := incarnation, instanceDatas := (data :: older).reverse }

/-- The function `FullMasterCM::_commit`. `sent` is the value of
`instanceData->os.hasSentData()` after the snapshot was packed. -/
def _commit (cm : FullMasterCM) (sent : Bool) : FullMasterCM :=
  if sent then
    { cm with
      version := (cm.version + 1) % 2 ^ 128
      instanceDatas := cm.instanceDatas ++ [⟨(cm.version + 1) % 2 ^ 128, cm.commitCount⟩] }
  else cm

/-- One call of `FullMasterCM::commit`: the incarnation passed, whether the
object is dirty and whether packing its snapshot sends data. -/
structure CommitCall where
  incarnation : Nat
  dirty : Bool
  sent : Bool
deriving DecidableEq, Repr

/-- The function `FullMasterCM::commit`: the change manager after the call
and the version returned. The wait for `_maxVersion` is left out. -/
def commit (commitNext : Nat) (cm : FullMasterCM) (call : CommitCall) : FullMasterCM × Nat :=
  if !call.dirty then
    let cm2 := _obsolete (_updateCommitCount commitNext cm call.incarnation)
    (cm2, cm2.version)
  else
    let cm2 := _obsolete (_commit (_updateCommitCount commitNext cm call.incarnation) call.sent)
    (cm2, cm2.version)

/-- A sequence of `commit` calls. -/
def commits (commitNext : Nat) : FullMasterCM → List CommitCall → FullMasterCM
  | cm, [] => cm
  | cm, call :: rest => commits commitNext (commit commitNext cm call).1 rest

/-- A `commit` call that moves the commit count up: `CO_COMMIT_NEXT` below
the end of the 32-bit range, or an explicit incarnation above the commit
count. -/
def Advances (commitNext : Nat) (cm : FullMasterCM) (call : CommitCall) : Prop :=
  if call.incarnation = commitNext then cm.commitCount + 1 < 2 ^ 32
  else cm.commitCount < call.incarnation

/-- A sequence of `commit` calls each of which moves the commit count up. -/
def AllAdvance (commitNext : Nat) : FullMasterCM → List CommitCall → Prop
  | _, [] => True
  | cm, call :: rest =>
    Advances commitNext cm call ∧ AllAdvance commitNext (commit commitNext cm call).1 rest

/-- The commit counts of the retained snapshots increase strictly from the
front to the back and none is above the commit count. -/
def Increasing (cm : FullMasterCM) : Prop :=
  (cm.instanceDatas.map InstanceData.commitCount).Pairwise (· < ·) ∧
    ∀ d ∈ cm.instanceDatas, d.commitCount ≤ cm.commitCount

end FullMasterCM

/-! ## The protocol thread, reader side: `_handleAckRequest` -/

/-- Value of `CO_RSP_MAX_NACKS`, the number of ranges of a NACK datagram. -/
def CO_RSP_MAX_NACKS : Nat := 300

/-- The end of the range `nacks[i]` is set to `end_` and `i` moves on; a
range that ends before it starts wraps past 65535 and is split in two. The
array `nacks` and its index `i` are modelled by the list of the `i` ranges
that are complete; `start` is `nacks[i].start`. -/
def closeNack (nacks : List Nack) (start end_ : Nat) : List Nack :=
  if end_ < start then nacks ++ [⟨start, 65535⟩, ⟨0, end_⟩] else nacks ++ [⟨start, end_⟩]

/-- The loop of `_handleAckRequest` over the out-of-order deque. The iterator
`j` is at index `k`, in front of the entries given as third argument; the flag
`inRun` tells whether `j` is in the inner loop that looks for the next hole
after a buffer. The result is the complete ranges, `nacks[i].start`, and
whether the loop ended with `j` at the end of the deque. -/
def scanRecvBuffers (sequence max : Nat) :
    Bool → Nat → List (Option Buffer) → List Nack → Nat → List Nack × Nat × Bool
  | _, _, [], nacks, start => (nacks, start, true)
  | false, k, x :: rest, nacks, start =>
    if nacks.length < max then
      match x with
      | some _ =>
        -- got buffer: the hole in front of it ends
        scanRecvBuffers sequence max true (k + 1) rest
          (closeNack nacks start ((sequence + k) % seqMod)) start
      | none => scanRecvBuffers sequence max false (k + 1) rest nacks start
    else (nacks, start, false)
  | true, k, x :: rest, nacks, start =>
    match x with
    | some _ => scanRecvBuffers sequence max true (k + 1) rest nacks start
    | none =>
      -- found the next hole
      scanRecvBuffers sequence max false (k + 1) rest nacks ((sequence + k + 1) % seqMod)

/-- The test `if (nacks[i - 1].end < nacks[i - 1].start)` at the end of
`_handleAckRequest`: a last range that wraps past 65535 is split in two. -/
def splitLast (nacks : List Nack) : List Nack :=
  match nacks.getLast? with
  | some last =>
    if last.end_ < last.start then nacks.dropLast ++ [⟨last.start, 65535⟩, ⟨0, last.end_⟩]
    else nacks
  | none => nacks

/-- The ranges `_handleAckRequest` adds after its loop: up to `reqID` from
the open range when the loop stopped early or found no buffer, else from
behind the end of the last range when `reqID` is less than `numBuffers`
beyond it. -/
def finishNacks (numBuffers reqID : Nat) (r : List Nack × Nat × Bool) : List Nack :=
  if !r.2.2 ∨ r.1.length = 0 then r.1 ++ [⟨r.2.1, reqID⟩]
  else
    match r.1.getLast? with
    | some last =>
      if (reqID + seqMod - last.end_) % seqMod < numBuffers then
        r.1 ++ [⟨(last.end_ + 1) % seqMod, reqID⟩]
      else r.1
    | none => r.1

/-- The function `RSPConnection::_handleAckRequest` of the listener with
identifier `id`, for an ACKREQ with the sequence `reqID` from the writer whose
child is `connection`: what is handed to `_sendAck` or `_sendNack`. -/
def _handleAckRequest (id numBuffers : Nat) (connection : ChildConnection) (reqID : Nat) : Sent :=
  let gotID := (connection.sequence + seqMod - 1) % seqMod
  let distance := (reqID + seqMod - gotID) % seqMod
  if reqID = gotID ∨ (gotID > reqID ∧ gotID - reqID ≤ numBuffers) ∨
      (gotID < reqID ∧ distance > numBuffers) then
    Sent.ack id connection.id gotID
  else
    -- find all missing datagrams
    Sent.nack id connection.id
      (splitLast (finishNacks numBuffers reqID
        (scanRecvBuffers connection.sequence (CO_RSP_MAX_NACKS - 2) false 0
          connection.recvBuffers [] connection.sequence)))

/-- A writer can take back what it has in flight and queued: when it is
alone, its self child has a free buffer for every buffer in `_writeBuffers`
and in `_threadBuffers`. -/
def AloneOk (c : RSPConnection) : Prop :=
  c.children.length = 1 →
    ∃ self, _findConnection c.children c.id = some self ∧
      c.writeBuffers.length + c.threadBuffers.length ≤ self.threadBuffers.length

/-- The function `_writeData` called `n` times in a row, as the protocol
thread does while buffers are queued and nothing is to be repeated. -/
def writeSteps (cfg : Config) : Nat → RSPConnection → Option RSPConnection
  | 0, c => some c
  | n + 1, c => (_writeData cfg c).bind (writeSteps cfg n)

/-- A payload area of `n` zero bytes. -/
def zeros (n : Nat) : List UInt8 := List.replicate n 0

/-- The default configuration with an MTU of 70008 bytes: the payload size
is 70000. -/
def wideConfig : Config := { defaultConfig with mtu := 70008 }

/-- A writer with identifier 1 and one reader that has two buffers queued,
of 40000 and of 30000 bytes. -/
def wideWriter : RSPConnection :=
  { id := 1, sequence := 0,
    children := [ackedChild 1 0 65535, ackedChild 2 0 65535],
    threadBuffers := [⟨DATA, 40000, 1, 0, zeros 40000⟩, ⟨DATA, 30000, 1, 0, zeros 30000⟩],
    appBuffers := [], writeBuffers := [], repeatQueue := [], sendRate := 102400,
    timeouts := 0, wire := [] }

/-- The default configuration with an MTU of 12 bytes: the payload size is 4. -/
def smallConfig : Config := { defaultConfig with mtu := 12 }

/-- The first buffer queued in `smallWriter`: the bytes 1, 2. -/
def smallFirst : Buffer := ⟨DATA, 2, 1, 0, [1, 2, 0, 0]⟩

/-- The buffers queued behind `smallFirst`: the bytes 3, then 4, 5, 6, then 7. -/
def smallRest : List Buffer :=
  [⟨DATA, 1, 1, 0, [3, 0, 0, 0]⟩, ⟨DATA, 3, 1, 0, [4, 5, 6, 0]⟩, ⟨DATA, 1, 1, 0, [7, 0, 0, 0]⟩]

/-- A writer with identifier 1 that is alone in its group, is about to use
the sequence number 65535 and has four buffers queued; its self child has
four free buffers. -/
def smallWriter : RSPConnection :=
  { id := 1, sequence := 65535,
    children := [newChild 1 65535 (List.replicate 4 emptyBuffer)],
    threadBuffers := smallFirst :: smallRest,
    appBuffers := [], writeBuffers := [], repeatQueue := [], sendRate := 102400,
    timeouts := 0, wire := [] }

/-! ## The full master change manager: invariants and `_initSlave` -/

/-- Value of `VERSION_NONE`, `uint128_t(0, 0)`. -/
def VERSION_NONE : Nat := 0

/-- Value of `VERSION_FIRST`, `uint128_t(0, 1)`. -/
def VERSION_FIRST : Nat := 1

/-- Value of `VERSION_OLDEST`, `uint128_t(0, 0xfffffffffffffffc)`. -/
def VERSION_OLDEST : Nat := 0xfffffffffffffffc

/-- The fields of a `MasterCMCommand` that `_initSlave` reads: the requested
version and the range of versions the subscriber has in its cache, all
`uint128_t`. -/
structure MapRequest where
  requestedVersion : Nat
  minCachedVersion : Nat
  maxCachedVersion : Nat
deriving DecidableEq, Repr

/-- What `_initSlave` sends to the subscriber: `_sendMapSuccess(command,
multicast)`, `data->os.sendMapData(...)` for the snapshot of a version, and
`_sendMapReply(command, version, result, useCache, multicast)`. -/
inductive MapMessage where
  | mapSuccess (multicast : Bool)
  | mapData (version : Nat)
  | mapReply (version : Nat) (result useCache multicast : Bool)
deriving DecidableEq, Repr

/-- The versions of the snapshots streamed by a list of messages. -/
def streamedVersions : List MapMessage → List Nat
  | [] => []
  | MapMessage.mapSuccess _ :: rest => streamedVersions rest
  | MapMessage.mapData version :: rest => version :: streamedVersions rest
  | MapMessage.mapReply _ _ _ _ :: rest => streamedVersions rest

namespace FullMasterCM

/-- What `_obsolete` leaves at the front: the deque is not empty, and its
front snapshot is the only one or has a commit count of at least
`_commitCount - _nVersions`, in exact integer arithmetic. -/
def FrontFresh (cm : FullMasterCM) : Prop :=
  ∃ front, cm.instanceDatas.head? = some front ∧
    (cm.instanceDatas.length = 1 ∨
      (cm.commitCount : Int) - (cm.nVersions : Int) ≤ (front.commitCount : Int))

/-- The versions of a list of snapshots go up by one from each snapshot to
the next. -/
def consecutive : List InstanceData → Bool
  | a :: b :: rest => decide (b.version = a.version + 1) && consecutive (b :: rest)
  | _ => true

/-- The retained-deque invariant, which `_checkConsistency` asserts: the
deque is not empty, the versions of its snapshots are consecutive and go up
from the front to the back, and the back snapshot has the version
`_version`. -/
def RetainedInvariant (cm : FullMasterCM) : Prop :=
  cm.instanceDatas ≠ [] ∧ consecutive cm.instanceDatas = true ∧
    cm.instanceDatas.getLast?.map InstanceData.version = some cm.version

instance decidableRetainedInvariant (cm : FullMasterCM) : Decidable (RetainedInvariant cm) := by
  unfold RetainedInvariant
  infer_instance

/-- The start of the range that `_initSlave` sends, before the cache is
looked at: the requested version, or the oldest retained version when
`VERSION_OLDEST` or an older version is requested. -/
def clampStart (requested oldest : Nat) : Nat :=
  if requested = VERSION_OLDEST ∨ requested < oldest then oldest else requested

/-- The range `start .. end` that `_initSlave` sends, from the range
`start .. end` before the cache is looked at: with cache use, a cached range
that holds `start` moves the start behind the cached range, and a cached
range that ends at `end` moves the end before it. The code leaves the case
of a cached block in the middle open. -/
def cachedRange (command : MapRequest) (replyUseCache : Bool) (start end_ : Nat) : Nat × Nat :=
  if replyUseCache then
    if command.minCachedVersion ≤ start ∧ command.maxCachedVersion ≥ start then
      ((command.maxCachedVersion + 1) % 2 ^ 128, end_)
    else if command.maxCachedVersion = end_ then
      (start, max start ((command.minCachedVersion + 2 ^ 128 - 1) % 2 ^ 128))
    else (start, end_)
  else (start, end_)

/-- The two loops of `_initSlave` over the deque: the snapshots with a
version below `start` are skipped, and the snapshots that follow are sent
up to the first one with a version above `end`. -/
def sentDatas (instanceDatas : List InstanceData) (range : Nat × Nat) : List InstanceData :=
  (instanceDatas.dropWhile (fun d => d.version < range.1)).takeWhile
    (fun d => d.version ≤ range.2)

/-- The function `FullMasterCM::_initSlave`: the value returned and the
messages sent, in order. There is no result on an empty deque, where the
code reads `_instanceDatas.front()`. -/
def _initSlave (cm : FullMasterCM) (command : MapRequest) (replyUseCache : Bool) :
    Option (Bool × List MapMessage) :=
  match cm.instanceDatas with
  | [] => none
  | front :: _ =>
    let start := clampStart command.requestedVersion front.version
    let replyVersion := start
    -- send all instance datas from start..end
    let sent := sentDatas cm.instanceDatas (cachedRange command replyUseCache start cm.version)
    if sent = [] then
      some (true, [MapMessage.mapSuccess false,
        MapMessage.mapReply replyVersion true replyUseCache false])
    else
      some (true, MapMessage.mapSuccess true :: sent.map (fun d => MapMessage.mapData d.version)
        ++ [MapMessage.mapReply replyVersion true replyUseCache true])

end FullMasterCM

/-- The change manager after `init`, `setAutoObsolete(N)` and `k` commits by
`CO_COMMIT_NEXT`, taken to be `0xFFFFFFFF`, of a dirty object whose snapshot
sends data. -/
def committedMaster (N k : Nat) : FullMasterCM :=
  FullMasterCM.commits 4294967295
    (FullMasterCM.setAutoObsolete (FullMasterCM.init FullMasterCM.new) N)
    (List.replicate k ⟨4294967295, true, true⟩)

/-! ## The delta master change manager -/

/-- The state of a `DeltaMasterCM`: the state of the `FullMasterCM` it
extends and what `_deltaData.hasSentData()` returns. -/
structure DeltaMasterCM extends FullMasterCM where
  deltaSent : Bool
deriving DecidableEq, Repr

namespace DeltaMasterCM

/-- The function `DeltaMasterCM::_commit`. `slaves` is the number of
subscribed slaves, `packSent` the value of `_deltaData.hasSentData()` after
the delta was packed, `instanceSent` the value of
`instanceData->os.hasSentData()` after the snapshot was packed. -/
def _commit (cm : DeltaMasterCM) (slaves : Nat) (packSent instanceSent : Bool) : DeltaMasterCM :=
  let cm1 : DeltaMasterCM := if slaves ≠ 0 then { cm with deltaSent := packSent } else cm
  if slaves = 0 ∨ cm1.deltaSent = true then
    -- save instance data
    if cm1.deltaSent = true ∨ instanceSent = true then
      { cm1 with
        version := (cm1.version + 1) % 2 ^ 128
        instanceDatas := cm1.instanceDatas ++ [⟨(cm1.version + 1) % 2 ^ 128, cm1.commitCount⟩] }
    else cm1
  else cm1

end DeltaMasterCM

/-! ## The versioned slave change manager -/

/-- The type of an `ObjectDataIStream`: `TYPE_INSTANCE` or `TYPE_DELTA`. -/
inductive StreamType where
  | TYPE_INSTANCE
  | TYPE_DELTA
deriving DecidableEq, Repr

/-- A command with an `ObjectPacket`: the instance identifier it is for, and
a number that stands for the rest of the packet. -/
structure Command where
  instanceID : Nat
  packet : Nat
deriving DecidableEq, Repr

/-- Modelled from the spec: the class `ObjectDataIStream` is not part of the
sources at hand. A version stream is modelled by its type and the commands
that `addDataPacket` added to it, in order; what `isReady()` and
`getVersion()` return for a stream is a parameter of the functions below. -/
structure ObjectDataIStream where
  type : StreamType
  commands : List Command
deriving DecidableEq, Repr

/-- The state of a `VersionedSlaveCM`: the version, the instance identifier
of its object, the queue `_queuedVersions` from front to back and the stream
in progress `_currentIStream`. `applied` lists the streams handed to the
object by `applyInstanceData` or `unpack`, `notified` the versions passed to
`notifyNewHeadVersion`, both in order. -/
structure VersionedSlaveCM where
  version : Nat
  instanceID : Nat
  queuedVersions : List ObjectDataIStream
  currentIStream : Option ObjectDataIStream
  applied : List ObjectDataIStream
  notified : List Nat
deriving DecidableEq, Repr

namespace VersionedSlaveCM

/-- The function `VersionedSlaveCM::_unpackOneVersion`: the stream is applied
to the object and its version becomes the version of the slave. -/
def _unpackOneVersion (getVersion : ObjectDataIStream → Nat) (cm : VersionedSlaveCM)
    (is : ObjectDataIStream) : VersionedSlaveCM :=
  { cm with applied := cm.applied ++ [is], version := getVersion is }

/-- The loop of `_syncToHead` over the streams that `tryPop` returns. -/
def syncToHeadLoop (getVersion : ObjectDataIStream → Nat) :
    VersionedSlaveCM → List ObjectDataIStream → VersionedSlaveCM
  | cm, [] => { cm with queuedVersions := [] }
  | cm, is :: rest => syncToHeadLoop getVersion (_unpackOneVersion getVersion cm is) rest

/-- The function `VersionedSlaveCM::_syncToHead`. -/
def _syncToHead (getVersion : ObjectDataIStream → Nat) (cm : VersionedSlaveCM) :
    VersionedSlaveCM :=
  if cm.queuedVersions.isEmpty then cm
  else syncToHeadLoop getVersion cm cm.queuedVersions

/-- The loop `while( _version < version )` of `sync` over the queue: each
turn pops a stream and unpacks it. There is no result when the queue is
empty at a pop, which waits for another thread. -/
def syncLoop (getVersion : ObjectDataIStream → Nat) (version : Nat) :
    VersionedSlaveCM → List ObjectDataIStream → Option VersionedSlaveCM
  | cm, [] => if cm.version < version then none else some { cm with queuedVersions := [] }
  | cm, is :: rest =>
    if cm.version < version then
      syncLoop getVersion version (_unpackOneVersion getVersion cm is) rest
    else some { cm with queuedVersions := is :: rest }

/-- The function `VersionedSlaveCM::sync`: the slave after the call and the
version returned. `versionHead` is the value of `VERSION_HEAD`, whose
definition is not part of the sources at hand. -/
def sync (versionHead : Nat) (getVersion : ObjectDataIStream → Nat) (cm : VersionedSlaveCM)
    (version : Nat) : Option (VersionedSlaveCM × Nat) :=
  if cm.version = version then some (cm, cm.version)
  else if version = versionHead then
    let cm2 := _syncToHead getVersion cm
    some (cm2, cm2.version)
  else (syncLoop getVersion version cm cm.queuedVersions).map (fun cm2 => (cm2, cm2.version))

/-- The function `VersionedSlaveCM::_ignoreCommand`. `versionNone` is the
value of `VERSION_NONE`, whose definition is not part of the sources at
hand. -/
def _ignoreCommand (versionNone : Nat) (cm : VersionedSlaveCM) (command : Command) : Bool :=
  if cm.version ≠ versionNone ∨ !cm.queuedVersions.isEmpty then false
  else if command.instanceID = cm.instanceID then false
  else true

/-- The stream that a command is added to: the stream in progress, or a new
stream of the type `type` when `_currentIStream` is null. -/
def currentOrNew (type : StreamType) (cm : VersionedSlaveCM) : ObjectDataIStream :=
  match cm.currentIStream with
  | none => { type := type, commands := [] }
  | some stream => stream

/-- The call `addDataPacket( command )` on a stream. -/
def addDataPacket (stream : ObjectDataIStream) (command : Command) : ObjectDataIStream :=
  { stream with commands := stream.commands ++ [command] }

/-- The part that `_cmdInstance` and `_cmdDelta` share: the command is added
to the stream in progress, which is created with the type `type` when there
is none, and a stream that is ready is queued. -/
def addCommand (isReady : ObjectDataIStream → Bool) (getVersion : ObjectDataIStream → Nat)
    (type : StreamType) (cm : VersionedSlaveCM) (command : Command) : VersionedSlaveCM :=
  let current := addDataPacket (currentOrNew type cm) command
  if isReady current then
    { cm with
      queuedVersions := cm.queuedVersions ++ [current]
      notified := cm.notified ++ [getVersion current]
      currentIStream := none }
  else { cm with currentIStream := some current }

/-- The function `VersionedSlaveCM::_cmdInstance`. -/
def _cmdInstance (versionNone : Nat) (isReady : ObjectDataIStream → Bool)
    (getVersion : ObjectDataIStream → Nat) (cm : VersionedSlaveCM) (command : Command) :
    VersionedSlaveCM :=
  if _ignoreCommand versionNone cm command then cm
  else addCommand isReady getVersion StreamType.TYPE_INSTANCE cm command

/-- The function `VersionedSlaveCM::_cmdDelta`. -/
def _cmdDelta (versionNone : Nat) (isReady : ObjectDataIStream → Bool)
    (getVersion : ObjectDataIStream → Nat) (cm : VersionedSlaveCM) (command : Command) :
    VersionedSlaveCM :=
  if _ignoreCommand versionNone cm command then cm
  else addCommand isReady getVersion StreamType.TYPE_DELTA cm command

end VersionedSlaveCM

/-- An example of `getVersion`: the version of a stream is the number in its
first packet. -/
def packetVersion (is : ObjectDataIStream) : Nat :=
  match is.commands with
  | [] => 0
  | command :: _ => command.packet

/-- A slave at version 3 with instance identifier 7 that has the streams of
the versions 4, 5 and 6 in its queue. -/
def slaveWithQueue : VersionedSlaveCM :=
  { version := 3, instanceID := 7,
    queuedVersions := [⟨StreamType.TYPE_DELTA, [⟨7, 4⟩]⟩, ⟨StreamType.TYPE_DELTA, [⟨7, 5⟩]⟩,
      ⟨StreamType.TYPE_INSTANCE, [⟨7, 6⟩]⟩],
    currentIStream := none, applied := [], notified := [] }

/-- A slave with instance identifier 7 that has no version yet and nothing
queued. -/
def freshSlave : VersionedSlaveCM :=
  { version := 0, instanceID := 7, queuedVersions := [], currentIStream := none, applied := [],
    notified := [] }

/-! ## The membership handshake of a listening RSP connection -/

/-- Value of `DatagramType::ID_HELLO`. -/
def ID_HELLO : Nat := 4

/-- Value of `DatagramType::ID_HELLO_REPLY`. -/
def ID_HELLO_REPLY : Nat := 5

/-- Value of `DatagramType::ID_DENY`. -/
def ID_DENY : Nat := 6

/-- Value of `DatagramType::ID_CONFIRM`. -/
def ID_CONFIRM : Nat := 7

/-- Value of `DatagramType::ID_EXIT`. -/
def ID_EXIT : Nat := 8

/-- Value of `DatagramType::COUNTNODE`. -/
def COUNTNODE : Nat := 9

/-- Value of `CO_RSP_PROTOCOL_VERSION`. -/
def CO_RSP_PROTOCOL_VERSION : Nat := 0

/-- Value of `sizeof(DatagramNode)`: four 16-bit fields. -/
def sizeofDatagramNode : Nat := 8

/-- A datagram `struct DatagramNode`, all fields `uint16_t`. -/
structure DatagramNode where
  type : Nat
  protocolVersion : Nat
  connectionID : Nat
  data : Nat
deriving DecidableEq, Repr

/-- The fields of a listening `RSPConnection` that the membership handshake
reads and writes: `_id`, `_sequence`, `_idAccepted`, whether the state is
`STATE_LISTENING`, `_timeouts` and `_children`. `sent` lists the datagrams
written to the socket, in order. -/
structure RSPListener where
  id : Nat
  sequence : Nat
  idAccepted : Bool
  listening : Bool
  timeouts : Nat
  children : List ChildConnection
  sent : List DatagramNode
deriving DecidableEq, Repr

/-- What the io service hands to the protocol thread: a timeout that was not
cancelled, or a received packet of `bytes` bytes that starts with the
datagram `node`. `random` is the number that the random number generator
returns if `_buildNewID` is called while the packet is handled. -/
inductive Event where
  | timeout
  | packet (bytes : Nat) (node : DatagramNode) (random : Nat)
deriving DecidableEq, Repr

namespace RSPListener

/-- The function `RSPConnection::_sendSimpleDatagram`. -/
def _sendSimpleDatagram (c : RSPListener) (type id : Nat) : RSPListener :=
  { c with sent := c.sent ++ [⟨type, CO_RSP_PROTOCOL_VERSION, id, c.sequence⟩] }

/-- The function `RSPConnection::_sendCountNode`: nothing is sent before the
connection is among its own children. -/
def _sendCountNode (c : RSPListener) : RSPListener :=
  match _findConnection c.children c.id with
  | none => c
  | some _ =>
    { c with sent := c.sent ++
        [⟨COUNTNODE, CO_RSP_PROTOCOL_VERSION, c.id, c.children.length % seqMod⟩] }

/-- The function `RSPConnection::_checkNewID`. -/
def _checkNewID (c : RSPListener) (id : Nat) : RSPListener :=
  if id = c.id ∨ (_findConnection c.children id).isSome then _sendSimpleDatagram c ID_DENY c.id
  else _sendSimpleDatagram c ID_HELLO_REPLY c.id

/-- The function `RSPConnection::_addConnection`. `buffers` are the buffers
that the constructor gives to the new child. The list `_newChildren`, which
`acceptSync` reads, is left out. -/
def _addConnection (buffers : List Buffer) (c : RSPListener) (id sequence : Nat) : RSPListener :=
  match _findConnection c.children id with
  | some _ => c
  | none => _sendCountNode { c with children := c.children ++ [newChild id sequence buffers] }

/-- The loop of `_removeConnection`: the first child with the identifier
`id` is erased. -/
def eraseChild (id : Nat) : List ChildConnection → List ChildConnection
  | [] => []
  | child :: rest => if child.id = id then rest else child :: eraseChild id rest

/-- The function `RSPConnection::_removeConnection`. -/
def _removeConnection (c : RSPListener) (id : Nat) : RSPListener :=
  if id = c.id then c
  else _sendCountNode { c with children := eraseChild id c.children }

/-- The function `RSPConnection::_getDatagramNode`: the datagram, or null
for a packet that is too short or of another protocol version. -/
def _getDatagramNode (bytes : Nat) (node : DatagramNode) : Option DatagramNode :=
  if bytes < sizeofDatagramNode then none
  else if node.protocolVersion ≠ CO_RSP_PROTOCOL_VERSION then none
  else some node

/-- The function `RSPConnection::_handleAcceptIDTimeout`. -/
def _handleAcceptIDTimeout (buffers : List Buffer) (c : RSPListener) : RSPListener :=
  let c1 := { c with timeouts := c.timeouts + 1 }
  if c1.timeouts < 20 then _sendSimpleDatagram c1 ID_HELLO c1.id
  else
    let c2 := _addConnection buffers (_sendSimpleDatagram c1 ID_CONFIRM c1.id) c1.id c1.sequence
    _sendCountNode { c2 with idAccepted := true, timeouts := 0 }

/-- The function `RSPConnection::_handleInitTimeout`. -/
def _handleInitTimeout (c : RSPListener) : RSPListener :=
  let c1 := { c with timeouts := c.timeouts + 1 }
  if c1.timeouts < 20 then _sendCountNode c1
  else { c1 with listening := true, timeouts := 0 }

/-- The function `RSPConnection::_handleAcceptIDData`. A datagram of a type
that the switch does not list is logged and changes nothing. -/
def _handleAcceptIDData (buffers : List Buffer) (c : RSPListener) (bytes : Nat)
    (packet : DatagramNode) (random : Nat) : RSPListener :=
  match _getDatagramNode bytes packet with
  | none => c
  | some node =>
    if node.type = ID_HELLO then _checkNewID c node.connectionID
    else if node.type = ID_HELLO_REPLY then _addConnection buffers c node.connectionID node.data
    else if node.type = ID_DENY then
      -- a connection refused my ID, try another ID
      if node.connectionID = c.id then
        let c1 := { c with timeouts := 0 }
        let c2 := { c1 with id := random }
        _sendSimpleDatagram c2 ID_HELLO random
      else c
    else if node.type = ID_EXIT then _removeConnection c node.connectionID
    else c

/-- The function `RSPConnection::_handleInitData`. A datagram of a type that
the switch does not list is logged and changes nothing. -/
def _handleInitData (buffers : List Buffer) (c : RSPListener) (bytes : Nat)
    (packet : DatagramNode) (connected : Bool) : RSPListener :=
  match _getDatagramNode bytes packet with
  | none => c
  | some node =>
    if node.type = ID_HELLO then
      _checkNewID (if !connected then { c with timeouts := 0 } else c) node.connectionID
    else if node.type = ID_CONFIRM then
      _addConnection buffers (if !connected then { c with timeouts := 0 } else c)
        node.connectionID node.data
    else if node.type = COUNTNODE then c
    else if node.type = ID_HELLO_REPLY then _addConnection buffers c node.connectionID node.data
    else if node.type = ID_EXIT then _removeConnection c node.connectionID
    else c

/-- The functions `_handleTimeout` and `_handlePacket` on a connection that
is not listening: the handler of the event is that of the announcing phase
while `_idAccepted` is false and that of the init phase after that. -/
def handleEvent (buffers : List Buffer) (c : RSPListener) : Event → RSPListener
  | Event.timeout =>
    if c.idAccepted then _handleInitTimeout c else _handleAcceptIDTimeout buffers c
  | Event.packet bytes node random =>
    if bytes ≥ sizeofDatagramNode then
      if c.idAccepted then _handleInitData buffers c bytes node false
      else _handleAcceptIDData buffers c bytes node random
    else c

/-- The call `_ioService.run()` of `_initThread`: the events are handled in
order until the state is `STATE_LISTENING`, where `_handleInitTimeout` stops
the io service. -/
def run (buffers : List Buffer) : RSPListener → List Event → RSPListener
  | c, [] => c
  | c, event :: rest => if c.listening then c else run buffers (handleEvent buffers c event) rest

/-- The function `RSPConnection::_initThread` on the events that the io
service delivers: the state when it returns or when the events end. -/
def _initThread (buffers : List Buffer) (c : RSPListener) (events : List Event) : RSPListener :=
  run buffers (_sendSimpleDatagram { c with timeouts := 0 } ID_HELLO c.id) events

/-- A connection with the identifier `id` as `listen` hands it to
`_initThread`: not accepted, not listening, without children. -/
def start (id sequence : Nat) : RSPListener :=
  { id := id, sequence := sequence, idAccepted := false, listening := false, timeouts := 0,
    children := [], sent := [] }

/-- The number of timeouts among events. -/
def timeoutCount : List Event → Nat
  | [] => 0
  | Event.timeout :: rest => timeoutCount rest + 1
  | Event.packet _ _ _ :: rest => timeoutCount rest

/-- The event is a packet that `_handleAcceptIDData` takes for a refusal of
the identifier `id`: a datagram `ID_DENY` of the protocol version that
carries `id`. -/
def deniesID (id : Nat) : Event → Bool
  | Event.timeout => false
  | Event.packet bytes node _ =>
    decide (sizeofDatagramNode ≤ bytes ∧ node.protocolVersion = CO_RSP_PROTOCOL_VERSION ∧
      node.type = ID_DENY ∧ node.connectionID = id)

/-- The event is a packet at which `_handleInitData` sets the timeout count
back to zero: a datagram `ID_HELLO` or `ID_CONFIRM` of the protocol
version. -/
def resetsTimeouts : Event → Bool
  | Event.timeout => false
  | Event.packet bytes node _ =>
    decide (sizeofDatagramNode ≤ bytes ∧ node.protocolVersion = CO_RSP_PROTOCOL_VERSION ∧
      (node.type = ID_HELLO ∨ node.type = ID_CONFIRM))

end RSPListener

/-- A step that leaves the handshake where it is: identifier, sequence,
flags and timeout count are unchanged, the datagrams sent are replies or
node counts, and a connection that is among its own children stays there. -/
structure QuietStep (c c2 : RSPListener) : Prop where
  id : c2.id = c.id
  sequence : c2.sequence = c.sequence
  idAccepted : c2.idAccepted = c.idAccepted
  listening : c2.listening = c.listening
  timeouts : c2.timeouts = c.timeouts
  sent : ∃ extra, c2.sent = c.sent ++ extra ∧
    ∀ d ∈ extra, d.type = ID_HELLO_REPLY ∨ d.type = ID_DENY ∨ d.type = COUNTNODE
  self : (_findConnection c.children c.id).isSome = true →
    (_findConnection c2.children c2.id).isSome = true

/-- The announcing phase after `k` timeouts: the identifier `id` is not
accepted yet, and the datagrams sent are `k + 1` announcements of `id`,
replies to the announcements of others and node counts. -/
structure Announcing (id k : Nat) (c : RSPListener) : Prop where
  idAccepted : c.idAccepted = false
  listening : c.listening = false
  ident : c.id = id
  timeouts : c.timeouts = k
  types : ∀ d ∈ c.sent, (d.type = ID_HELLO ∧ d.connectionID = id) ∨ d.type = ID_HELLO_REPLY ∨
    d.type = ID_DENY ∨ d.type = COUNTNODE
  hellos : (c.sent.filter (fun d => decide (d.type = ID_HELLO))).length = k + 1

/-- The handshake never gets ahead of itself: a listening connection has an
accepted identifier, and a connection with an accepted identifier is among
its own children. -/
def ListeningSafe (c : RSPListener) : Prop :=
  (c.listening = true → c.idAccepted = true) ∧
    (c.idAccepted = true → (_findConnection c.children c.id).isSome = true)

/-! ## Membership changes, object versions and the write timeout -/

namespace RSPListener

/-- The value that `_addConnection` returns: false when a child with the
identifier exists, true when the child was added. -/
def addConnectionReturns (c : RSPListener) (id : Nat) : Bool :=
  match _findConnection c.children id with
  | some _ => false
  | none => true

/-- A call of `_addConnection(id, sequence)` or of `_removeConnection(id)`. -/
inductive ChildOp where
  | add (id sequence : Nat)
  | remove (id : Nat)
deriving DecidableEq, Repr

/-- A sequence of calls of `_addConnection` and `_removeConnection`. -/
def applyOps (buffers : List Buffer) : RSPListener → List ChildOp → RSPListener
  | c, [] => c
  | c, ChildOp.add child sequence :: rest =>
    applyOps buffers (_addConnection buffers c child sequence) rest
  | c, ChildOp.remove child :: rest => applyOps buffers (_removeConnection c child) rest

/-- A listener with the identifier 1 whose identifier is accepted and that
knows itself and a connection with the identifier 2. -/
def listenerWithChild : RSPListener :=
  { start 1 0 with idAccepted := true, children := [newChild 1 0 [], newChild 2 0 []] }

end RSPListener

/-- The struct `ObjectVersion`: an object identifier and a version, both
`uint128_t`. -/
structure ObjectVersion where
  identifier : Nat
  version : Nat
deriving DecidableEq, Repr

namespace ObjectVersion

/-- The operator `ObjectVersion::operator==`. -/
def eq (a value : ObjectVersion) : Bool :=
  a.identifier == value.identifier && a.version == value.version

/-- The operator `ObjectVersion::operator!=`. -/
def ne (a value : ObjectVersion) : Bool :=
  a.identifier != value.identifier || a.version != value.version

/-- The operator `ObjectVersion::operator<`. -/
def lt (a rhs : ObjectVersion) : Bool :=
  decide (a.identifier < rhs.identifier) ||
    (a.identifier == rhs.identifier && decide (a.version < rhs.version))

/-- The operator `ObjectVersion::operator>`. -/
def gt (a rhs : ObjectVersion) : Bool :=
  decide (a.identifier > rhs.identifier) ||
    (a.identifier == rhs.identifier && decide (a.version > rhs.version))

end ObjectVersion

/-- Value of the enumerator `Global::IATTR_RSP_ACK_TIMEOUT`, the fourth of
`enum IAttribute`. -/
def IATTR_RSP_ACK_TIMEOUT : Nat := 3

/-- Value of `CO_RSP_MAX_TIMEOUTS`. -/
def CO_RSP_MAX_TIMEOUTS : Nat := 1000

/-- The member `_writeTimeOut`, a `const unsigned` that the constructor sets
to `Global::IATTR_RSP_ACK_TIMEOUT * CO_RSP_MAX_TIMEOUTS * 2`: the timeout in
milliseconds that `write` passes to `_appBuffers.timedPop`. -/
def _writeTimeOut : Nat := (IATTR_RSP_ACK_TIMEOUT * CO_RSP_MAX_TIMEOUTS * 2) % 2 ^ 32

/-! ## The protocol thread, writer side: `_repeatData` -/

/-- The end of a turn of the loop of `_repeatData`, `if (request.start ==
request.end) _repeatQueue.pop_front(); else ++request.start`: the repeat
queue that the request `request` at the front of `rest` leaves. -/
def advanceRequest (request : Nack) (rest : List Nack) : List Nack :=
  if request.start = request.end_ then rest
  else ⟨(request.start + 1) % seqMod, request.end_⟩ :: rest

/-- One turn of the loop of `_repeatData` for the request `request` at the
front of the repeat queue, `rest` being the requests behind it: the writer
after the turn, and whether the turn sent a datagram, after which the
function returns. A request for the sequence that is next to be written is
invalid and dropped whole; a packet that is still in `_writeBuffers` is
sent again; then the request moves on by one packet or, at its end, leaves
the queue. -/
def repeatStep (cfg : Config) (c : RSPConnection) (request : Nack) (rest : List Nack) :
    RSPConnection × Bool :=
  let distance := (c.sequence + seqMod - request.start) % seqMod
  if distance = 0 then ({ c with repeatQueue := rest }, false)
  else
    let send := decide (distance ≤ c.writeBuffers.length)
    let c1 :=
      if send then
        -- not already acked
        match c.writeBuffers.get? (c.writeBuffers.length - distance) with
        | some buffer =>
          let c2 := _waitWritable cfg c
          { c2 with wire := c2.wire ++ [{ buffer with payload := buffer.payload.take buffer.size }] }
        | none => c
      else c
    ({ c1 with repeatQueue := advanceRequest request rest }, send)

/-- The loop `while (!_repeatQueue.empty())` of `_repeatData`. The first
argument bounds the number of turns; `none` means the bound was too
small. -/
def repeatLoop (cfg : Config) : Nat → RSPConnection → Option RSPConnection
  | 0, c =>
    match c.repeatQueue with
    | [] => some c
    | _ :: _ => none
  | fuel + 1, c =>
    match c.repeatQueue with
    | [] => some c
    | request :: rest =>
      if (repeatStep cfg c request rest).2 then some (repeatStep cfg c request rest).1
      else repeatLoop cfg fuel (repeatStep cfg c request rest).1

/-- The number of packets that the requests of a repeat queue name, which
bounds the number of turns of the loop of `_repeatData`. -/
def repeatFuel : List Nack → Nat
  | [] => 0
  | request :: rest => (request.end_ + seqMod - request.start) % seqMod + 1 + repeatFuel rest

/-- The function `RSPConnection::_repeatData`. -/
def _repeatData (cfg : Config) (c : RSPConnection) : Option RSPConnection :=
  repeatLoop cfg (repeatFuel c.repeatQueue) { c with timeouts := 0 }

/-- The 16-bit sequence number `j` packets before `sequence`. -/
def seqBack (sequence j : Nat) : Nat := (sequence + seqMod - j % seqMod) % seqMod

/-- The written buffers are the last packets written: `_writeBuffers` holds,
from front to back, the datagrams with the sequences `_sequence - n` to
`_sequence - 1`, `n` being its size. -/
def WriteBuffersConsecutive (c : RSPConnection) : Prop :=
  c.sequence < seqMod ∧
    ∀ i, i < c.writeBuffers.length →
      (c.writeBuffers.get? i).map Buffer.sequence
        = some (seqBack c.sequence (c.writeBuffers.length - i))

instance (c : RSPConnection) : Decidable (WriteBuffersConsecutive c) := by
  unfold WriteBuffersConsecutive; infer_instance

/-- A call of `_writeData` or of `_finishWriteQueue(sequence)`. -/
inductive WriterOp where
  | writeData
  | finishWriteQueue (sequence : Nat)
deriving DecidableEq, Repr

/-- A sequence of calls of `_writeData` and `_finishWriteQueue`; there is
no result when one of the calls has none. -/
def applyWriterOps (cfg : Config) : RSPConnection → List WriterOp → Option RSPConnection
  | c, [] => some c
  | c, WriterOp.writeData :: rest => (_writeData cfg c).bind (fun c1 => applyWriterOps cfg c1 rest)
  | c, WriterOp.finishWriteQueue sequence :: rest =>
    (_finishWriteQueue c sequence).bind (fun c1 => applyWriterOps cfg c1 rest)

/-- The requests of a repeat queue are made of 16-bit values. -/
def RepeatQueueWF (queue : List Nack) : Prop :=
  ∀ request ∈ queue, request.start < seqMod ∧ request.end_ < seqMod

instance (queue : List Nack) : Decidable (RepeatQueueWF queue) := by
  unfold RepeatQueueWF; infer_instance

/-- A writer with identifier 1 and a reader 2 that has written the
datagrams 990 to 999, none of them acknowledged yet, and has the given
repeat queue. -/
def writerWithRepeats (repeatQueue : List Nack) : RSPConnection :=
  { id := 1, sequence := 1000,
    children := [ackedChild 1 990 989, ackedChild 2 0 989],
    threadBuffers := [], appBuffers := [],
    writeBuffers := (List.range 10).map (burstDatagram 1 990),
    repeatQueue := repeatQueue, sendRate := 102400, timeouts := 0, wire := [] }

/-! ## Example states of a reader -/

/-- A child with identifier 9 that expects the sequence 64940 and has parked
every second datagram from 64942 to 65534, and the datagram 1: the deque
`_recvBuffers` has 597 entries, which are 297 times a hole and a buffer,
then the holes for 65535 and 0 and the buffer with the sequence 1. -/
def childWithManyHoles : ChildConnection :=
  { newChild 9 64940 [] with
    recvBuffers := (List.range 297).flatMap
        (fun k => [none, some (burstDatagram 9 64940 (2 * k + 2))]) ++
      [none, none, some (burstDatagram 9 64940 597)] }

/-- The ranges of a negative acknowledgement, none for an acknowledgement. -/
def nackRanges : Sent → List Nack
  | Sent.ack _ _ _ => []
  | Sent.nack _ _ nacks => nacks

/-- Modelled from the spec: the states of a connection, the enumeration
`Connection::State`. -/
inductive ConnectionState where
  | STATE_CLOSED
  | STATE_CONNECTING
  | STATE_CONNECTED
  | STATE_LISTENING
  | STATE_CLOSING
deriving DecidableEq, Repr

/-- An object of the class `RSPConnection` with the members that `close`
reads or writes. The pointers `_parent`, `_children` and `_newChildren` are
addresses in the table of an `RSPHeap`; `thread`, `read` and `write` say
whether `_thread`, `_read` and `_write` are non-null; a null pointer in
`_appBuffers`, the close sentinel, is `none`; `eventSet` and `eventOpen` are
the member `_set` and the state of the event connection `_event`. -/
structure RSPObject where
  state : ConnectionState
  id : Nat
  sequence : Nat
  parent : Option Nat
  thread : Bool
  read : Bool
  write : Bool
  children : List Nat
  newChildren : List Nat
  threadBuffers : List Buffer
  appBuffers : List (Option Buffer)
  writeBuffers : List Buffer
  eventSet : Bool
  eventOpen : Bool
deriving DecidableEq, Repr

/-- The RSP connections of a process, by address, and the datagrams written
to the sockets, in order. -/
structure RSPHeap where
  connections : List RSPObject
  sent : List DatagramNode
deriving DecidableEq, Repr

namespace RSPObject

/-- Modelled from the spec: the function `Connection::isClosed`. -/
def isClosed (c : RSPObject) : Bool := c.state = ConnectionState.STATE_CLOSED

/-- Modelled from the spec: the function `Connection::_setState`. -/
def _setState (c : RSPObject) (state : ConnectionState) : RSPObject := { c with state := state }

/-- The function `RSPConnection::_isWriting`. -/
def _isWriting (c : RSPObject) : Bool := !c.threadBuffers.isEmpty || !c.writeBuffers.isEmpty

/-- The object at address `i` is replaced by `f` of it. -/
def update (connections : List RSPObject) (i : Nat) (f : RSPObject → RSPObject) :
    List RSPObject :=
  match connections[i]? with
  | some c => connections.set i (f c)
  | none => connections

/-- The loop of `close` that notifies the children: the close sentinel is
pushed to `_appBuffers` of each child and its event is set. -/
def notifyChildren (connections : List RSPObject) : List Nat → List RSPObject
  | [] => connections
  | child :: rest =>
    notifyChildren
      (update connections child
        (fun c => { c with appBuffers := c.appBuffers ++ [none], eventSet := true }))
      rest

/-- The part of `close` after the test `isClosed()`, for the object `c` at
the address `self`: `ID_EXIT` is sent and the protocol thread stopped and
joined if there is one, the children are notified, parent, sockets and
`_threadBuffers` are cleared, the sentinel is pushed, the state becomes
`STATE_CLOSED` and the event connection is closed. The protocol thread stops
without handling another event. -/
def closeOpen (h : RSPHeap) (self : Nat) (c : RSPObject) : RSPHeap :=
  let sent :=
    if c.thread then h.sent ++ [⟨ID_EXIT, CO_RSP_PROTOCOL_VERSION, c.id, c.sequence⟩] else h.sent
  let l1 := update h.connections self (fun c => _setState c ConnectionState.STATE_CLOSING)
  let l2 :=
    if c.thread then
      update (notifyChildren l1 c.children) self
        (fun c => { c with thread := false, children := [], newChildren := [] })
    else l1
  let l3 := update l2 self
    (fun c => _setState
      { c with
        parent := none
        read := false
        write := false
        threadBuffers := []
        appBuffers := c.appBuffers ++ [none] }
      ConnectionState.STATE_CLOSED)
  ⟨update l3 self (fun c => { c with eventOpen := false }), sent⟩

/-- The function `RSPConnection::close` called on the object at the address
`self`, with nothing else running at the same time. The first argument
bounds the depth of the calls `_parent->close()`. There is no result,
`none`, when the bound is too small, when `self` or the parent is not an
address of the table, or when the call does not return: the loop `while
(!_parent && _isWriting()) sleep(10)` does not end, as nothing takes a buffer
from the queues meanwhile. -/
def close : Nat → RSPHeap → Nat → Option RSPHeap
  | 0, _, _ => none
  | fuel + 1, h, self =>
    match h.connections[self]? with
    | none => none
    | some c0 =>
      let escalated : Option RSPHeap :=
        match c0.parent with
        | none => some h
        | some parent =>
          match h.connections[parent]? with
          | none => none
          | some p => if p.id = c0.id then close fuel h parent else some h
      match escalated with
      | none => none
      | some h1 =>
        match h1.connections[self]? with
        | none => none
        | some c =>
          if c.parent.isNone && _isWriting c then none
          else if isClosed c then some h1
          else some (closeOpen h1 self c)

/-- A connection as the constructor `RSPConnection::RSPConnection` leaves
it, with the identifier `id` that `_buildNewID` chose: closed, without
parent, thread and sockets, with empty queues and a connected event. -/
def newConnection (id : Nat) : RSPObject :=
  { state := ConnectionState.STATE_CLOSED, id := id, sequence := 0, parent := none,
    thread := false, read := false, write := false, children := [], newChildren := [],
    threadBuffers := [], appBuffers := [], writeBuffers := [], eventSet := false,
    eventOpen := true }

/-- A listening connection with the identifier `id`, its protocol thread
running, and the children at the addresses `children`. -/
def listeningConnection (id : Nat) (children : List Nat) : RSPObject :=
  { newConnection id with
    state := ConnectionState.STATE_LISTENING, thread := true, read := true, write := true,
    children := children }

/-- A child with the identifier `id` that `_addConnection` of the listener
at the address `parent` created; `buffers` are its free buffers. -/
def childConnection (id parent : Nat) (buffers : List Buffer) : RSPObject :=
  { newConnection id with
    state := ConnectionState.STATE_CONNECTED, parent := some parent, threadBuffers := buffers }

/-- A closed connection has no parent and nothing in `_threadBuffers` and
`_writeBuffers`, as the constructor and `close` leave it. -/
def Settled (c : RSPObject) : Prop :=
  c.state = ConnectionState.STATE_CLOSED ∧ c.parent = none ∧ c.threadBuffers = [] ∧
    c.writeBuffers = []

/-- The objects of a heap are as the program makes them: a closed
connection is settled, and a connection with a parent, which does not
write, has no written buffers. -/
def Produced (h : RSPHeap) : Prop :=
  ∀ (x : Nat) (c : RSPObject), h.connections[x]? = some c →
    (c.state = ConnectionState.STATE_CLOSED → Settled c) ∧ (c.parent ≠ none → c.writeBuffers = [])

end RSPObject

/-- The objects of `l1` are those of `l` with the same written buffers, and
away from the address `self` with the same state, parent and thread
buffers. -/
def Frame (self : Nat) (l l1 : List RSPObject) : Prop :=
  l1.length = l.length ∧
  ∀ (x : Nat) (c1 : RSPObject), l1[x]? = some c1 →
    ∃ c, l[x]? = some c ∧ c1.writeBuffers = c.writeBuffers ∧
      (x ≠ self → c1.state = c.state ∧ c1.parent = c.parent ∧
        c1.threadBuffers = c.threadBuffers)

/-! # Theorems -/

/-! ## C1: byte-stream round trip -/

theorem copySize_eq (b : Buffer) (pos bl : Nat) (hpos : pos ≤ b.size) (hb : WFBuffer b) :
    copySize b pos bl = min bl (b.size - pos) := by
  unfold copySize
  have h1 : b.size < 65536 := hb.2
  have : (b.size + 2 ^ 64 - pos) % 2 ^ 64 = b.size - pos := by
    have h2 : b.size + 2 ^ 64 - pos = (b.size - pos) + 2 ^ 64 := by omega
    rw [h2, Nat.add_mod_right]
    apply Nat.mod_eq_of_lt
    omega
  rw [this]

theorem data_drop_length (b : Buffer) (pos : Nat) (hb : WFBuffer b) :
    (b.data.drop pos).length = b.size - pos := by
  have := hb.1
  simp [Buffer.data, List.length_take]
  omega

theorem copied_eq (b : Buffer) (pos size : Nat) (hs : size ≤ b.size - pos) :
    (b.payload.drop pos).take size = (b.data.drop pos).take size := by
  unfold Buffer.data
  rw [List.drop_take, List.take_take]
  congr 1
  omega

theorem advanceRead_connected (c : ChildConnection) (b : Buffer) (size : Nat) :
    (advanceRead c b size).connected = c.connected := by
  unfold advanceRead; split <;> rfl

theorem advanceRead_appBuffers (c : ChildConnection) (b : Buffer) (size : Nat) :
    (advanceRead c b size).appBuffers = c.appBuffers := by
  unfold advanceRead; split <;> rfl

theorem advanceRead_inside (c : ChildConnection) (b : Buffer) (size : Nat)
    (h : c.readBufferPos + size < b.size) :
    (advanceRead c b size).readBuffer = c.readBuffer ∧
      (advanceRead c b size).readBufferPos = c.readBufferPos + size := by
  unfold advanceRead; rw [if_neg (by omega)]; exact ⟨rfl, rfl⟩

theorem advanceRead_released (c : ChildConnection) (b : Buffer) (size : Nat)
    (h : b.size ≤ c.readBufferPos + size) :
    (advanceRead c b size).readBuffer = none ∧ (advanceRead c b size).readBufferPos = 0 := by
  unfold advanceRead; rw [if_pos (by omega)]; exact ⟨rfl, rfl⟩

theorem readSyncLoop_pending (bytes : Nat) :
    ∀ (fuel : Nat) (c : ChildConnection) (bytesLeft : Nat) (out : List UInt8),
      ReadReady c → bytesLeft ≤ (pending c).length → 1 ≤ fuel →
      (bytesLeft ≠ 0 → c.appBuffers.length + (if c.readBuffer.isSome then 1 else 0) + 1 ≤ fuel) →
      ∃ c1, readSyncLoop bytes fuel c bytesLeft out
            = some (.returned bytes (out ++ (pending c).take bytesLeft) c1) ∧
          ReadReady c1 ∧ pending c1 = (pending c).drop bytesLeft := by
  intro fuel
  induction fuel with
  | zero => intro c bytesLeft out _ _ hf; omega
  | succ fuel ih =>
    intro c bytesLeft out hc hlen _ hf
    by_cases h0 : bytesLeft = 0
    · subst h0
      exact ⟨c, by simp [readSyncLoop], hc, by simp⟩
    · have hf := hf h0
      -- the buffer this iteration reads from
      have key : ∀ (b : Buffer) (c1 : ChildConnection) (pos : Nat),
          nextReadBuffer c = some (some b, c1) → c1.readBufferPos = pos →
          c1.readBuffer = some b → pos ≤ b.size → WFBuffer b → c1.connected = true →
          (∀ x ∈ c1.appBuffers, ∃ b, x = some b ∧ WFBuffer b) →
          pending c = b.data.drop pos ++ pendingApp c1.appBuffers →
          c1.appBuffers.length + 1 ≤ fuel →
          ∃ c2, readSyncLoop bytes (fuel + 1) c bytesLeft out
              = some (.returned bytes (out ++ (pending c).take bytesLeft) c2) ∧
            ReadReady c2 ∧ pending c2 = (pending c).drop bytesLeft := by
        intro b c1 pos hnext hpos hrb hle hwf hconn happs hpend hfuel
        have hsz := copySize_eq b pos bytesLeft hle hwf
        have hdl := data_drop_length b pos hwf
        simp only [readSyncLoop, if_neg h0, hnext, hpos]
        by_cases hrel : bytesLeft < b.size - pos
        · -- the request ends inside the buffer
          have hsize : copySize b pos bytesLeft = bytesLeft := by
            rw [hsz]; exact Nat.min_eq_left (by omega)
          obtain ⟨ha1, ha2⟩ := advanceRead_inside c1 b bytesLeft (by omega)
          rw [hsize, Nat.sub_self]
          have hready : ReadReady (advanceRead c1 b bytesLeft) :=
            ⟨by rw [advanceRead_connected]; exact hconn,
              (by
                intro b1 hb1
                rw [ha1, hrb, Option.some.injEq] at hb1
                subst hb1
                exact ⟨by rw [ha2]; omega, hwf⟩),
              (by intro h; rw [ha1, hrb] at h; cases h),
              (by rw [advanceRead_appBuffers]; exact happs)⟩
          obtain ⟨c2, h1, h2, h3⟩ := ih (advanceRead c1 b bytesLeft) 0
            (out ++ (b.payload.drop pos).take bytesLeft) hready (Nat.zero_le _) (by omega)
            (by intro h; exact absurd rfl h)
          refine ⟨c2, ?_, h2, ?_⟩
          · rw [h1, List.take_zero, List.append_nil, copied_eq b pos bytesLeft (by omega), hpend,
              List.take_append_of_le_length (by rw [hdl]; omega)]
          · rw [h3, List.drop_zero, hpend]
            simp only [pending, ha1, hrb, ha2, advanceRead_appBuffers, hpos]
            rw [List.drop_append_of_le_length (by rw [hdl]; omega), List.drop_drop]
        · -- the buffer is used up and released
          have hsize : copySize b pos bytesLeft = b.size - pos := by
            rw [hsz]; exact Nat.min_eq_right (by omega)
          obtain ⟨ha1, ha0⟩ := advanceRead_released c1 b (b.size - pos) (by omega)
          rw [hsize]
          have hready : ReadReady (advanceRead c1 b (b.size - pos)) :=
            ⟨by rw [advanceRead_connected]; exact hconn,
              (by intro b1 hb1; rw [ha1] at hb1; cases hb1), (fun _ => ha0),
              (by rw [advanceRead_appBuffers]; exact happs)⟩
          have hpend2 : pending (advanceRead c1 b (b.size - pos)) = pendingApp c1.appBuffers := by
            simp only [pending, ha1, advanceRead_appBuffers, List.nil_append]
          have hlen2 : bytesLeft - (b.size - pos) ≤ (pendingApp c1.appBuffers).length := by
            rw [hpend, List.length_append, hdl] at hlen
            omega
          obtain ⟨c2, h1, h2, h3⟩ := ih _ (bytesLeft - (b.size - pos))
            (out ++ (b.payload.drop pos).take (b.size - pos)) hready
            (by rw [hpend2]; exact hlen2) (by omega)
            (by
              intro _
              rw [ha1, advanceRead_appBuffers]
              simp only [Option.isSome_none, Bool.false_eq_true, if_false]
              omega)
          refine ⟨c2, ?_, h2, ?_⟩
          · rw [h1, hpend2, hpend, copied_eq b pos _ (le_refl _), List.append_assoc,
              List.take_append_eq_append_take, hdl,
              List.take_of_length_le (l := List.drop pos b.data) (by rw [hdl]),
              List.take_of_length_le (l := List.drop pos b.data) (by rw [hdl]; omega)]
          · rw [h3, hpend2, hpend, List.drop_append_eq_append_drop, hdl,
              List.drop_of_length_le (l := List.drop pos b.data) (by rw [hdl]; omega),
              List.nil_append]
      cases hrb : c.readBuffer with
      | some b =>
        obtain ⟨hlt, hwf⟩ := hc.cur b hrb
        rw [hrb] at hf
        refine key b c c.readBufferPos (by simp [nextReadBuffer, hrb]) rfl hrb (by omega) hwf
          hc.connected hc.apps (by simp [pending, hrb]) (by simpa using hf)
      | none =>
        rw [hrb] at hf
        cases happ : c.appBuffers with
        | nil =>
          exfalso
          simp [pending, hrb, happ, pendingApp] at hlen
          exact h0 hlen
        | cons x rest =>
          obtain ⟨b, hx, hwf⟩ := hc.apps x (by rw [happ]; exact List.mem_cons_self _ _)
          subst hx
          rw [happ] at hf
          refine key b { c with appBuffers := rest, readBuffer := some b } c.readBufferPos
            (by simp [nextReadBuffer, hrb, happ]) rfl rfl ?_ hwf hc.connected
            (by intro x hx; exact hc.apps x (by rw [happ]; exact List.mem_cons_of_mem _ hx))
            ?_ (by simpa using hf)
          · rw [hc.idle hrb]; exact Nat.zero_le _
          · simp [pending, hrb, happ, pendingApp, hc.idle hrb]

theorem readSync_pending (c : ChildConnection) (n : Nat) (hc : ReadReady c)
    (hn : n ≤ (pending c).length) :
    ∃ c1, readSync c n = some (.returned n ((pending c).take n) c1) ∧
      ReadReady c1 ∧ pending c1 = (pending c).drop n := by
  obtain ⟨c1, h1, h2, h3⟩ := readSyncLoop_pending n (c.appBuffers.length + 2) c n [] hc hn
    (by omega) (by intro _; split <;> omega)
  refine ⟨c1, ?_, h2, h3⟩
  unfold readSync
  rw [hc.connected]
  simpa using h1

theorem readChunks_pending (chunks : List Nat) :
    ∀ c : ChildConnection, ReadReady c → chunks.sum ≤ (pending c).length →
      ∃ results, readChunks c chunks = some results ∧
        results.map Prod.fst = chunks.map Int.ofNat ∧
        (results.map Prod.snd).flatten = (pending c).take chunks.sum := by
  induction chunks with
  | nil => intro c _ _; exact ⟨[], rfl, rfl, by simp⟩
  | cons n rest ih =>
    intro c hc hsum
    rw [List.sum_cons] at hsum
    obtain ⟨c1, h1, h2, h3⟩ := readSync_pending c n hc (by omega)
    obtain ⟨results, r1, r2, r3⟩ := ih c1 h2 (by rw [h3, List.length_drop]; omega)
    refine ⟨(Int.ofNat n, (pending c).take n) :: results, ?_, ?_, ?_⟩
    · simp only [readChunks, h1, r1, Option.map_some']
      rfl
    · simp only [List.map_cons, r2]
    · simp only [List.map_cons, List.flatten_cons, r3, h3, List.sum_cons]
      rw [List.take_add]

theorem writeLoop_pending (payloadSize id : Nat) (hp : payloadSize < seqMod) :
    ∀ (n : Nat) (data : List UInt8) (pops : List Buffer), n ≤ pops.length →
      ∃ bufs, writeLoop payloadSize id n data pops = some bufs ∧
        (∀ b ∈ bufs, WFBuffer b) ∧
        pendingApp (bufs.map some) = data.take (n * payloadSize) := by
  intro n
  induction n with
  | zero => intro data pops _; exact ⟨[], rfl, by simp, by simp [pendingApp]⟩
  | succ n ih =>
    intro data pops hlen
    cases pops with
    | nil => simp at hlen
    | cons buffer pops1 =>
      obtain ⟨bufs, h1, h2, h3⟩ := ih (data.drop (min data.length payloadSize)) pops1
        (by simpa using hlen)
      have hmin : min data.length payloadSize < seqMod := lt_of_le_of_lt (Nat.min_le_right _ _) hp
      have hmod : min data.length payloadSize % seqMod = min data.length payloadSize :=
        Nat.mod_eq_of_lt hmin
      have htl : (data.take (min data.length payloadSize)).length = min data.length payloadSize := by
        rw [List.length_take]; omega
      refine ⟨_, by simp only [writeLoop, h1, Option.map_some']; rfl, ?_, ?_⟩
      · intro b hb
        rcases List.mem_cons.mp hb with rfl | hb
        · refine ⟨?_, by simp only [hmod]; exact hmin⟩
          simp only [hmod, memcpyAt, List.take_zero, List.nil_append, List.length_append, htl]
          omega
        · exact h2 b hb
      · simp only [List.map_cons, pendingApp, h3, Buffer.data, hmod, memcpyAt, List.take_zero,
          List.nil_append]
        rw [List.take_append_of_le_length (by rw [htl]), List.take_of_length_le (by rw [htl])]
        rcases Nat.lt_or_ge data.length payloadSize with hlt | hge
        · rw [Nat.min_eq_left (by omega), List.take_of_length_le (le_refl _),
            List.drop_of_length_le (le_refl _), List.take_nil, List.append_nil,
            List.take_of_length_le]
          have : payloadSize ≤ (n + 1) * payloadSize := Nat.le_mul_of_pos_left _ (by omega)
          omega
        · rw [Nat.min_eq_right hge, Nat.add_mul, Nat.one_mul, Nat.add_comm, List.take_add]

theorem nDatagrams_mul_ge (payloadSize bytes : Nat) (hp : 0 < payloadSize) :
    bytes ≤ nDatagrams payloadSize bytes * payloadSize := by
  unfold nDatagrams
  have h1 := Nat.div_add_mod bytes payloadSize
  have h2 := Nat.mod_lt bytes hp
  split
  · rw [Nat.add_mul, Nat.one_mul]
    have : bytes / payloadSize * payloadSize = payloadSize * (bytes / payloadSize) := Nat.mul_comm _ _
    omega
  · rename_i h
    have := not_not.mp h
    omega

/-- C1, as amended: for a payload size that fits the 16-bit size field, what
`write` queues is read back by `readSync` in any chunk sizes that sum to the
length of the input. -/
theorem write_readSync_round_trip (payloadSize id : Nat) (pops : List Buffer) (B : List UInt8)
    (chunks : List Nat) (hp : 0 < payloadSize) (hp16 : payloadSize < 65536)
    (hpops : nDatagrams payloadSize B.length ≤ pops.length) (hsum : chunks.sum = B.length) :
    RoundTrip payloadSize id pops B chunks := by
  obtain ⟨bufs, h1, h2, h3⟩ := writeLoop_pending payloadSize id hp16 _ B pops hpops
  rw [List.take_of_length_le (nDatagrams_mul_ge payloadSize B.length hp)] at h3
  have hready : ReadReady (deliveredChild id 0 bufs) :=
    ⟨rfl, (by intro b hb; cases hb), (fun _ => rfl), (by
      intro x hx
      obtain ⟨b, hb, rfl⟩ := List.mem_map.mp hx
      exact ⟨b, rfl, h2 b hb⟩)⟩
  have hpend : pending (deliveredChild id 0 bufs) = B := by
    simp only [pending, deliveredChild, List.nil_append, h3]
  obtain ⟨results, r1, r2, r3⟩ := readChunks_pending chunks _ hready (by rw [hpend, hsum])
  refine ⟨bufs, results, h1, r1, r2, ?_⟩
  rw [r3, hpend, hsum, List.take_of_length_le (le_refl _)]

theorem zeros65536_length : zeros65536.length = 65536 := List.length_replicate _ _

theorem nDatagrams_65536 : nDatagrams 65536 65536 = 1 := by decide

theorem write_zeros65536 : write 65536 1 [emptyBuffer] zeros65536
    = some [⟨DATA, 0, 1, 0, memcpyAt [] 0 zeros65536 65536⟩] := by
  unfold write
  rw [zeros65536_length, nDatagrams_65536]
  simp only [writeLoop, zeros65536_length, Option.map_some', Nat.min_self]
  rfl

/-- C1, as stated, fails: with a payload size of 65536 the 16-bit size field
of the one datagram that carries 65536 bytes is 0, and the `readSync` call for
these bytes finds no data in it and does not return. -/
theorem round_trip_fails_payload_65536 :
    ¬ RoundTrip 65536 1 [emptyBuffer] zeros65536 [65536] := by
  rintro ⟨bufs, results, hw, hr, -, -⟩
  rw [write_zeros65536, Option.some.injEq] at hw
  subst hw
  simp [readChunks, readSync, deliveredChild, readSyncLoop, nextReadBuffer, copySize,
    advanceRead] at hr

/-- Witness of C1 as amended: three bytes written with payload size 2 and read
back in chunks of 1 and 2 bytes. -/
theorem write_readSync_round_trip_witness :
    RoundTrip 2 7 [emptyBuffer, emptyBuffer] [1, 2, 3] [1, 2] :=
  write_readSync_round_trip 2 7 [emptyBuffer, emptyBuffer] [1, 2, 3] [1, 2]
    (by decide) (by decide) (by decide) (by decide)

/-! ## C2: out-of-order tolerance of `_handleData` -/

/-- C3 fails on the code: the writer `writerWithNewReader`, with 16 buffers,
gets the ack of reader 2 for sequence 992. The ack is accepted and recorded,
and the write queue is finished up to 995: the datagrams 993, 994 and 995
leave `_writeBuffers` although reader 2 has acknowledged 992 only, and reader
3 nothing at all. -/
theorem handleAck_releases_unacknowledged :
    (_handleAck { defaultConfig with numBuffers := 16 } writerWithNewReader ⟨2, 1, 992⟩).map
        (fun w => (w.writeBuffers.map Buffer.sequence, w.children.map (fun c => (c.id, c.acked))))
      = some ([996, 997, 998, 999], [(1, 995), (2, 992), (3, 65535), (4, 995)]) := by
  decide

/-! ## C4: coverage of the NACK sent by `_handleAckRequest` -/

theorem closeNack_ne_nil (nacks : List Nack) (a b : Nat) : closeNack nacks a b ≠ [] := by
  unfold closeNack
  split <;> simp

/-- C5 fails on the code: with `numBuffers = 4` a child that expects sequence
65535 gets the datagram with sequence 4, at distance 5. The datagram is not
ignored: it is stored at index 4 of the out-of-order deque, which uses up a
free buffer, and a nack is sent. -/
theorem handleData_stores_out_of_window :
    (4 + 65536 - 65535) % 65536 = 5 ∧
    (_handleData 1 64 4 (newChild 9 65535 (List.replicate 4 emptyBuffer))
        (burstDatagram 9 65535 5)).connection.recvBuffers
      = [none, none, none, none, some (burstDatagram 9 65535 5)] ∧
    (_handleData 1 64 4 (newChild 9 65535 (List.replicate 4 emptyBuffer))
        (burstDatagram 9 65535 5)).connection.threadBuffers.length = 3 ∧
    (_handleData 1 64 4 (newChild 9 65535 (List.replicate 4 emptyBuffer))
        (burstDatagram 9 65535 5)).sent = [Sent.nack 1 9 [⟨65535, 65535⟩]] := by
  decide

/-! ## C6: coalescing of repeat requests by `_addRepeat` -/

/-- C6 fails on the code: the range 6..6 lies inside the queued range 5..7,
no end of the queued range moves, so the flag `merged` stays unset and the
range is appended to the repeat queue. -/
theorem addRepeat_appends_contained_range :
    (_addRepeat defaultConfig (idleWriter 102400 [⟨5, 7⟩]) [⟨6, 6⟩]).repeatQueue
      = [⟨5, 7⟩, ⟨6, 6⟩] := by
  decide

/-! ## C7: write merging -/

theorem memcpyAt_data (p p2 : List UInt8) (s s2 : Nat) (hs : s ≤ p.length) (hs2 : s2 ≤ p2.length) :
    (memcpyAt p s p2 s2).take (s + s2) = p.take s ++ p2.take s2 ∧
      s + s2 ≤ (memcpyAt p s p2 s2).length := by
  unfold memcpyAt
  have h1 : (p.take s).length = s := by rw [List.length_take]; omega
  have h2 : (p2.take s2).length = s2 := by rw [List.length_take]; omega
  constructor
  · rw [List.take_append_of_le_length (by rw [List.length_append, h1, h2])]
    rw [List.take_of_length_le (by rw [List.length_append, h1, h2])]
  · simp only [List.length_append, h1, h2]
    omega

theorem mergeWrites_spec (payloadSize : Nat) (hps : payloadSize < 65536) :
    ∀ (rest : List Buffer) (buffer : Buffer) (merged : List Buffer),
      buffer.size ≤ payloadSize → buffer.size ≤ buffer.payload.length →
      (∀ b ∈ rest, b.size ≤ b.payload.length) →
      ∃ k, k ≤ rest.length ∧
        (mergeWrites payloadSize buffer rest merged).2.1 = rest.drop k ∧
        (mergeWrites payloadSize buffer rest merged).2.2 = merged ++ rest.take k ∧
        (mergeWrites payloadSize buffer rest merged).1.data
          = buffer.data ++ ((rest.take k).map Buffer.data).flatten ∧
        (mergeWrites payloadSize buffer rest merged).1.size ≤ payloadSize ∧
        (mergeWrites payloadSize buffer rest merged).1.size
          ≤ (mergeWrites payloadSize buffer rest merged).1.payload.length ∧
        (mergeWrites payloadSize buffer rest merged).1.sequence = buffer.sequence := by
  intro rest
  induction rest with
  | nil =>
    intro buffer merged h1 h2 _
    exact ⟨0, le_refl _, rfl, by simp [mergeWrites], by simp [mergeWrites], h1, h2, rfl⟩
  | cons b2 rest ih =>
    intro buffer merged h1 h2 hrest
    have stop : (mergeWrites payloadSize buffer (b2 :: rest) merged = (buffer, b2 :: rest, merged)) →
        ∃ k, k ≤ (b2 :: rest).length ∧
        (mergeWrites payloadSize buffer (b2 :: rest) merged).2.1 = (b2 :: rest).drop k ∧
        (mergeWrites payloadSize buffer (b2 :: rest) merged).2.2 = merged ++ (b2 :: rest).take k ∧
        (mergeWrites payloadSize buffer (b2 :: rest) merged).1.data
          = buffer.data ++ (((b2 :: rest).take k).map Buffer.data).flatten ∧
        (mergeWrites payloadSize buffer (b2 :: rest) merged).1.size ≤ payloadSize ∧
        (mergeWrites payloadSize buffer (b2 :: rest) merged).1.size
          ≤ (mergeWrites payloadSize buffer (b2 :: rest) merged).1.payload.length ∧
        (mergeWrites payloadSize buffer (b2 :: rest) merged).1.sequence = buffer.sequence := by
      intro heq
      rw [heq]
      exact ⟨0, Nat.zero_le _, rfl, by simp, by simp, h1, h2, rfl⟩
    by_cases hfull : buffer.size < payloadSize
    · by_cases hfit : buffer.size + b2.size > payloadSize
      · exact stop (by simp only [mergeWrites, if_pos hfull, if_pos hfit])
      · have hb2 := hrest b2 (List.mem_cons_self _ _)
        have hmod : (buffer.size + b2.size) % seqMod = buffer.size + b2.size := by
          apply Nat.mod_eq_of_lt
          unfold seqMod
          omega
        obtain ⟨hd, hl⟩ := memcpyAt_data buffer.payload b2.payload buffer.size b2.size h2 hb2
        obtain ⟨k, hk, e1, e2, e3, e4, e5, e6⟩ := ih
          { buffer with
            payload := memcpyAt buffer.payload buffer.size b2.payload b2.size
            size := (buffer.size + b2.size) % seqMod }
          (merged ++ [b2]) (by simp only [hmod]; omega) (by simp only [hmod]; exact hl)
          (fun b hb => hrest b (List.mem_cons_of_mem _ hb))
        have hstep : mergeWrites payloadSize buffer (b2 :: rest) merged =
            mergeWrites payloadSize
              { buffer with
                payload := memcpyAt buffer.payload buffer.size b2.payload b2.size
                size := (buffer.size + b2.size) % seqMod }
              rest (merged ++ [b2]) := by
          simp only [mergeWrites, if_pos hfull, if_neg hfit]
        rw [hstep]
        refine ⟨k + 1, by simp only [List.length_cons]; omega, ?_, ?_, ?_, e4, e5, ?_⟩
        · rw [e1]; rfl
        · rw [e2]; simp
        · rw [e3]
          simp only [Buffer.data, hmod, hd, List.take_succ_cons, List.map_cons, List.flatten_cons,
            List.append_assoc]
        · rw [e6]
    · exact stop (by simp only [mergeWrites, if_neg hfull])

theorem finishLoop_all :
    ∀ (writeBuffers : List Buffer) (connection : ChildConnection) (readBuffers freeBuffers : List Buffer),
      writeBuffers.length ≤ connection.threadBuffers.length →
      ∃ connection1 free, finishLoop 0 writeBuffers connection readBuffers freeBuffers
          = some ([], connection1, readBuffers ++ writeBuffers, freeBuffers ++ free) ∧
        connection1 = { connection with
          threadBuffers := connection.threadBuffers.drop writeBuffers.length } := by
  intro writeBuffers
  induction writeBuffers with
  | nil =>
    intro connection rb fb _
    exact ⟨connection, [], by simp [finishLoop], by simp⟩
  | cons b rest ih =>
    intro connection rb fb hlen
    cases htb : connection.threadBuffers with
    | nil => rw [htb] at hlen; simp at hlen
    | cons f frest =>
      obtain ⟨c1, free, h1, h2⟩ := ih { connection with threadBuffers := frest }
        (rb ++ [b]) (fb ++ [f]) (by
          rw [htb] at hlen
          simpa using hlen)
      refine ⟨c1, f :: free, ?_, ?_⟩
      · simp only [finishLoop, List.length_cons, Nat.zero_lt_succ, if_true, _newDataBuffer, htb,
          gt_iff_lt]
        rw [h1]
        simp
      · rw [h2]
        simp [htb]

theorem findConnection_id (children : List ChildConnection) (id : Nat) (c : ChildConnection)
    (h : _findConnection children id = some c) : c.id = id := by
  unfold _findConnection at h
  have := List.find?_some h
  simpa using this

theorem findConnection_setConnection (id : Nat) (c1 : ChildConnection) (hid : c1.id = id) :
    ∀ (children : List ChildConnection) (c : ChildConnection),
      _findConnection children id = some c →
      _findConnection (setConnection id c1 children) id = some c1 := by
  intro children
  induction children with
  | nil => intro c h; simp [_findConnection] at h
  | cons x rest ih =>
    intro c h
    by_cases hx : x.id = id
    · simp [_findConnection, setConnection, hx, hid]
    · have h1 : _findConnection rest id = some c := by
        simpa [_findConnection, hx] using h
      have h2 := ih c h1
      rw [setConnection, if_neg hx]
      simpa [_findConnection, hx] using h2

theorem setConnection_length (id : Nat) (c1 : ChildConnection) :
    ∀ children : List ChildConnection, (setConnection id c1 children).length = children.length := by
  intro children
  induction children with
  | nil => rfl
  | cons x rest ih =>
    unfold setConnection
    split
    · rfl
    · simp [ih]

theorem finishWriteQueue_all (c : RSPConnection) (self : ChildConnection)
    (hself : _findConnection c.children c.id = some self)
    (hfree : c.writeBuffers.length ≤ self.threadBuffers.length) (hseq : c.sequence < 65536) :
    ∃ c1 free, _finishWriteQueue c ((c.sequence + seqMod - 1) % seqMod) = some c1 ∧
      c1.wire = c.wire ∧ c1.threadBuffers = c.threadBuffers ∧ c1.sequence = c.sequence ∧
      c1.id = c.id ∧ c1.writeBuffers = [] ∧ c1.appBuffers = c.appBuffers ++ free ∧
      c1.children.length = c.children.length ∧
      ∃ self1, _findConnection c1.children c1.id = some self1 ∧
        self1.threadBuffers = self.threadBuffers.drop c.writeBuffers.length := by
  have hsize : (c.sequence + 2 * seqMod - (c.sequence + seqMod - 1) % seqMod - 1) % seqMod = 0 := by
    unfold seqMod
    omega
  obtain ⟨conn1, free, h1, h2⟩ := finishLoop_all c.writeBuffers self [] [] hfree
  have hid := findConnection_id _ _ _ hself
  cases hres : _finishWriteQueue c ((c.sequence + seqMod - 1) % seqMod) with
  | none =>
    unfold _finishWriteQueue at hres
    simp only [hself, hsize, h1] at hres
    cases hres
  | some c1 =>
    unfold _finishWriteQueue at hres
    simp only [hself, hsize, h1, Option.some.injEq] at hres
    subst hres
    refine ⟨_, free, rfl, rfl, rfl, rfl, rfl, rfl, by simp, setConnection_length _ _ _, _,
      findConnection_setConnection c.id _ (by rw [h2]; exact hid) c.children self hself, ?_⟩
    rw [h2]

theorem waitWritable_fields (cfg : Config) (c : RSPConnection) :
    (_waitWritable cfg c).wire = c.wire ∧ (_waitWritable cfg c).writeBuffers = c.writeBuffers ∧
      (_waitWritable cfg c).threadBuffers = c.threadBuffers ∧
      (_waitWritable cfg c).appBuffers = c.appBuffers ∧
      (_waitWritable cfg c).sequence = c.sequence ∧ (_waitWritable cfg c).children = c.children ∧
      (_waitWritable cfg c).id = c.id := by
  unfold _waitWritable
  split <;> exact ⟨rfl, rfl, rfl, rfl, rfl, rfl, rfl⟩

theorem sendNext_fields (cfg : Config) (c : RSPConnection) (first : Buffer) (rest : List Buffer) :
    (sendNext cfg c first rest).wire = c.wire ++
        [{ (mergeWrites cfg.payloadSize { first with sequence := c.sequence } rest []).1 with
            payload := (mergeWrites cfg.payloadSize { first with sequence := c.sequence } rest []).1.data }] ∧
      (sendNext cfg c first rest).writeBuffers = c.writeBuffers ++
        [(mergeWrites cfg.payloadSize { first with sequence := c.sequence } rest []).1] ∧
      (sendNext cfg c first rest).threadBuffers
        = (mergeWrites cfg.payloadSize { first with sequence := c.sequence } rest []).2.1 ∧
      (sendNext cfg c first rest).appBuffers = c.appBuffers ++
        (mergeWrites cfg.payloadSize { first with sequence := c.sequence } rest []).2.2 ∧
      (sendNext cfg c first rest).sequence = (c.sequence + 1) % seqMod ∧
      (sendNext cfg c first rest).children = c.children ∧ (sendNext cfg c first rest).id = c.id := by
  obtain ⟨w1, w2, w3, w4, w5, w6, w7⟩ := waitWritable_fields cfg
    { c with
      timeouts := 0
      sequence := (c.sequence + 1) % seqMod
      threadBuffers := (mergeWrites cfg.payloadSize { first with sequence := c.sequence } rest []).2.1
      appBuffers := c.appBuffers ++
        (mergeWrites cfg.payloadSize { first with sequence := c.sequence } rest []).2.2 }
  simp only [sendNext, w1, w2, w3, w4, w5, w6, w7, Buffer.data, and_self]

theorem writeData_step (cfg : Config) (c : RSPConnection) (first : Buffer) (rest : List Buffer)
    (hq : c.threadBuffers = first :: rest) (hps : cfg.payloadSize < 65536)
    (hsz : ∀ b ∈ c.threadBuffers, b.size ≤ cfg.payloadSize ∧ b.size ≤ b.payload.length)
    (halone : AloneOk c) :
    ∃ c1 k d extra, _writeData cfg c = some c1 ∧ k ≤ rest.length ∧
      c1.wire = c.wire ++ [d] ∧
      d.payload = ((first :: rest.take k).map Buffer.data).flatten ∧
      d.size = d.payload.length ∧ d.size ≤ cfg.payloadSize ∧ d.sequence = c.sequence ∧
      c1.sequence = (c.sequence + 1) % 65536 ∧
      c1.threadBuffers = rest.drop k ∧
      c1.appBuffers = c.appBuffers ++ rest.take k ++ extra ∧
      AloneOk c1 := by
  have hfirst := hsz first (by rw [hq]; exact List.mem_cons_self _ _)
  obtain ⟨k, hk, e1, e2, e3, e4, e5, e6⟩ := mergeWrites_spec cfg.payloadSize hps rest
    { first with sequence := c.sequence } [] hfirst.1 hfirst.2
    (fun b hb => (hsz b (by rw [hq]; exact List.mem_cons_of_mem _ hb)).2)
  obtain ⟨s1, s2, s3, s4, s5, s6, s7⟩ := sendNext_fields cfg c first rest
  rw [e1] at s3
  rw [e2, List.nil_append] at s4
  have hdata : (mergeWrites cfg.payloadSize { first with sequence := c.sequence } rest []).1.data
      = ((first :: rest.take k).map Buffer.data).flatten := by
    rw [e3]
    rfl
  have hlen : ((mergeWrites cfg.payloadSize { first with sequence := c.sequence } rest []).1.data).length
      = (mergeWrites cfg.payloadSize { first with sequence := c.sequence } rest []).1.size := by
    unfold Buffer.data
    rw [List.length_take]
    omega
  generalize mergeWrites cfg.payloadSize { first with sequence := c.sequence } rest [] = r at *
  have hwd : _writeData cfg c =
      (if (sendNext cfg c first rest).children.length = 1 then
        _finishWriteQueue (sendNext cfg c first rest)
          (((sendNext cfg c first rest).sequence + seqMod - 1) % seqMod)
      else some (sendNext cfg c first rest)) := by
    unfold _writeData
    rw [hq]
  by_cases hal : c.children.length = 1
  · -- alone: the write queue is handed to the self child
    obtain ⟨self, hself, hfree⟩ := halone hal
    rw [hq] at hfree
    simp only [List.length_cons] at hfree
    obtain ⟨c1, free, f1, f2, f3, f4, f5, f6, f7, f8, self1, f9, f10⟩ :=
      finishWriteQueue_all (sendNext cfg c first rest) self (by rw [s6, s7]; exact hself)
        (by rw [s2, List.length_append, List.length_singleton]; omega)
        (by rw [s5]; exact Nat.mod_lt _ (by decide))
    refine ⟨c1, k, { r.1 with payload := r.1.data }, free, ?_, hk, ?_, hdata, hlen.symm, e4, e6,
      ?_, ?_, ?_, ?_⟩
    · rw [hwd, if_pos (by rw [s6]; exact hal), f1]
    · rw [f2, s1]
    · rw [f4, s5]; rfl
    · rw [f3, s3]
    · rw [f7, s4]
    · intro _
      refine ⟨self1, f9, ?_⟩
      rw [f6, f3, s3, f10, s2, List.length_drop, List.length_drop, List.length_append,
        List.length_singleton, List.length_nil]
      omega
  · refine ⟨sendNext cfg c first rest, k, { r.1 with payload := r.1.data }, [], ?_, hk, s1, hdata,
      hlen.symm, e4, e6, ?_, s3, ?_, ?_⟩
    · rw [hwd, if_neg (by rw [s6]; exact hal)]
    · rw [s5]; rfl
    · rw [s4, List.append_nil]
    · intro h
      rw [s6] at h
      exact absurd h hal

theorem writeSteps_all (cfg : Config) (hps : cfg.payloadSize < 65536) :
    ∀ (n : Nat) (c : RSPConnection), c.threadBuffers.length = n →
      (∀ b ∈ c.threadBuffers, b.size ≤ cfg.payloadSize ∧ b.size ≤ b.payload.length) →
      AloneOk c →
      ∃ m c1 ds, m ≤ n ∧ writeSteps cfg m c = some c1 ∧ c1.threadBuffers = [] ∧
        c1.wire = c.wire ++ ds ∧ ds.length = m ∧
        (ds.map Buffer.payload).flatten = (c.threadBuffers.map Buffer.data).flatten := by
  intro n
  induction n using Nat.strong_induction_on with
  | _ n ih =>
    intro c hn hsz halone
    cases hq : c.threadBuffers with
    | nil => exact ⟨0, c, [], Nat.zero_le _, rfl, hq, by simp, rfl, by simp⟩
    | cons first rest =>
      obtain ⟨c1, k, d, extra, h1, hk, h2, h3, _, _, _, _, h4, _, h5⟩ :=
        writeData_step cfg c first rest hq hps hsz halone
      have hlen1 : c1.threadBuffers.length < n := by
        rw [h4, List.length_drop, ← hn, hq, List.length_cons]
        omega
      obtain ⟨m, c2, ds, hm, g1, g2, g3, g4, g5⟩ := ih _ hlen1 c1 rfl
        (by
          intro b hb
          rw [h4] at hb
          exact hsz b (by rw [hq]; exact List.mem_cons_of_mem _ (List.mem_of_mem_drop hb)))
        h5
      refine ⟨m + 1, c2, d :: ds, by omega, ?_, g2, ?_, by simp [g4], ?_⟩
      · simp only [writeSteps, h1, Option.some_bind]
        exact g1
      · rw [g3, h2, List.append_assoc, List.singleton_append]
      · rw [List.map_cons, List.flatten_cons, g5, h3, h4]
        simp only [List.map_cons, List.flatten_cons, List.append_assoc]
        rw [← List.flatten_append, ← List.map_append, List.take_append_drop]

/-- C7, as amended: for a payload size that fits the 16-bit size field, one
`_writeData` step sends one datagram that carries the data of the first
queued buffer and of the `k` buffers merged into it, in order, and the merged
buffers are free again; repeated steps send the queued data in order in at
most as many datagrams as buffers were queued. -/
theorem writeData_merges (cfg : Config) (c : RSPConnection) (first : Buffer) (rest : List Buffer)
    (hq : c.threadBuffers = first :: rest) (hps : cfg.payloadSize < 65536)
    (hsz : ∀ b ∈ c.threadBuffers, b.size ≤ cfg.payloadSize ∧ b.size ≤ b.payload.length)
    (halone : AloneOk c) :
    (∃ c1 k d extra, _writeData cfg c = some c1 ∧ k ≤ rest.length ∧
      c1.wire = c.wire ++ [d] ∧
      d.payload = ((first :: rest.take k).map Buffer.data).flatten ∧
      d.size = d.payload.length ∧ d.size ≤ cfg.payloadSize ∧ d.sequence = c.sequence ∧
      c1.sequence = (c.sequence + 1) % 65536 ∧
      c1.threadBuffers = rest.drop k ∧
      c1.appBuffers = c.appBuffers ++ rest.take k ++ extra) ∧
    (∃ m c1 ds, m ≤ c.threadBuffers.length ∧ writeSteps cfg m c = some c1 ∧
      c1.threadBuffers = [] ∧ c1.wire = c.wire ++ ds ∧ ds.length = m ∧
      (ds.map Buffer.payload).flatten = (c.threadBuffers.map Buffer.data).flatten) := by
  constructor
  · obtain ⟨c1, k, d, extra, h⟩ := writeData_step cfg c first rest hq hps hsz halone
    exact ⟨c1, k, d, extra, h.1, h.2.1, h.2.2.1, h.2.2.2.1, h.2.2.2.2.1, h.2.2.2.2.2.1,
      h.2.2.2.2.2.2.1, h.2.2.2.2.2.2.2.1, h.2.2.2.2.2.2.2.2.1, h.2.2.2.2.2.2.2.2.2.1⟩
  · exact writeSteps_all cfg hps _ c rfl hsz halone

theorem zeros_length (n : Nat) : (zeros n).length = n := List.length_replicate _ _

/-- C7, counterexample: with a payload size of 70000 and two queued buffers
of 40000 and 30000 bytes, both within the payload size, one `_writeData` step
consumes both buffers and sends one datagram whose size field is 4464, the
sum cut to 16 bits: 4464 of the 70000 queued bytes are sent. -/
theorem writeData_truncates_merged_size :
    (∀ b ∈ wideWriter.threadBuffers,
      b.size ≤ wideConfig.payloadSize ∧ b.size ≤ b.payload.length) ∧
    ((wideWriter.threadBuffers.map Buffer.data).flatten).length = 70000 ∧
    (_writeData wideConfig wideWriter).map
        (fun c1 => (c1.threadBuffers.length, c1.wire.map (fun d => (d.size, d.payload.length))))
      = some (0, [(4464, 4464)]) := by
  refine ⟨?_, ?_, ?_⟩
  · simp [wideWriter, wideConfig, defaultConfig, Config.payloadSize, sizeofDatagramData,
      zeros_length]
  · simp [wideWriter, Buffer.data, zeros_length]
  · simp [_writeData, sendNext, mergeWrites, wideWriter, wideConfig, defaultConfig,
      Config.payloadSize, sizeofDatagramData, _waitWritable, memcpyAt, zeros_length, seqMod,
      ackedChild]

theorem writeData_merges_witness :
    (∃ c1 k d extra, _writeData smallConfig smallWriter = some c1 ∧ k ≤ smallRest.length ∧
      c1.wire = smallWriter.wire ++ [d] ∧
      d.payload = ((smallFirst :: smallRest.take k).map Buffer.data).flatten ∧
      d.size = d.payload.length ∧ d.size ≤ smallConfig.payloadSize ∧
      d.sequence = smallWriter.sequence ∧
      c1.sequence = (smallWriter.sequence + 1) % 65536 ∧
      c1.threadBuffers = smallRest.drop k ∧
      c1.appBuffers = smallWriter.appBuffers ++ smallRest.take k ++ extra) ∧
    (∃ m c1 ds, m ≤ smallWriter.threadBuffers.length ∧
      writeSteps smallConfig m smallWriter = some c1 ∧
      c1.threadBuffers = [] ∧ c1.wire = smallWriter.wire ++ ds ∧ ds.length = m ∧
      (ds.map Buffer.payload).flatten = (smallWriter.threadBuffers.map Buffer.data).flatten) :=
  writeData_merges smallConfig smallWriter smallFirst smallRest rfl (by decide) (by decide)
    (fun _ => ⟨newChild 1 65535 (List.replicate 4 emptyBuffer), by decide, by decide⟩)

/-! ## C8 and C9: the limits of the send rate -/

/-- C8 fails on the code: with the default configuration the floor
`bandwidth >> minShift` is 12800; a nack for one packet takes the send rate
12801, which is above the floor, down to 12736. The floor is also passed on
the way down from the initial send rate 102400: three nacks for 100 packets
each, handled with an empty repeat queue, give 51199, 25599 and 12799. -/
theorem addRepeat_drops_below_floor :
    defaultConfig.bandwidth >>> defaultConfig.minSendrateShift = 12800 ∧
    (idleWriter 12801 []).sendRate ≥ 12800 ∧
    (_addRepeat defaultConfig (idleWriter 12801 []) [⟨5, 5⟩]).sendRate = 12736 ∧
    rateAfterNack defaultConfig ⟨0, 99⟩ 102400 = 51199 ∧
    rateAfterNack defaultConfig ⟨0, 99⟩ 51199 = 25599 ∧
    rateAfterNack defaultConfig ⟨0, 99⟩ 25599 = 12799 := by
  decide

/-- C9 fails on the code: with the default configuration, bandwidth 102400, a
send takes the send rate 102399, which is below the bandwidth, up to
102501. The bandwidth is also passed on the way up: a nack for one packet
takes the initial send rate 102400 to 101887, five sends take it to 102397
and the sixth send to 102499. -/
theorem waitWritable_exceeds_bandwidth :
    (idleWriter 102399 []).sendRate ≤ defaultConfig.bandwidth ∧
    (_waitWritable defaultConfig (idleWriter 102399 [])).sendRate = 102501 ∧
    rateAfterNack defaultConfig ⟨5, 5⟩ 102400 = 101887 ∧
    (rateAfterSend defaultConfig)^[5] 101887 = 102397 ∧
    rateAfterSend defaultConfig 102397 = 102499 := by
  decide

/-! ## C10: the number of retained snapshots -/

section FullMaster

open FullMasterCM

theorem obsoleteLoop_suffix (commitCount nVersions : Nat) :
    ∀ l : List InstanceData, ∃ k, obsoleteLoop commitCount nVersions l = l.drop k := by
  intro l
  induction l with
  | nil => exact ⟨0, rfl⟩
  | cons d rest ih =>
    cases rest with
    | nil => exact ⟨0, rfl⟩
    | cons n rest =>
      unfold obsoleteLoop
      split
      · split
        · exact ⟨0, rfl⟩
        · obtain ⟨k, hk⟩ := ih
          exact ⟨k + 1, by rw [hk]; rfl⟩
      · exact ⟨0, rfl⟩

theorem obsoleteLoop_front (commitCount nVersions : Nat) :
    ∀ l : List InstanceData,
      (obsoleteLoop commitCount nVersions l).length ≤ 1 ∨ commitCount ≤ nVersions ∨
        ∃ d rest, obsoleteLoop commitCount nVersions l = d :: rest ∧
          commitCount - nVersions ≤ d.commitCount := by
  intro l
  induction l with
  | nil => left; simp [obsoleteLoop]
  | cons d rest ih =>
    cases rest with
    | nil => left; simp [obsoleteLoop]
    | cons n rest =>
      unfold obsoleteLoop
      split
      · split
        · rename_i h
          right; right
          exact ⟨d, n :: rest, rfl, h⟩
        · exact ih
      · rename_i h
        right; left
        omega

theorem increasing_length_le :
    ∀ (l : List Nat) (a b : Nat), l.Pairwise (· < ·) → (∀ x ∈ l, a ≤ x ∧ x ≤ b) →
      l.length ≤ b + 1 - a := by
  intro l
  induction l with
  | nil => intro a b _ _; simp
  | cons h t ih =>
    intro a b hp hb
    have hh := hb h (List.mem_cons_self _ _)
    have hp2 := List.pairwise_cons.mp hp
    have := ih (h + 1) b hp2.2 (by
      intro x hx
      exact ⟨hp2.1 x hx, (hb x (List.mem_cons_of_mem _ hx)).2⟩)
    simp only [List.length_cons]
    omega

theorem increasing_obsolete (cm : FullMasterCM) (h : Increasing cm) :
    Increasing (_obsolete cm) ∧ (_obsolete cm).instanceDatas.length ≤ cm.nVersions + 1 := by
  obtain ⟨k, hk⟩ := obsoleteLoop_suffix cm.commitCount cm.nVersions cm.instanceDatas
  have hinc : Increasing (_obsolete cm) := by
    refine ⟨?_, ?_⟩
    · simp only [_obsolete, hk, List.map_drop]
      exact h.1.sublist (List.drop_sublist _ _)
    · intro d hd
      simp only [_obsolete, hk] at hd
      exact h.2 d (List.mem_of_mem_drop hd)
  refine ⟨hinc, ?_⟩
  have hlen := fun a => increasing_length_le _ a cm.commitCount hinc.1
  rcases obsoleteLoop_front cm.commitCount cm.nVersions cm.instanceDatas with h1 | h1 | h1
  · simp only [_obsolete]
    omega
  · have := hlen 0 (by
      intro x hx
      obtain ⟨d, hd, rfl⟩ := List.mem_map.mp hx
      exact ⟨Nat.zero_le _, hinc.2 d hd⟩)
    simp only [List.length_map] at this
    omega
  · obtain ⟨d, rest, hd, hge⟩ := h1
    have hfront : ∀ x ∈ (_obsolete cm).instanceDatas.map InstanceData.commitCount,
        d.commitCount ≤ x := by
      intro x hx
      have hp := hinc.1
      simp only [_obsolete, hd, List.map_cons] at hx hp
      rcases List.mem_cons.mp hx with rfl | hx
      · exact le_refl _
      · exact Nat.le_of_lt ((List.pairwise_cons.mp hp).1 x hx)
    have := hlen d.commitCount (by
      intro x hx
      refine ⟨hfront x hx, ?_⟩
      obtain ⟨e, he, rfl⟩ := List.mem_map.mp hx
      exact hinc.2 e he)
    simp only [List.length_map] at this
    have hd2 := hinc.2 d (by simp only [_obsolete, hd]; exact List.mem_cons_self _ _)
    simp only [_obsolete] at hd2
    omega

theorem commit_fst (commitNext : Nat) (cm : FullMasterCM) (call : CommitCall) :
    (commit commitNext cm call).1 =
      _obsolete (if call.dirty then _commit (_updateCommitCount commitNext cm call.incarnation) call.sent
        else _updateCommitCount commitNext cm call.incarnation) := by
  unfold commit
  cases call.dirty <;> rfl

theorem increasing_commit (commitNext : Nat) (cm : FullMasterCM) (call : CommitCall)
    (h : Increasing cm) (hadv : Advances commitNext cm call) :
    Increasing (commit commitNext cm call).1 ∧
      (commit commitNext cm call).1.instanceDatas.length ≤ (commit commitNext cm call).1.nVersions + 1 ∧
      (commit commitNext cm call).1.nVersions = cm.nVersions := by
  rw [commit_fst]
  -- the commit count moves up and the deque stays
  have hup : (_updateCommitCount commitNext cm call.incarnation).instanceDatas = cm.instanceDatas ∧
      cm.commitCount < (_updateCommitCount commitNext cm call.incarnation).commitCount ∧
      (_updateCommitCount commitNext cm call.incarnation).nVersions = cm.nVersions := by
    unfold Advances at hadv
    unfold _updateCommitCount
    by_cases hn : call.incarnation = commitNext
    · rw [if_pos hn] at hadv ⊢
      refine ⟨rfl, ?_, rfl⟩
      simp only
      rw [Nat.mod_eq_of_lt hadv]
      omega
    · rw [if_neg hn] at hadv ⊢
      rw [if_pos (Nat.le_of_lt hadv)]
      exact ⟨rfl, hadv, rfl⟩
  generalize _updateCommitCount commitNext cm call.incarnation = cm1 at hup
  obtain ⟨hd, hcc, hnv⟩ := hup
  have h1 : Increasing cm1 := by
    refine ⟨by rw [hd]; exact h.1, ?_⟩
    intro d hdm
    rw [hd] at hdm
    exact Nat.le_of_lt (lt_of_le_of_lt (h.2 d hdm) hcc)
  have h2 : ∀ sent, Increasing (_commit cm1 sent) := by
    intro sent
    unfold _commit
    split
    · refine ⟨?_, ?_⟩
      · simp only [List.map_append, List.map_cons, List.map_nil]
        rw [List.pairwise_append]
        refine ⟨h1.1, List.pairwise_singleton _ _, ?_⟩
        intro a ha b hb
        obtain ⟨e, he, rfl⟩ := List.mem_map.mp ha
        rw [List.mem_singleton.mp hb]
        rw [hd] at he
        exact lt_of_le_of_lt (h.2 e he) hcc
      · intro d hdm
        rcases List.mem_append.mp hdm with hdm | hdm
        · exact h1.2 d hdm
        · rw [List.mem_singleton.mp hdm]
    · exact h1
  have hnv2 : ∀ sent, (_commit cm1 sent).nVersions = cm1.nVersions := by
    intro sent; unfold _commit; split <;> rfl
  split
  · have := increasing_obsolete (_commit cm1 call.sent) (h2 call.sent)
    exact ⟨this.1, this.2, by simp only [_obsolete, hnv2, hnv]⟩
  · have := increasing_obsolete cm1 h1
    exact ⟨this.1, this.2, hnv⟩

theorem increasing_commits (commitNext : Nat) :
    ∀ (calls : List CommitCall) (cm : FullMasterCM), Increasing cm →
      cm.instanceDatas.length ≤ cm.nVersions + 1 → AllAdvance commitNext cm calls →
      (commits commitNext cm calls).instanceDatas.length ≤ cm.nVersions + 1 := by
  intro calls
  induction calls with
  | nil => intro cm _ hlen _; exact hlen
  | cons call rest ih =>
    intro cm h hlen hadv
    obtain ⟨h1, h2, h3⟩ := increasing_commit commitNext cm call h hadv.1
    have := ih (commit commitNext cm call).1 h1 h2 hadv.2
    rw [h3] at this
    exact this

/-- C10, as amended: after `init`, `setAutoObsolete(N)` and any sequence of
`commit` calls each of which moves the commit count up, at most `N + 1`
snapshots are retained. -/
theorem commits_retain_at_most (commitNext N : Nat) (calls : List CommitCall)
    (hadv : AllAdvance commitNext (setAutoObsolete (init FullMasterCM.new) N) calls) :
    (commits commitNext (setAutoObsolete (init FullMasterCM.new) N) calls).instanceDatas.length
      ≤ N + 1 := by
  have h0 : Increasing (setAutoObsolete (init FullMasterCM.new) N) := by
    refine ⟨?_, ?_⟩
    · simp [setAutoObsolete, _obsolete, init, FullMasterCM.new, obsoleteLoop]
    · simp [setAutoObsolete, _obsolete, init, FullMasterCM.new, obsoleteLoop]
  exact increasing_commits commitNext calls _ h0
    (by simp [setAutoObsolete, _obsolete, init, FullMasterCM.new, obsoleteLoop]) hadv

/-- C10, as stated, fails: with `N = 0` two dirty commits with the explicit
incarnation 1 leave two snapshots in the deque, both with commit count 1.
`CO_COMMIT_NEXT` is taken to be `0xFFFFFFFF`; any value other than 1 gives the
same. -/
theorem commits_same_incarnation_retain_two :
    (commits 4294967295 (setAutoObsolete (init FullMasterCM.new) 0)
        [⟨1, true, true⟩, ⟨1, true, true⟩]).instanceDatas.length = 2 ∧
    ¬ (commits 4294967295 (setAutoObsolete (init FullMasterCM.new) 0)
        [⟨1, true, true⟩, ⟨1, true, true⟩]).instanceDatas.length ≤ 0 + 1 := by
  decide

/-- Witness of C10 as amended: `N = 2` and four commits, by `CO_COMMIT_NEXT`
and by explicit incarnations that move up, one of them not dirty. -/
theorem commits_retain_at_most_witness :
    (commits 4294967295 (setAutoObsolete (init FullMasterCM.new) 2)
        [⟨4294967295, true, true⟩, ⟨7, false, false⟩, ⟨9, true, true⟩,
          ⟨4294967295, true, true⟩]).instanceDatas.length ≤ 2 + 1 :=
  commits_retain_at_most 4294967295 2
    [⟨4294967295, true, true⟩, ⟨7, false, false⟩, ⟨9, true, true⟩, ⟨4294967295, true, true⟩]
    (by simp [AllAdvance, Advances, commit, _obsolete, _commit, _updateCommitCount,
      setAutoObsolete, init, FullMasterCM.new, obsoleteLoop])

end FullMaster

/-! ## C11: the age of the front snapshot -/

section FullMasterAge

open FullMasterCM

theorem obsoleteLoop_front_fresh (c n : Nat) :
    ∀ l : List InstanceData, l ≠ [] →
      ∃ front, (obsoleteLoop c n l).head? = some front ∧
        ((obsoleteLoop c n l).length = 1 ∨ (c : Int) - (n : Int) ≤ (front.commitCount : Int))
  | [], h => absurd rfl h
  | [data], _ => ⟨data, rfl, Or.inl rfl⟩
  | data :: next :: rest, _ => by
    unfold obsoleteLoop
    by_cases h1 : c > n
    · by_cases h2 : data.commitCount ≥ c - n
      · rw [if_pos h1, if_pos h2]
        exact ⟨data, rfl, Or.inr (by omega)⟩
      · rw [if_pos h1, if_neg h2]
        exact obsoleteLoop_front_fresh c n (next :: rest) (List.cons_ne_nil _ _)
    · rw [if_neg h1]
      exact ⟨data, rfl, Or.inr (by omega)⟩

theorem obsolete_front_fresh (cm : FullMasterCM) (h : cm.instanceDatas ≠ []) :
    FrontFresh (_obsolete cm) :=
  obsoleteLoop_front_fresh cm.commitCount cm.nVersions cm.instanceDatas h

theorem dropFuture_ne_nil (c : Nat) : ∀ l : List InstanceData, l ≠ [] → dropFuture c l ≠ []
  | [], h => absurd rfl h
  | [data], _ => by simp [dropFuture]
  | data :: next :: rest, _ => by
    unfold dropFuture
    split
    · exact List.cons_ne_nil _ _
    · exact dropFuture_ne_nil c (next :: rest) (List.cons_ne_nil _ _)

theorem updateCommitCount_ne_nil (commitNext : Nat) (cm : FullMasterCM) (incarnation : Nat)
    (h : cm.instanceDatas ≠ []) :
    (_updateCommitCount commitNext cm incarnation).instanceDatas ≠ [] := by
  unfold _updateCommitCount
  split
  · exact h
  · split
    · exact h
    · have hd := dropFuture_ne_nil incarnation cm.instanceDatas.reverse (by simpa using h)
      split
      · rename_i heq
        exact absurd heq hd
      · split <;> simp

theorem commit_ne_nil (cm : FullMasterCM) (sent : Bool) (h : cm.instanceDatas ≠ []) :
    (_commit cm sent).instanceDatas ≠ [] := by
  unfold _commit
  split
  · simp
  · exact h

theorem frontFresh_ne_nil (cm : FullMasterCM) (h : FrontFresh cm) : cm.instanceDatas ≠ [] := by
  obtain ⟨front, hf, _⟩ := h
  intro hnil
  rw [hnil] at hf
  cases hf

theorem commit_front_fresh (commitNext : Nat) (cm : FullMasterCM) (call : CommitCall)
    (h : cm.instanceDatas ≠ []) : FrontFresh (commit commitNext cm call).1 := by
  unfold commit
  split
  · exact obsolete_front_fresh _ (updateCommitCount_ne_nil _ _ _ h)
  · exact obsolete_front_fresh _ (commit_ne_nil _ _ (updateCommitCount_ne_nil _ _ _ h))

theorem commits_front_fresh (commitNext : Nat) :
    ∀ (calls : List CommitCall) (cm : FullMasterCM), FrontFresh cm →
      FrontFresh (commits commitNext cm calls)
  | [], _, h => h
  | call :: rest, cm, h =>
    commits_front_fresh commitNext rest _
      (commit_front_fresh commitNext cm call (frontFresh_ne_nil cm h))

theorem updateCommitCount_nVersions (commitNext : Nat) (cm : FullMasterCM) (incarnation : Nat) :
    (_updateCommitCount commitNext cm incarnation).nVersions = cm.nVersions := by
  unfold _updateCommitCount
  split
  · rfl
  · split
    · rfl
    · split
      · rfl
      · split <;> rfl

theorem commit_nVersions (commitNext : Nat) (cm : FullMasterCM) (call : CommitCall) :
    (commit commitNext cm call).1.nVersions = cm.nVersions := by
  unfold commit
  split
  · exact updateCommitCount_nVersions _ _ _
  · show (_commit _ _).nVersions = _
    unfold _commit
    split
    · exact updateCommitCount_nVersions _ _ _
    · exact updateCommitCount_nVersions _ _ _

theorem commits_nVersions (commitNext : Nat) :
    ∀ (calls : List CommitCall) (cm : FullMasterCM),
      (commits commitNext cm calls).nVersions = cm.nVersions
  | [], _ => rfl
  | call :: rest, cm => by
    rw [commits, commits_nVersions commitNext rest, commit_nVersions]

/-- C11, as amended: after `init`, `setAutoObsolete(N)` and any sequence of
`commit` calls the deque is not empty, and its front snapshot is the only one
retained or has a commit count of at least the commit count minus `N`, in
exact integer arithmetic. -/
theorem commits_front_age (commitNext N : Nat) (calls : List CommitCall) :
    ∃ front,
      (commits commitNext (setAutoObsolete (init FullMasterCM.new) N) calls).instanceDatas.head?
        = some front ∧
      ((commits commitNext (setAutoObsolete (init FullMasterCM.new) N)
          calls).instanceDatas.length = 1 ∨
        ((commits commitNext (setAutoObsolete (init FullMasterCM.new) N) calls).commitCount : Int)
          - (N : Int) ≤ (front.commitCount : Int)) := by
  have h := commits_front_fresh commitNext calls (setAutoObsolete (init FullMasterCM.new) N)
    (obsolete_front_fresh _ (by simp [init, FullMasterCM.new]))
  have hn := commits_nVersions commitNext calls (setAutoObsolete (init FullMasterCM.new) N)
  have hN : (setAutoObsolete (init FullMasterCM.new) N).nVersions = N := rfl
  rw [hN] at hn
  unfold FrontFresh at h
  rw [hn] at h
  exact h

/-- C11, as stated, fails: after `init` and `setAutoObsolete(1)`, two commits
of an object that is not dirty take the commit count to 3, and the snapshot
of `init`, with commit count 0, stays at the front: 0 is less than 3 - 1.
`CO_COMMIT_NEXT` is taken to be `0xFFFFFFFF`. -/
theorem commits_keep_old_front :
    (commits 4294967295 (setAutoObsolete (init FullMasterCM.new) 1)
        [⟨4294967295, false, false⟩, ⟨4294967295, false, false⟩]).instanceDatas = [⟨1, 0⟩] ∧
    (commits 4294967295 (setAutoObsolete (init FullMasterCM.new) 1)
        [⟨4294967295, false, false⟩, ⟨4294967295, false, false⟩]).commitCount = 3 ∧
    (commits 4294967295 (setAutoObsolete (init FullMasterCM.new) 1)
        [⟨4294967295, false, false⟩, ⟨4294967295, false, false⟩]).instanceDatas.head?.map
      (fun front => decide (((3 : Nat) : Int) - ((1 : Nat) : Int) ≤ (front.commitCount : Int)))
      = some false := by
  decide

end FullMasterAge

/-! ## C12: the retained-deque invariant -/

section FullMasterVersions

open FullMasterCM

/-- C12 fails on the code: after `init`, `setAutoObsolete(10)` and a dirty
commit with incarnation 5 the deque holds the versions 1 and 2 and the
invariant holds. A commit with incarnation 3 of an object that is not dirty
releases the snapshot of version 2 and leaves `_version` at 2: the back
snapshot has version 1. A dirty commit after it appends version 3 behind
version 1. `CO_COMMIT_NEXT` is taken to be `0xFFFFFFFF`. -/
theorem commit_rewind_breaks_invariant :
    RetainedInvariant (commits 4294967295 (setAutoObsolete (init FullMasterCM.new) 10)
      [⟨5, true, true⟩]) ∧
    commits 4294967295 (setAutoObsolete (init FullMasterCM.new) 10)
        [⟨5, true, true⟩, ⟨3, false, false⟩]
      = { version := 2, commitCount := 3, nVersions := 10, instanceDatas := [⟨1, 0⟩] } ∧
    ¬ RetainedInvariant (commits 4294967295 (setAutoObsolete (init FullMasterCM.new) 10)
      [⟨5, true, true⟩, ⟨3, false, false⟩]) ∧
    (commits 4294967295 (setAutoObsolete (init FullMasterCM.new) 10)
        [⟨5, true, true⟩, ⟨3, false, false⟩, ⟨4294967295, true, true⟩]).instanceDatas
      = [⟨1, 0⟩, ⟨3, 4⟩] := by
  decide

end FullMasterVersions

/-! ## C13: a late subscriber -/

section FullMasterMapOldest

open FullMasterCM

theorem consecutive_tail (a : InstanceData) (l : List InstanceData)
    (h : consecutive (a :: l) = true) : consecutive l = true := by
  cases l with
  | nil => rfl
  | cons b rest =>
    simp only [consecutive, Bool.and_eq_true] at h
    exact h.2

theorem consecutive_head_lt (a : InstanceData) :
    ∀ l : List InstanceData, consecutive (a :: l) = true → ∀ d ∈ l, a.version < d.version
  | [], _, d, hd => by cases hd
  | b :: rest, h, d, hd => by
    simp only [consecutive, Bool.and_eq_true, decide_eq_true_eq] at h
    rcases List.mem_cons.mp hd with rfl | hd
    · omega
    · have := consecutive_head_lt b rest h.2 d hd
      omega

theorem consecutive_le_last :
    ∀ (l : List InstanceData) (v : Nat), consecutive l = true →
      l.getLast?.map InstanceData.version = some v → ∀ d ∈ l, d.version ≤ v
  | [], _, _, _, d, hd => by cases hd
  | [a], v, _, hv, d, hd => by
    simp only [List.getLast?_singleton, Option.map_some', Option.some.injEq] at hv
    rw [List.mem_singleton] at hd
    rw [hd, hv]
  | a :: b :: rest, v, h, hv, d, hd => by
    have hv2 : (b :: rest).getLast?.map InstanceData.version = some v := by
      rw [List.getLast?_cons_cons] at hv
      exact hv
    have ih := consecutive_le_last (b :: rest) v (consecutive_tail a _ h) hv2
    rcases List.mem_cons.mp hd with rfl | hd
    · have h1 := consecutive_head_lt d (b :: rest) h b (List.mem_cons_self _ _)
      have h2 := ih b (List.mem_cons_self _ _)
      omega
    · exact ih d hd

theorem takeWhile_all (hi : Nat) :
    ∀ l : List InstanceData, (∀ d ∈ l, d.version ≤ hi) →
      l.takeWhile (fun d => decide (d.version ≤ hi)) = l
  | [], _ => rfl
  | a :: rest, h => by
    have ha : a.version ≤ hi := h a (List.mem_cons_self _ _)
    rw [List.takeWhile_cons, if_pos (by simpa using ha),
      takeWhile_all hi rest (fun d hd => h d (List.mem_cons_of_mem _ hd))]

theorem streamedVersions_data (reply : MapMessage) (hreply : streamedVersions [reply] = []) :
    ∀ l : List InstanceData,
      streamedVersions (l.map (fun d => MapMessage.mapData d.version) ++ [reply])
        = l.map InstanceData.version
  | [] => hreply
  | a :: rest => by
    rw [List.map_cons, List.cons_append, streamedVersions, streamedVersions_data reply hreply rest,
      List.map_cons]

theorem streamedVersions_sent (multicast : Bool) (reply : MapMessage)
    (hreply : streamedVersions [reply] = []) (l : List InstanceData) :
    streamedVersions (MapMessage.mapSuccess multicast ::
        l.map (fun d => MapMessage.mapData d.version) ++ [reply])
      = l.map InstanceData.version := by
  rw [List.cons_append, streamedVersions, streamedVersions_data reply hreply l]

/-- C13: on a change manager that satisfies the retained-deque invariant, a
map request for `VERSION_OLDEST` without cache use is answered with the
snapshots of all retained entries, from the front to the head, and with a
reply that carries the version of the front entry; no version below that of
the front entry is streamed. -/
theorem initSlave_oldest (cm : FullMasterCM) (command : MapRequest)
    (hinv : RetainedInvariant cm) (hreq : command.requestedVersion = VERSION_OLDEST) :
    ∃ front msgs, cm.instanceDatas.head? = some front ∧
      _initSlave cm command false = some (true, msgs) ∧
      msgs = MapMessage.mapSuccess true ::
          cm.instanceDatas.map (fun d => MapMessage.mapData d.version) ++
          [MapMessage.mapReply front.version true false true] ∧
      streamedVersions msgs = cm.instanceDatas.map InstanceData.version ∧
      ∀ v ∈ streamedVersions msgs, front.version ≤ v := by
  obtain ⟨hne, hcons, hlast⟩ := hinv
  cases hl : cm.instanceDatas with
  | nil => exact absurd hl hne
  | cons front rest =>
    rw [hl] at hcons hlast
    have hle := consecutive_le_last _ _ hcons hlast
    have hstart : clampStart command.requestedVersion front.version = front.version := by
      unfold clampStart
      rw [if_pos (Or.inl hreq)]
    have hsent : sentDatas (front :: rest) (front.version, cm.version) = front :: rest := by
      unfold sentDatas
      rw [List.dropWhile_cons, if_neg (by simp)]
      exact takeWhile_all _ _ hle
    have hmsgs : _initSlave cm command false = some (true,
        MapMessage.mapSuccess true ::
          (front :: rest).map (fun d => MapMessage.mapData d.version) ++
          [MapMessage.mapReply front.version true false true]) := by
      unfold _initSlave
      rw [hl]
      simp only [hstart, cachedRange, Bool.false_eq_true, if_false, hsent]
      rw [if_neg (List.cons_ne_nil _ _)]
    have hsv := streamedVersions_sent true (MapMessage.mapReply front.version true false true) rfl
      (front :: rest)
    refine ⟨front, _, rfl, hmsgs, rfl, hsv, ?_⟩
    intro v hv
    rw [hsv] at hv
    obtain ⟨d, hd, rfl⟩ := List.mem_map.mp hv
    rcases List.mem_cons.mp hd with rfl | hd
    · exact le_refl _
    · exact le_of_lt (consecutive_head_lt front rest hcons d hd)

/-- Witness of C13: with `N = 2` and five commits the versions 4, 5 and 6
are retained; a subscriber that maps `VERSION_OLDEST` gets these three. -/
theorem initSlave_oldest_witness :
    ∃ front msgs, (committedMaster 2 5).instanceDatas.head? = some front ∧
      _initSlave (committedMaster 2 5) ⟨VERSION_OLDEST, 0, 0⟩ false = some (true, msgs) ∧
      msgs = MapMessage.mapSuccess true ::
          (committedMaster 2 5).instanceDatas.map (fun d => MapMessage.mapData d.version) ++
          [MapMessage.mapReply front.version true false true] ∧
      streamedVersions msgs = (committedMaster 2 5).instanceDatas.map InstanceData.version ∧
      ∀ v ∈ streamedVersions msgs, front.version ≤ v :=
  initSlave_oldest (committedMaster 2 5) ⟨VERSION_OLDEST, 0, 0⟩ (by decide) rfl

end FullMasterMapOldest

/-! ## C14: mapping a version above the head -/

section FullMasterMapFuture

open FullMasterCM

theorem takeWhile_eq_filter (lo hi : Nat) :
    ∀ l : List InstanceData, consecutive l = true → (∀ d ∈ l, lo ≤ d.version) →
      l.takeWhile (fun d => decide (d.version ≤ hi))
        = l.filter (fun d => decide (lo ≤ d.version ∧ d.version ≤ hi))
  | [], _, _ => rfl
  | a :: rest, hc, hlo => by
    have ha : lo ≤ a.version := hlo a (List.mem_cons_self _ _)
    by_cases h : a.version ≤ hi
    · rw [List.takeWhile_cons, if_pos (by simpa using h), List.filter_cons,
        if_pos (by simpa using ⟨ha, h⟩),
        takeWhile_eq_filter lo hi rest (consecutive_tail a rest hc)
          (fun d hd => hlo d (List.mem_cons_of_mem _ hd))]
    · rw [List.takeWhile_cons, if_neg (by simpa using h), List.filter_cons,
        if_neg (by simp only [decide_eq_true_eq]; omega)]
      symm
      rw [List.filter_eq_nil_iff]
      intro d hd
      have := consecutive_head_lt a rest hc d hd
      simp only [decide_eq_true_eq]
      omega

theorem sent_eq_filter (lo hi : Nat) :
    ∀ l : List InstanceData, consecutive l = true →
      sentDatas l (lo, hi) = l.filter (fun d => decide (lo ≤ d.version ∧ d.version ≤ hi))
  | [], _ => rfl
  | a :: rest, hc => by
    unfold sentDatas
    by_cases h : a.version < lo
    · rw [List.dropWhile_cons, if_pos (by simpa using h), List.filter_cons,
        if_neg (by simp only [decide_eq_true_eq]; omega)]
      exact sent_eq_filter lo hi rest (consecutive_tail a rest hc)
    · rw [List.dropWhile_cons, if_neg (by simpa using h)]
      apply takeWhile_eq_filter lo hi (a :: rest) hc
      intro d hd
      rcases List.mem_cons.mp hd with rfl | hd
      · omega
      · have := consecutive_head_lt a rest hc d hd
        omega

theorem sent_nil_of_lt (lo hi : Nat) (h : hi < lo) :
    ∀ l : List InstanceData, sentDatas l (lo, hi) = []
  | [] => rfl
  | a :: rest => by
    unfold sentDatas
    by_cases h1 : a.version < lo
    · rw [List.dropWhile_cons, if_pos (by simpa using h1)]
      exact sent_nil_of_lt lo hi h rest
    · rw [List.dropWhile_cons, if_neg (by simpa using h1), List.takeWhile_cons,
        if_neg (by simp only [decide_eq_true_eq]; omega)]

/-- What `_initSlave` does in every case: it returns true, and the last
message it sends is a map reply with the result flag set. -/
theorem initSlave_reports_success (cm : FullMasterCM) (command : MapRequest)
    (replyUseCache : Bool) (front : InstanceData) (rest : List InstanceData)
    (hl : cm.instanceDatas = front :: rest) :
    ∃ msgs multicast, _initSlave cm command replyUseCache = some (true, msgs ++
      [MapMessage.mapReply (clampStart command.requestedVersion front.version) true
        replyUseCache multicast]) := by
  unfold _initSlave
  rw [hl]
  simp only
  split
  · exact ⟨[MapMessage.mapSuccess false], false, rfl⟩
  · exact ⟨_, true, rfl⟩

/-- C14, as amended: a map request for a version above the head version is
not refused. On a change manager with a non-empty deque `_initSlave` returns
true and ends with a map reply whose result flag is set; without cache use it
streams no snapshot, and the reply carries the requested version, or the
version of the front entry when that is greater. -/
theorem initSlave_future_version (cm : FullMasterCM) (command : MapRequest)
    (replyUseCache : Bool) (hne : cm.instanceDatas ≠ [])
    (hreq : command.requestedVersion ≠ VERSION_OLDEST)
    (hfuture : cm.version < command.requestedVersion) :
    (∃ msgs version multicast, _initSlave cm command replyUseCache
      = some (true, msgs ++ [MapMessage.mapReply version true replyUseCache multicast])) ∧
    (∃ front, cm.instanceDatas.head? = some front ∧
      _initSlave cm command false = some (true, [MapMessage.mapSuccess false,
        MapMessage.mapReply (max command.requestedVersion front.version) true false false])) := by
  cases hl : cm.instanceDatas with
  | nil => exact absurd hl hne
  | cons front rest =>
    constructor
    · obtain ⟨msgs, multicast, h⟩ := initSlave_reports_success cm command replyUseCache front rest hl
      exact ⟨msgs, _, multicast, h⟩
    · refine ⟨front, rfl, ?_⟩
      have hstart : clampStart command.requestedVersion front.version
          = max command.requestedVersion front.version := by
        unfold clampStart
        by_cases h : command.requestedVersion < front.version
        · rw [if_pos (Or.inr h), Nat.max_eq_right (le_of_lt h)]
        · rw [if_neg (by intro h2; rcases h2 with h2 | h2; exact hreq h2; exact h h2),
            Nat.max_eq_left (by omega)]
      unfold _initSlave
      rw [hl]
      simp only [hstart, cachedRange, Bool.false_eq_true, if_false]
      rw [sent_nil_of_lt _ _ (lt_of_lt_of_le hfuture (Nat.le_max_left _ _))]
      rfl

/-- C14, as stated, fails: on the change manager that `init` leaves, with
head version 1, a map request for version 5 is answered with a map reply
whose result flag is set, and `_initSlave` returns true. -/
theorem initSlave_future_version_succeeds :
    (init FullMasterCM.new).version = 1 ∧
    _initSlave (init FullMasterCM.new) ⟨5, 0, 0⟩ false
      = some (true, [MapMessage.mapSuccess false, MapMessage.mapReply 5 true false false]) := by
  decide

/-- Witness of C14 as amended: the change manager that `init` leaves and a
request for version 5. -/
theorem initSlave_future_version_witness :
    (∃ msgs version multicast, _initSlave (init FullMasterCM.new) ⟨5, 0, 0⟩ true
      = some (true, msgs ++ [MapMessage.mapReply version true true multicast])) ∧
    (∃ front, (init FullMasterCM.new).instanceDatas.head? = some front ∧
      _initSlave (init FullMasterCM.new) ⟨5, 0, 0⟩ false = some (true,
        [MapMessage.mapSuccess false,
          MapMessage.mapReply (max 5 front.version) true false false])) :=
  initSlave_future_version (init FullMasterCM.new) ⟨5, 0, 0⟩ true (by decide) (by decide)
    (by decide)

end FullMasterMapFuture

/-! ## C15: cache reuse on map -/

section FullMasterMapCache

open FullMasterCM

theorem initSlave_streamed (cm : FullMasterCM) (command : MapRequest) (replyUseCache : Bool)
    (front : InstanceData) (rest : List InstanceData) (hl : cm.instanceDatas = front :: rest) :
    ∃ msgs, _initSlave cm command replyUseCache = some (true, msgs) ∧
      streamedVersions msgs = (sentDatas cm.instanceDatas (cachedRange command replyUseCache
        (clampStart command.requestedVersion front.version) cm.version)).map
          InstanceData.version := by
  unfold _initSlave
  rw [hl]
  simp only
  generalize sentDatas (front :: rest) _ = sent
  by_cases h : sent = []
  · rw [if_pos h, h]
    exact ⟨_, rfl, rfl⟩
  · rw [if_neg h]
    refine ⟨_, rfl, ?_⟩
    exact streamedVersions_sent true
      (MapMessage.mapReply (clampStart command.requestedVersion front.version) true
        replyUseCache true) rfl sent

theorem filter_versions (p : Nat → Bool) (l : List InstanceData) :
    (l.filter (fun d => p d.version)).map InstanceData.version
      = (l.map InstanceData.version).filter p := by
  induction l with
  | nil => rfl
  | cons a rest ih =>
    rw [List.filter_cons, List.map_cons, List.filter_cons]
    cases p a.version
    · simpa using ih
    · simpa using ih

/-- C15, as amended: on a change manager that satisfies the retained-deque
invariant, a map request with cache use whose cached range holds the start
of the requested range, or ends at the head version, is answered with the
snapshots of the retained versions from the start to the head that are not
in the cached range; for any other cached range all retained versions from
the start to the head are streamed. -/
theorem initSlave_cached_range (cm : FullMasterCM) (command : MapRequest) (front : InstanceData)
    (hinv : RetainedInvariant cm) (hfront : cm.instanceDatas.head? = some front)
    (hmin : command.minCachedVersion < 2 ^ 128) (hmax : command.maxCachedVersion + 1 < 2 ^ 128) :
    ∃ msgs, _initSlave cm command true = some (true, msgs) ∧
      (((command.minCachedVersion ≤ clampStart command.requestedVersion front.version ∧
          clampStart command.requestedVersion front.version ≤ command.maxCachedVersion) ∨
          command.maxCachedVersion = cm.version) →
        streamedVersions msgs = (cm.instanceDatas.map InstanceData.version).filter
          (fun v => decide (clampStart command.requestedVersion front.version ≤ v ∧
            v ≤ cm.version ∧
            ¬ (command.minCachedVersion ≤ v ∧ v ≤ command.maxCachedVersion)))) ∧
      (¬ (command.minCachedVersion ≤ clampStart command.requestedVersion front.version ∧
          clampStart command.requestedVersion front.version ≤ command.maxCachedVersion) →
        command.maxCachedVersion ≠ cm.version →
        streamedVersions msgs = (cm.instanceDatas.map InstanceData.version).filter
          (fun v => decide (clampStart command.requestedVersion front.version ≤ v ∧
            v ≤ cm.version))) := by
  obtain ⟨hne, hcons, hlast⟩ := hinv
  cases hl : cm.instanceDatas with
  | nil => exact absurd hl hne
  | cons front2 rest =>
    rw [hl] at hfront hcons hlast
    simp only [List.head?_cons, Option.some.injEq] at hfront
    subst hfront
    have hle := consecutive_le_last _ _ hcons hlast
    obtain ⟨msgs, hmsgs, hsv⟩ := initSlave_streamed cm command true front2 rest hl
    refine ⟨msgs, hmsgs, ?_, ?_⟩
    · intro hcase
      rw [hsv, hl]
      generalize clampStart command.requestedVersion front2.version = start at *
      unfold cachedRange
      rw [if_pos rfl]
      by_cases hA : command.minCachedVersion ≤ start ∧ command.maxCachedVersion ≥ start
      · rw [if_pos hA, Nat.mod_eq_of_lt hmax, sent_eq_filter _ _ _ hcons,
          ← filter_versions (fun v => decide (start ≤ v ∧ v ≤ cm.version ∧
            ¬ (command.minCachedVersion ≤ v ∧ v ≤ command.maxCachedVersion)))]
        congr 1
        apply List.filter_congr
        intro d _
        simp only [decide_eq_decide]
        omega
      · have hB : command.maxCachedVersion = cm.version := by
          rcases hcase with h | h
          · exact absurd ⟨h.1, h.2⟩ hA
          · exact h
        rw [if_neg hA, if_pos hB, sent_eq_filter _ _ _ hcons,
          ← filter_versions (fun v => decide (start ≤ v ∧ v ≤ cm.version ∧
            ¬ (command.minCachedVersion ≤ v ∧ v ≤ command.maxCachedVersion)))]
        congr 1
        apply List.filter_congr
        intro d hd
        have hdle := hle d hd
        simp only [decide_eq_decide]
        by_cases h0 : command.minCachedVersion = 0
        · rw [h0] at hA ⊢
          omega
        · have hm : (command.minCachedVersion + 2 ^ 128 - 1) % 2 ^ 128
              = command.minCachedVersion - 1 := by
            rw [show command.minCachedVersion + 2 ^ 128 - 1
              = (command.minCachedVersion - 1) + 2 ^ 128 by omega, Nat.add_mod_right,
              Nat.mod_eq_of_lt (by omega)]
          rw [hm]
          omega
    · intro hA hB
      rw [hsv, hl]
      generalize clampStart command.requestedVersion front2.version = start at *
      unfold cachedRange
      rw [if_pos rfl, if_neg (by simpa using hA), if_neg hB, sent_eq_filter _ _ _ hcons,
        ← filter_versions (fun v => decide (start ≤ v ∧ v ≤ cm.version))]

/-- C15, as stated, fails: the versions 1 to 5 are retained and the
subscriber, which maps `VERSION_OLDEST` with cache use, has version 3 in its
cache. All five snapshots are streamed, that of version 3 too. -/
theorem initSlave_streams_cached_middle :
    (committedMaster 10 4).instanceDatas.map InstanceData.version = [1, 2, 3, 4, 5] ∧
    (committedMaster 10 4).version = 5 ∧
    (_initSlave (committedMaster 10 4) ⟨VERSION_OLDEST, 3, 3⟩ true).map
      (fun r => streamedVersions r.2) = some [1, 2, 3, 4, 5] ∧
    ((committedMaster 10 4).instanceDatas.map InstanceData.version).filter
      (fun v => decide (1 ≤ v ∧ v ≤ 5 ∧ ¬ (3 ≤ v ∧ v ≤ 3))) = [1, 2, 4, 5] := by
  decide

/-- Witness of C15 as amended: the versions 1 to 5 are retained and the
subscriber, which maps `VERSION_OLDEST` with cache use, has the versions 1
to 3 in its cache. -/
theorem initSlave_cached_range_witness :
    ∃ msgs, _initSlave (committedMaster 10 4) ⟨VERSION_OLDEST, 1, 3⟩ true = some (true, msgs) ∧
      (((1 ≤ clampStart VERSION_OLDEST 1 ∧ clampStart VERSION_OLDEST 1 ≤ 3) ∨
          3 = (committedMaster 10 4).version) →
        streamedVersions msgs = ((committedMaster 10 4).instanceDatas.map
          InstanceData.version).filter
          (fun v => decide (clampStart VERSION_OLDEST 1 ≤ v ∧
            v ≤ (committedMaster 10 4).version ∧ ¬ (1 ≤ v ∧ v ≤ 3)))) ∧
      (¬ (1 ≤ clampStart VERSION_OLDEST 1 ∧ clampStart VERSION_OLDEST 1 ≤ 3) →
        3 ≠ (committedMaster 10 4).version →
        streamedVersions msgs = ((committedMaster 10 4).instanceDatas.map
          InstanceData.version).filter
          (fun v => decide (clampStart VERSION_OLDEST 1 ≤ v ∧
            v ≤ (committedMaster 10 4).version))) :=
  initSlave_cached_range (committedMaster 10 4) ⟨VERSION_OLDEST, 1, 3⟩ ⟨1, 0⟩ (by decide) rfl
    (by decide) (by decide)

end FullMasterMapCache

/-! ## C16: the version returned by `commit` -/

section FullMasterCommit

open FullMasterCM

/-- C16, as amended: a `commit` whose incarnation is `CO_COMMIT_NEXT` or not
below the commit count returns the version after the call. When the object
is not dirty or packing sent no data, that is the version before the call
and the deque before obsoletion is the one before the call; otherwise it is
the version before the call plus one, as a 128-bit value, and the deque
before obsoletion is the one before the call with one snapshot appended,
which carries the new version and the new commit count. -/
theorem commit_returns_version (commitNext : Nat) (cm : FullMasterCM) (call : CommitCall)
    (hinc : call.incarnation = commitNext ∨ cm.commitCount ≤ call.incarnation) :
    (commit commitNext cm call).2 = (commit commitNext cm call).1.version ∧
    ((call.dirty = false ∨ call.sent = false) →
      (commit commitNext cm call).1.version = cm.version ∧
      (commit commitNext cm call).1 = _obsolete
        { cm with commitCount := (commit commitNext cm call).1.commitCount }) ∧
    ((call.dirty = true ∧ call.sent = true) →
      (commit commitNext cm call).1.version = (cm.version + 1) % 2 ^ 128 ∧
      (commit commitNext cm call).1 = _obsolete
        { cm with
          version := (cm.version + 1) % 2 ^ 128
          commitCount := (commit commitNext cm call).1.commitCount
          instanceDatas := cm.instanceDatas ++
            [⟨(cm.version + 1) % 2 ^ 128, (commit commitNext cm call).1.commitCount⟩] }) := by
  have hupd : _updateCommitCount commitNext cm call.incarnation
      = { cm with commitCount :=
          (_updateCommitCount commitNext cm call.incarnation).commitCount } := by
    unfold _updateCommitCount
    rcases hinc with h | h
    · rw [if_pos h]
    · by_cases h1 : call.incarnation = commitNext
      · rw [if_pos h1]
      · rw [if_neg h1, if_pos h]
  generalize (_updateCommitCount commitNext cm call.incarnation).commitCount = cc at hupd
  refine ⟨?_, ?_, ?_⟩
  · unfold commit
    split <;> rfl
  · intro hd
    unfold commit
    rcases hd with hd | hd
    · simp only [hd, Bool.not_false, if_true, hupd]
      exact ⟨rfl, rfl⟩
    · cases hdirty : call.dirty
      · simp only [Bool.not_false, if_true, hupd]
        exact ⟨rfl, rfl⟩
      · simp only [Bool.not_true, hupd, hd, _commit]
        exact ⟨rfl, rfl⟩
  · intro ⟨hd, hs⟩
    unfold commit
    simp only [hd, hs, Bool.not_true, hupd, _commit]
    exact ⟨rfl, rfl⟩

/-- C16, as stated, fails: after `init`, `setAutoObsolete(2)` and dirty
commits with the incarnations 5 and 7 the deque holds the versions 2 and 3.
A commit with incarnation 3 of an object that is not dirty releases the
snapshot of version 3 and returns version 2, not the version 3 of before the
call. `CO_COMMIT_NEXT` is taken to be `0xFFFFFFFF`. -/
theorem commit_rewind_returns_older_version :
    (commits 4294967295 (setAutoObsolete (init FullMasterCM.new) 2)
        [⟨5, true, true⟩, ⟨7, true, true⟩])
      = { version := 3, commitCount := 7, nVersions := 2, instanceDatas := [⟨2, 5⟩, ⟨3, 7⟩] } ∧
    (commit 4294967295 (commits 4294967295 (setAutoObsolete (init FullMasterCM.new) 2)
        [⟨5, true, true⟩, ⟨7, true, true⟩]) ⟨3, false, false⟩).2 = 2 := by
  decide

/-- Witness of C16 as amended: a dirty commit by `CO_COMMIT_NEXT` on the
change manager that `init` leaves. -/
theorem commit_returns_version_witness :
    (commit 4294967295 (init FullMasterCM.new) ⟨4294967295, true, true⟩).2 = 2 :=
  (commit_returns_version 4294967295 (init FullMasterCM.new) ⟨4294967295, true, true⟩
    (Or.inl rfl)).1

end FullMasterCommit

/-! ## C17: the delta commit -/

/-- C17: with at least one subscribed slave, `DeltaMasterCM::_commit` changes
the version and the deque exactly when packing the delta sent data. Then the
version goes up by one and one snapshot with the new version is appended;
otherwise version and deque stay as they are. The version before the call
is below the largest 128-bit value. -/
theorem deltaCommit_iff_sent (cm : DeltaMasterCM) (slaves : Nat) (packSent instanceSent : Bool)
    (hslaves : slaves ≠ 0) (hversion : cm.version + 1 < 2 ^ 128) :
    (((DeltaMasterCM._commit cm slaves packSent instanceSent).version ≠ cm.version ∨
        (DeltaMasterCM._commit cm slaves packSent instanceSent).instanceDatas ≠ cm.instanceDatas)
      ↔ packSent = true) ∧
    (packSent = true →
      (DeltaMasterCM._commit cm slaves packSent instanceSent).version = cm.version + 1 ∧
      (DeltaMasterCM._commit cm slaves packSent instanceSent).instanceDatas
        = cm.instanceDatas ++ [⟨cm.version + 1, cm.commitCount⟩]) ∧
    (packSent = false →
      (DeltaMasterCM._commit cm slaves packSent instanceSent).version = cm.version ∧
      (DeltaMasterCM._commit cm slaves packSent instanceSent).instanceDatas
        = cm.instanceDatas) := by
  have hv : cm.version + 1 < 340282366920938463463374607431768211456 := by
    norm_num at hversion
    exact hversion
  cases packSent
  · have h : DeltaMasterCM._commit cm slaves false instanceSent = { cm with deltaSent := false } := by
      unfold DeltaMasterCM._commit
      simp [hslaves]
    rw [h]
    simp
  · have h : DeltaMasterCM._commit cm slaves true instanceSent
        = { cm with
            deltaSent := true
            version := cm.version + 1
            instanceDatas := cm.instanceDatas ++ [⟨cm.version + 1, cm.commitCount⟩] } := by
      unfold DeltaMasterCM._commit
      simp [hslaves, Nat.mod_eq_of_lt hv]
    rw [h]
    simp

/-- Witness of C17: a delta master with version 1 and one slave whose delta
sends data. -/
theorem deltaCommit_iff_sent_witness :
    (DeltaMasterCM._commit ⟨FullMasterCM.init FullMasterCM.new, false⟩ 1 true false).version
      = 1 + 1 :=
  ((deltaCommit_iff_sent ⟨FullMasterCM.init FullMasterCM.new, false⟩ 1 true false (by decide)
    (by decide)).2.1 rfl).1

/-! ## C18: slave sync -/

section SlaveSync

open VersionedSlaveCM

theorem syncLoop_spec (getVersion : ObjectDataIStream → Nat) :
    ∀ (k n : Nat) (queue : List ObjectDataIStream) (cm : VersionedSlaveCM), k ≤ n →
      queue.map getVersion = List.range' (cm.version + 1) n →
      syncLoop getVersion (cm.version + k) cm queue
        = some { cm with
            version := cm.version + k
            applied := cm.applied ++ queue.take k
            queuedVersions := queue.drop k }
  | 0, _, queue, cm, _, _ => by
    cases queue with
    | nil => simp [syncLoop]
    | cons is rest => simp [syncLoop]
  | k + 1, 0, _, _, hk, _ => absurd hk (by omega)
  | k + 1, n + 1, [], cm, _, hq => by
    rw [List.range'_succ] at hq
    cases hq
  | k + 1, n + 1, is :: rest, cm, hk, hq => by
    rw [List.range'_succ, List.map_cons, List.cons.injEq] at hq
    have ih := syncLoop_spec getVersion k n rest (_unpackOneVersion getVersion cm is)
      (by omega) (by
        show rest.map getVersion = List.range' (getVersion is + 1) n
        rw [hq.1]
        exact hq.2)
    have hv : (_unpackOneVersion getVersion cm is).version + k = cm.version + (k + 1) := by
      show getVersion is + k = _
      rw [hq.1]
      omega
    rw [hv] at ih
    rw [syncLoop, if_pos (by omega), ih]
    simp [_unpackOneVersion]

theorem syncToHeadLoop_spec (getVersion : ObjectDataIStream → Nat) :
    ∀ (n : Nat) (queue : List ObjectDataIStream) (cm : VersionedSlaveCM),
      queue.map getVersion = List.range' (cm.version + 1) n →
      syncToHeadLoop getVersion cm queue
        = { cm with
            version := cm.version + n
            applied := cm.applied ++ queue
            queuedVersions := [] }
  | 0, queue, cm, hq => by
    have : queue = [] := by simpa using hq
    subst this
    simp [syncToHeadLoop]
  | n + 1, [], cm, hq => by
    rw [List.range'_succ] at hq
    cases hq
  | n + 1, is :: rest, cm, hq => by
    rw [List.range'_succ, List.map_cons, List.cons.injEq] at hq
    have ih := syncToHeadLoop_spec getVersion n rest (_unpackOneVersion getVersion cm is) (by
        show rest.map getVersion = List.range' (getVersion is + 1) n
        rw [hq.1]
        exact hq.2)
    rw [syncToHeadLoop, ih]
    have hv : (_unpackOneVersion getVersion cm is).version + n = cm.version + (n + 1) := by
      show getVersion is + n = _
      rw [hq.1]
      omega
    rw [hv]
    simp [_unpackOneVersion]

/-- C18: when the queue holds streams with the versions `_version + 1` to
`_version + n`, none of them above `VERSION_HEAD`, `sync(t)` for a target
`t` from `_version` to `_version + n` applies the first `t - _version`
streams of the queue in order, leaves the other streams queued and returns
`t`; `sync(VERSION_HEAD)` applies all streams of the queue in order and
returns `_version + n`. -/
theorem sync_in_order (versionHead : Nat) (getVersion : ObjectDataIStream → Nat)
    (cm : VersionedSlaveCM) (n : Nat)
    (hq : cm.queuedVersions.map getVersion = List.range' (cm.version + 1) n)
    (hhead : cm.version + n ≤ versionHead) :
    (∀ t, cm.version ≤ t → t ≤ cm.version + n →
      sync versionHead getVersion cm t = some ({ cm with
          version := t
          applied := cm.applied ++ cm.queuedVersions.take (t - cm.version)
          queuedVersions := cm.queuedVersions.drop (t - cm.version) }, t) ∧
      (cm.queuedVersions.take (t - cm.version)).map getVersion
        = List.range' (cm.version + 1) (t - cm.version)) ∧
    sync versionHead getVersion cm versionHead = some ({ cm with
        version := cm.version + n
        applied := cm.applied ++ cm.queuedVersions
        queuedVersions := [] }, cm.version + n) := by
  have hlen : cm.queuedVersions.length = n := by
    have := congrArg List.length hq
    simpa using this
  have hheadAll : _syncToHead getVersion cm = { cm with
        version := cm.version + n
        applied := cm.applied ++ cm.queuedVersions
        queuedVersions := [] } := by
    unfold _syncToHead
    cases hqv : cm.queuedVersions with
    | nil =>
      rw [hqv] at hlen
      simp only [List.length_nil] at hlen
      subst hlen
      cases cm
      simp_all
    | cons is rest =>
      simp only [List.isEmpty_cons, Bool.false_eq_true, if_false]
      rw [← hqv]
      exact syncToHeadLoop_spec getVersion n _ cm hq
  constructor
  · intro t ht1 ht2
    constructor
    · unfold sync
      by_cases h1 : cm.version = t
      · rw [if_pos h1]
        subst h1
        simp
      · rw [if_neg h1]
        by_cases h2 : t = versionHead
        · rw [if_pos h2]
          have ht : t = cm.version + n := by omega
          simp only [hheadAll]
          rw [ht, Nat.add_sub_cancel_left, ← hlen, List.take_length, List.drop_length]
        · rw [if_neg h2]
          have hs := syncLoop_spec getVersion (t - cm.version) n cm.queuedVersions cm (by omega) hq
          rw [show cm.version + (t - cm.version) = t by omega] at hs
          rw [hs]
          rfl
    · have hsplit : List.range' (cm.version + 1) n
          = List.range' (cm.version + 1) (t - cm.version)
            ++ List.range' (cm.version + 1 + (t - cm.version)) (n - (t - cm.version)) := by
        rw [List.range'_append_1]
        congr 1
        omega
      rw [List.map_take, hq, hsplit, List.take_left' (by simp)]
  · unfold sync
    by_cases h1 : cm.version = versionHead
    · rw [if_pos h1]
      have hn : n = 0 := by omega
      subst hn
      have : cm.queuedVersions = [] := by simpa using hq
      cases cm
      simp_all
    · rw [if_neg h1, if_pos rfl]
      simp only [hheadAll]

/-- Witness of C18: the slave at version 3 with the versions 4, 5 and 6
queued, `VERSION_HEAD` taken to be `0xFFFFFFFF`, synchronised to version 5. -/
theorem sync_in_order_witness :
    sync 4294967295 packetVersion slaveWithQueue 5 = some ({ slaveWithQueue with
      version := 5
      applied := slaveWithQueue.applied ++ slaveWithQueue.queuedVersions.take (5 - 3)
      queuedVersions := slaveWithQueue.queuedVersions.drop (5 - 3) }, 5) :=
  ((sync_in_order 4294967295 packetVersion slaveWithQueue 3 (by decide) (by decide)).1 5
    (by decide) (by decide)).1

end SlaveSync

/-! ## C19: stale broadcasts -/

section SlaveCommands

open VersionedSlaveCM

theorem ignoreCommand_iff (versionNone : Nat) (cm : VersionedSlaveCM) (command : Command) :
    _ignoreCommand versionNone cm command = true ↔
      (cm.version = versionNone ∧ cm.queuedVersions = [] ∧
        command.instanceID ≠ cm.instanceID) := by
  unfold _ignoreCommand
  by_cases h1 : cm.version = versionNone
  · cases hq : cm.queuedVersions with
    | nil =>
      by_cases h3 : command.instanceID = cm.instanceID
      · simp [h1, h3]
      · simp [h1, h3]
    | cons a rest => simp [h1]
  · simp [h1]

theorem addCommand_ne (isReady : ObjectDataIStream → Bool) (getVersion : ObjectDataIStream → Nat)
    (type : StreamType) (cm : VersionedSlaveCM) (command : Command) :
    addCommand isReady getVersion type cm command ≠ cm := by
  intro h
  unfold addCommand at h
  simp only at h
  by_cases hr : isReady (addDataPacket (currentOrNew type cm) command) = true
  · rw [if_pos hr] at h
    have := congrArg (fun c => c.queuedVersions.length) h
    simp at this
  · rw [if_neg hr] at h
    have h2 := congrArg (fun c => c.currentIStream) h
    simp only at h2
    cases hc : cm.currentIStream with
    | none =>
      rw [hc] at h2
      cases h2
    | some stream =>
      have hcur : currentOrNew type cm = stream := by
        unfold currentOrNew
        rw [hc]
      rw [hc, hcur, Option.some.injEq] at h2
      have := congrArg (fun s => s.commands.length) h2
      simp [addDataPacket] at this

theorem currentOrNew_commands (type : StreamType) (cm : VersionedSlaveCM) :
    (currentOrNew type cm).commands
      = (cm.currentIStream.map ObjectDataIStream.commands).getD [] := by
  unfold currentOrNew
  cases cm.currentIStream <;> rfl

theorem addCommand_spec (isReady : ObjectDataIStream → Bool) (getVersion : ObjectDataIStream → Nat)
    (type : StreamType) (cm : VersionedSlaveCM) (command : Command) :
    ∃ stream : ObjectDataIStream,
      stream.commands
        = (cm.currentIStream.map ObjectDataIStream.commands).getD [] ++ [command] ∧
      (addCommand isReady getVersion type cm command).version = cm.version ∧
      (((addCommand isReady getVersion type cm command).currentIStream = some stream ∧
          (addCommand isReady getVersion type cm command).queuedVersions = cm.queuedVersions) ∨
        ((addCommand isReady getVersion type cm command).currentIStream = none ∧
          (addCommand isReady getVersion type cm command).queuedVersions
            = cm.queuedVersions ++ [stream])) := by
  have hc : (addDataPacket (currentOrNew type cm) command).commands
      = (cm.currentIStream.map ObjectDataIStream.commands).getD [] ++ [command] := by
    rw [← currentOrNew_commands type cm]
    rfl
  unfold addCommand
  simp only
  by_cases hr : isReady (addDataPacket (currentOrNew type cm) command) = true
  · rw [if_pos hr]
    exact ⟨_, hc, rfl, Or.inr ⟨rfl, rfl⟩⟩
  · rw [if_neg hr]
    exact ⟨_, hc, rfl, Or.inl ⟨rfl, rfl⟩⟩

/-- C19: `_cmdInstance` and `_cmdDelta` leave the slave as it is exactly
when its version is `VERSION_NONE`, its queue is empty and the command is
for another instance identifier, which is when `_ignoreCommand` holds; in
every other case the command is added to the stream in progress, which stays
in progress or is queued, and the version is unchanged. -/
theorem cmd_dropped_iff (versionNone : Nat) (isReady : ObjectDataIStream → Bool)
    (getVersion : ObjectDataIStream → Nat) (cm : VersionedSlaveCM) (command : Command) :
    (_ignoreCommand versionNone cm command = true ↔
      (cm.version = versionNone ∧ cm.queuedVersions = [] ∧
        command.instanceID ≠ cm.instanceID)) ∧
    (_cmdInstance versionNone isReady getVersion cm command = cm ↔
      (cm.version = versionNone ∧ cm.queuedVersions = [] ∧
        command.instanceID ≠ cm.instanceID)) ∧
    (_cmdDelta versionNone isReady getVersion cm command = cm ↔
      (cm.version = versionNone ∧ cm.queuedVersions = [] ∧
        command.instanceID ≠ cm.instanceID)) ∧
    (¬ (cm.version = versionNone ∧ cm.queuedVersions = [] ∧
        command.instanceID ≠ cm.instanceID) →
      ∀ cm2, (cm2 = _cmdInstance versionNone isReady getVersion cm command ∨
          cm2 = _cmdDelta versionNone isReady getVersion cm command) →
        ∃ stream : ObjectDataIStream,
          stream.commands
            = (cm.currentIStream.map ObjectDataIStream.commands).getD [] ++ [command] ∧
          cm2.version = cm.version ∧
          ((cm2.currentIStream = some stream ∧ cm2.queuedVersions = cm.queuedVersions) ∨
            (cm2.currentIStream = none ∧
              cm2.queuedVersions = cm.queuedVersions ++ [stream]))) := by
  have hiff := ignoreCommand_iff versionNone cm command
  refine ⟨hiff, ?_, ?_, ?_⟩
  · unfold _cmdInstance
    by_cases h : _ignoreCommand versionNone cm command = true
    · rw [if_pos h]
      exact ⟨fun _ => hiff.mp h, fun _ => rfl⟩
    · rw [if_neg h]
      exact ⟨fun h2 => absurd h2 (addCommand_ne _ _ _ _ _), fun h2 => absurd (hiff.mpr h2) h⟩
  · unfold _cmdDelta
    by_cases h : _ignoreCommand versionNone cm command = true
    · rw [if_pos h]
      exact ⟨fun _ => hiff.mp h, fun _ => rfl⟩
    · rw [if_neg h]
      exact ⟨fun h2 => absurd h2 (addCommand_ne _ _ _ _ _), fun h2 => absurd (hiff.mpr h2) h⟩
  · intro hcond cm2 hcm2
    have h : ¬ _ignoreCommand versionNone cm command = true := fun h => hcond (hiff.mp h)
    rcases hcm2 with rfl | rfl
    · unfold _cmdInstance
      rw [if_neg h]
      exact addCommand_spec _ _ _ _ _
    · unfold _cmdDelta
      rw [if_neg h]
      exact addCommand_spec _ _ _ _ _

/-- Witness of C19: a slave without a version and with an empty queue drops
an instance command for the instance identifier 8, which is not its own. -/
theorem cmd_dropped_iff_witness :
    _cmdInstance 0 (fun _ => true) packetVersion freshSlave ⟨8, 1⟩ = freshSlave :=
  (cmd_dropped_iff 0 (fun _ => true) packetVersion freshSlave ⟨8, 1⟩).2.1.mpr
    ⟨rfl, rfl, by decide⟩

end SlaveCommands

/-! ## C20: the membership handshake -/

section Handshake

open RSPListener

theorem QuietStep.refl (c : RSPListener) : QuietStep c c :=
  ⟨rfl, rfl, rfl, rfl, rfl, ⟨[], by simp, by simp⟩, fun h => h⟩

theorem QuietStep.trans {a b c : RSPListener} (h1 : QuietStep a b) (h2 : QuietStep b c) : QuietStep a c := by
  obtain ⟨e1, hs1, ht1⟩ := h1.sent
  obtain ⟨e2, hs2, ht2⟩ := h2.sent
  refine ⟨h2.id.trans h1.id, h2.sequence.trans h1.sequence, h2.idAccepted.trans h1.idAccepted,
    h2.listening.trans h1.listening, h2.timeouts.trans h1.timeouts, ⟨e1 ++ e2, ?_, ?_⟩,
    fun h => h2.self (h1.self h)⟩
  · rw [hs2, hs1, List.append_assoc]
  · intro d hd
    rcases List.mem_append.mp hd with h | h
    · exact ht1 d h
    · exact ht2 d h

theorem sendCountNode_quiet (c : RSPListener) : QuietStep c (_sendCountNode c) := by
  unfold _sendCountNode
  split
  · exact QuietStep.refl c
  · refine ⟨rfl, rfl, rfl, rfl, rfl, ⟨_, rfl, ?_⟩, fun h => h⟩
    intro d hd
    rw [List.mem_singleton] at hd
    rw [hd]
    exact Or.inr (Or.inr rfl)

theorem checkNewID_quiet (c : RSPListener) (id : Nat) : QuietStep c (_checkNewID c id) := by
  unfold _checkNewID _sendSimpleDatagram
  split
  · refine ⟨rfl, rfl, rfl, rfl, rfl, ⟨_, rfl, ?_⟩, fun h => h⟩
    intro d hd
    rw [List.mem_singleton] at hd
    rw [hd]
    exact Or.inr (Or.inl rfl)
  · refine ⟨rfl, rfl, rfl, rfl, rfl, ⟨_, rfl, ?_⟩, fun h => h⟩
    intro d hd
    rw [List.mem_singleton] at hd
    rw [hd]
    exact Or.inl rfl

theorem findConnection_append (l : List ChildConnection) (child : ChildConnection) (id : Nat)
    (h : (_findConnection l id).isSome = true) :
    (_findConnection (l ++ [child]) id).isSome = true := by
  unfold _findConnection at *
  rw [List.find?_append]
  cases hf : List.find? (fun c => decide (c.id = id)) l with
  | none =>
    rw [hf] at h
    cases h
  | some x => rfl

theorem findConnection_append_self (l : List ChildConnection) (child : ChildConnection) :
    (_findConnection (l ++ [child]) child.id).isSome = true := by
  unfold _findConnection
  rw [List.find?_append]
  cases List.find? (fun c => decide (c.id = child.id)) l with
  | none => simp
  | some x => rfl

theorem findConnection_eraseChild (id other : Nat) (hne : other ≠ id) :
    ∀ l : List ChildConnection, (_findConnection l id).isSome = true →
      (_findConnection (eraseChild other l) id).isSome = true
  | [], h => h
  | child :: rest, h => by
    unfold _findConnection at *
    unfold eraseChild
    by_cases h1 : child.id = other
    · rw [if_pos h1]
      rw [List.find?_cons, show decide (child.id = id) = false by
        simp only [decide_eq_false_iff_not]; omega] at h
      exact h
    · rw [if_neg h1]
      by_cases h2 : child.id = id
      · rw [List.find?_cons, show decide (child.id = id) = true by simpa using h2]
        rfl
      · rw [List.find?_cons, show decide (child.id = id) = false by simpa using h2] at h ⊢
        exact findConnection_eraseChild id other hne rest h

theorem addConnection_quiet (buffers : List Buffer) (c : RSPListener) (id sequence : Nat) :
    QuietStep c (_addConnection buffers c id sequence) := by
  unfold _addConnection
  split
  · exact QuietStep.refl c
  · refine QuietStep.trans ?_ (sendCountNode_quiet _)
    exact ⟨rfl, rfl, rfl, rfl, rfl, ⟨[], by simp, by simp⟩,
      fun h => findConnection_append _ _ _ h⟩

theorem removeConnection_quiet (c : RSPListener) (id : Nat) :
    QuietStep c (_removeConnection c id) := by
  unfold _removeConnection
  split
  · exact QuietStep.refl c
  · rename_i hne
    refine QuietStep.trans ?_ (sendCountNode_quiet _)
    exact ⟨rfl, rfl, rfl, rfl, rfl, ⟨[], by simp, by simp⟩,
      fun h => findConnection_eraseChild _ _ hne _ h⟩

theorem handleAcceptIDData_quiet (buffers : List Buffer) (c : RSPListener) (bytes : Nat)
    (node : DatagramNode) (random : Nat)
    (hdeny : deniesID c.id (Event.packet bytes node random) = false) :
    QuietStep c (_handleAcceptIDData buffers c bytes node random) := by
  unfold _handleAcceptIDData _getDatagramNode
  by_cases h1 : bytes < sizeofDatagramNode
  · rw [if_pos h1]
    exact QuietStep.refl c
  · rw [if_neg h1]
    by_cases h2 : node.protocolVersion ≠ CO_RSP_PROTOCOL_VERSION
    · rw [if_pos h2]
      exact QuietStep.refl c
    · rw [if_neg h2]
      simp only
      split
      · exact checkNewID_quiet c _
      · split
        · exact addConnection_quiet buffers c _ _
        · split
          · rename_i h5
            split
            · rename_i h6
              simp only [deniesID, decide_eq_false_iff_not] at hdeny
              exact absurd ⟨by omega, by simpa using h2, h5, h6⟩ hdeny
            · exact QuietStep.refl c
          · split
            · exact removeConnection_quiet c _
            · exact QuietStep.refl c

theorem handleInitData_quiet (buffers : List Buffer) (c : RSPListener) (bytes : Nat)
    (node : DatagramNode) (random : Nat)
    (hreset : resetsTimeouts (Event.packet bytes node random) = false) :
    QuietStep c (_handleInitData buffers c bytes node false) := by
  unfold _handleInitData _getDatagramNode
  by_cases h1 : bytes < sizeofDatagramNode
  · rw [if_pos h1]
    exact QuietStep.refl c
  · rw [if_neg h1]
    by_cases h2 : node.protocolVersion ≠ CO_RSP_PROTOCOL_VERSION
    · rw [if_pos h2]
      exact QuietStep.refl c
    · rw [if_neg h2]
      simp only [resetsTimeouts, decide_eq_false_iff_not] at hreset
      simp only
      split
      · rename_i h3
        exact absurd ⟨by omega, by simpa using h2, Or.inl h3⟩ hreset
      · split
        · rename_i h4
          exact absurd ⟨by omega, by simpa using h2, Or.inr h4⟩ hreset
        · split
          · exact QuietStep.refl c
          · split
            · exact addConnection_quiet buffers c _ _
            · split
              · exact removeConnection_quiet c _
              · exact QuietStep.refl c

/-- What `_handleInitData` does on any packet: it may set the timeout count
back to zero, and apart from that it is a quiet step. -/
theorem handleInitData_reset (buffers : List Buffer) (c : RSPListener) (bytes : Nat)
    (node : DatagramNode) :
    QuietStep c (_handleInitData buffers c bytes node false) ∨
      QuietStep { c with timeouts := 0 } (_handleInitData buffers c bytes node false) := by
  unfold _handleInitData
  split
  · exact Or.inl (QuietStep.refl c)
  · simp only [Bool.not_false, if_true]
    split
    · exact Or.inr (checkNewID_quiet _ _)
    · split
      · exact Or.inr (addConnection_quiet buffers _ _ _)
      · split
        · exact Or.inl (QuietStep.refl c)
        · split
          · exact Or.inl (addConnection_quiet buffers c _ _)
          · split
            · exact Or.inl (removeConnection_quiet c _)
            · exact Or.inl (QuietStep.refl c)

theorem filter_hello_extra (extra : List DatagramNode)
    (h : ∀ d ∈ extra, d.type = ID_HELLO_REPLY ∨ d.type = ID_DENY ∨ d.type = COUNTNODE) :
    extra.filter (fun d => decide (d.type = ID_HELLO)) = [] := by
  rw [List.filter_eq_nil_iff]
  intro d hd
  rcases h d hd with h | h | h <;> rw [h] <;> decide

theorem announcing_quiet (id k : Nat) (c c2 : RSPListener) (h : Announcing id k c)
    (hq : QuietStep c c2) : Announcing id k c2 := by
  obtain ⟨extra, hs, ht⟩ := hq.sent
  refine ⟨hq.idAccepted.trans h.idAccepted, hq.listening.trans h.listening, hq.id.trans h.ident,
    hq.timeouts.trans h.timeouts, ?_, ?_⟩
  · intro d hd
    rw [hs] at hd
    rcases List.mem_append.mp hd with hd | hd
    · exact h.types d hd
    · exact Or.inr (ht d hd)
  · rw [hs, List.filter_append, filter_hello_extra extra ht, List.append_nil]
    exact h.hellos

theorem announcing_timeout (buffers : List Buffer) (id k : Nat) (c : RSPListener)
    (h : Announcing id k c) (hk : k + 1 < 20) :
    Announcing id (k + 1) (_handleAcceptIDTimeout buffers c) := by
  unfold _handleAcceptIDTimeout
  simp only
  rw [if_pos (by rw [h.timeouts]; exact hk)]
  unfold _sendSimpleDatagram
  refine ⟨h.idAccepted, h.listening, h.ident, ?_, ?_, ?_⟩
  · show c.timeouts + 1 = k + 1
    rw [h.timeouts]
  · intro d hd
    rcases List.mem_append.mp hd with hd | hd
    · exact h.types d hd
    · rw [List.mem_singleton] at hd
      rw [hd]
      exact Or.inl ⟨rfl, h.ident⟩
  · show ((c.sent ++ [_]).filter _).length = k + 1 + 1
    rw [List.filter_append, List.length_append, h.hellos]
    rfl

theorem run_announcing (buffers : List Buffer) (id : Nat) :
    ∀ (evs : List Event) (c : RSPListener) (k : Nat), Announcing id k c →
      (∀ e ∈ evs, deniesID id e = false) → k + timeoutCount evs < 20 →
      Announcing id (k + timeoutCount evs) (run buffers c evs)
  | [], c, k, h, _, _ => h
  | Event.timeout :: rest, c, k, h, hd, hk => by
    rw [run, if_neg (by rw [h.listening]; simp)]
    simp only [timeoutCount] at hk ⊢
    have h1 : Announcing id (k + 1) (handleEvent buffers c Event.timeout) := by
      simp only [handleEvent]
      rw [if_neg (by rw [h.idAccepted]; simp)]
      exact announcing_timeout buffers id k c h (by omega)
    have := run_announcing buffers id rest _ (k + 1) h1
      (fun e he => hd e (List.mem_cons_of_mem _ he)) (by omega)
    rw [show k + (timeoutCount rest + 1) = k + 1 + timeoutCount rest by omega]
    exact this
  | Event.packet bytes node random :: rest, c, k, h, hd, hk => by
    rw [run, if_neg (by rw [h.listening]; simp)]
    simp only [timeoutCount] at hk ⊢
    have h1 : Announcing id k (handleEvent buffers c (Event.packet bytes node random)) := by
      simp only [handleEvent]
      by_cases hb : bytes ≥ sizeofDatagramNode
      · rw [if_pos hb, if_neg (by rw [h.idAccepted]; simp)]
        apply announcing_quiet id k c _ h
        apply handleAcceptIDData_quiet
        rw [h.ident]
        exact hd _ (List.mem_cons_self _ _)
      · rw [if_neg hb]
        exact h
    exact run_announcing buffers id rest _ k h1
      (fun e he => hd e (List.mem_cons_of_mem _ he)) hk

theorem run_listening (buffers : List Buffer) (c : RSPListener) (h : c.listening = true) :
    ∀ evs : List Event, run buffers c evs = c
  | [] => rfl
  | e :: rest => by rw [run, if_pos h]

theorem run_init_phase (buffers : List Buffer) :
    ∀ (evs : List Event) (c : RSPListener), c.idAccepted = true → c.listening = false →
      c.timeouts < 20 → (∀ e ∈ evs, resetsTimeouts e = false) →
      ((run buffers c evs).listening = true ↔ 20 ≤ c.timeouts + timeoutCount evs)
  | [], c, _, hl, hk, _ => by
    simp only [run, timeoutCount, hl]
    constructor
    · intro h
      cases h
    · intro h
      omega
  | Event.timeout :: rest, c, ha, hl, hk, hr => by
    rw [run, if_neg (by rw [hl]; simp)]
    simp only [timeoutCount, handleEvent]
    rw [if_pos ha]
    unfold _handleInitTimeout
    simp only
    by_cases h19 : c.timeouts + 1 < 20
    · rw [if_pos h19]
      have hq := sendCountNode_quiet { c with timeouts := c.timeouts + 1 }
      have := run_init_phase buffers rest _ (hq.idAccepted.trans ha) (hq.listening.trans hl)
        (by rw [hq.timeouts]; exact h19) (fun e he => hr e (List.mem_cons_of_mem _ he))
      rw [this, hq.timeouts]
      show 20 ≤ c.timeouts + 1 + timeoutCount rest ↔ _
      omega
    · rw [if_neg h19, run_listening buffers _ rfl]
      constructor
      · intro _
        omega
      · intro _
        rfl
  | Event.packet bytes node random :: rest, c, ha, hl, hk, hr => by
    rw [run, if_neg (by rw [hl]; simp)]
    simp only [timeoutCount]
    have hq : QuietStep c (handleEvent buffers c (Event.packet bytes node random)) := by
      simp only [handleEvent]
      by_cases hb : bytes ≥ sizeofDatagramNode
      · rw [if_pos hb, if_pos ha]
        exact handleInitData_quiet buffers c bytes node random (hr _ (List.mem_cons_self _ _))
      · rw [if_neg hb]
        exact QuietStep.refl c
    have := run_init_phase buffers rest _ (hq.idAccepted.trans ha) (hq.listening.trans hl)
      (by rw [hq.timeouts]; exact hk) (fun e he => hr e (List.mem_cons_of_mem _ he))
    rw [this, hq.timeouts]

theorem safe_quiet (c c2 : RSPListener) (h : ListeningSafe c) (hq : QuietStep c c2) : ListeningSafe c2 := by
  refine ⟨?_, ?_⟩
  · intro hl
    rw [hq.idAccepted]
    exact h.1 (hq.listening ▸ hl)
  · intro ha
    exact hq.self (h.2 (hq.idAccepted ▸ ha))

/-- The timeout that ends the announcing phase: `ID_CONFIRM` is sent, the
connection is among its own children, as a new child with its own sequence
when no child had its identifier, and the identifier is accepted. -/
theorem acceptID_confirm (buffers : List Buffer) (c : RSPListener)
    (h19 : ¬ c.timeouts + 1 < 20) :
    (_handleAcceptIDTimeout buffers c).idAccepted = true ∧
    (_handleAcceptIDTimeout buffers c).listening = c.listening ∧
    (_handleAcceptIDTimeout buffers c).timeouts = 0 ∧
    (_handleAcceptIDTimeout buffers c).id = c.id ∧
    (_findConnection (_handleAcceptIDTimeout buffers c).children c.id).isSome = true ∧
    ((_findConnection c.children c.id) = none →
      (_handleAcceptIDTimeout buffers c).children
        = c.children ++ [newChild c.id c.sequence buffers]) ∧
    ∃ extra, (_handleAcceptIDTimeout buffers c).sent
        = c.sent ++ ⟨ID_CONFIRM, CO_RSP_PROTOCOL_VERSION, c.id, c.sequence⟩ :: extra ∧
      ∀ d ∈ extra, d.type = COUNTNODE := by
  cases hf : _findConnection c.children c.id with
  | some child =>
    have hres : _handleAcceptIDTimeout buffers c = { c with
        timeouts := 0
        idAccepted := true
        sent := c.sent ++ [⟨ID_CONFIRM, CO_RSP_PROTOCOL_VERSION, c.id, c.sequence⟩] ++
          [⟨COUNTNODE, CO_RSP_PROTOCOL_VERSION, c.id, c.children.length % seqMod⟩] } := by
      unfold _handleAcceptIDTimeout
      simp only
      rw [if_neg h19]
      unfold _addConnection _sendSimpleDatagram
      simp only [hf]
      unfold _sendCountNode
      simp only [hf]
    rw [hres]
    refine ⟨rfl, rfl, rfl, rfl, ?_, (fun h => by cases h),
      ⟨[⟨COUNTNODE, CO_RSP_PROTOCOL_VERSION, c.id, c.children.length % seqMod⟩], ?_, ?_⟩⟩
    · show (_findConnection c.children c.id).isSome = true
      rw [hf]
      rfl
    · show c.sent ++ _ ++ _ = _
      rw [List.append_assoc]
      rfl
    · intro d hd
      rw [List.mem_singleton] at hd
      rw [hd]
  | none =>
    have hself : (_findConnection (c.children ++ [newChild c.id c.sequence buffers]) c.id).isSome
        = true := findConnection_append_self c.children (newChild c.id c.sequence buffers)
    cases hf2 : _findConnection (c.children ++ [newChild c.id c.sequence buffers]) c.id with
    | none =>
      rw [hf2] at hself
      cases hself
    | some child =>
      have hres : _handleAcceptIDTimeout buffers c = { c with
          timeouts := 0
          idAccepted := true
          children := c.children ++ [newChild c.id c.sequence buffers]
          sent := c.sent ++ [⟨ID_CONFIRM, CO_RSP_PROTOCOL_VERSION, c.id, c.sequence⟩] ++
            [⟨COUNTNODE, CO_RSP_PROTOCOL_VERSION, c.id,
              (c.children ++ [newChild c.id c.sequence buffers]).length % seqMod⟩] ++
            [⟨COUNTNODE, CO_RSP_PROTOCOL_VERSION, c.id,
              (c.children ++ [newChild c.id c.sequence buffers]).length % seqMod⟩] } := by
        unfold _handleAcceptIDTimeout
        simp only
        rw [if_neg h19]
        unfold _addConnection _sendSimpleDatagram
        simp only [hf]
        unfold _sendCountNode
        simp only [hf2]
      rw [hres]
      refine ⟨rfl, rfl, rfl, rfl, ?_, (fun _ => rfl),
        ⟨[⟨COUNTNODE, CO_RSP_PROTOCOL_VERSION, c.id,
            (c.children ++ [newChild c.id c.sequence buffers]).length % seqMod⟩,
          ⟨COUNTNODE, CO_RSP_PROTOCOL_VERSION, c.id,
            (c.children ++ [newChild c.id c.sequence buffers]).length % seqMod⟩], ?_, ?_⟩⟩
      · show (_findConnection (c.children ++ [newChild c.id c.sequence buffers]) c.id).isSome
          = true
        exact hself
      · show c.sent ++ _ ++ _ ++ _ = _
        rw [List.append_assoc, List.append_assoc]
        rfl
      · intro d hd
        simp only [List.singleton_append, List.mem_cons, List.not_mem_nil, or_false] at hd
        rcases hd with hd | hd <;> rw [hd]

theorem handleEvent_safe (buffers : List Buffer) (c : RSPListener) (e : Event)
    (hl : c.listening = false) (h : ListeningSafe c) : ListeningSafe (handleEvent buffers c e) := by
  cases e with
  | timeout =>
    simp only [handleEvent]
    by_cases ha : c.idAccepted = true
    · rw [if_pos ha]
      unfold _handleInitTimeout
      simp only
      split
      · exact safe_quiet { c with timeouts := c.timeouts + 1 } _ ⟨fun _ => ha, h.2⟩
          (sendCountNode_quiet _)
      · exact ⟨fun _ => ha, h.2⟩
    · rw [if_neg ha]
      by_cases h19 : c.timeouts + 1 < 20
      · unfold _handleAcceptIDTimeout _sendSimpleDatagram
        simp only
        rw [if_pos h19]
        refine ⟨fun hl2 => ?_, fun ha2 => absurd ha2 ha⟩
        rw [hl] at hl2
        cases hl2
      · obtain ⟨h1, _, _, h4, h5, _⟩ := acceptID_confirm buffers c h19
        refine ⟨fun _ => h1, fun _ => ?_⟩
        rw [h4]
        exact h5
  | packet bytes node random =>
    simp only [handleEvent]
    by_cases hb : bytes ≥ sizeofDatagramNode
    · rw [if_pos hb]
      by_cases ha : c.idAccepted = true
      · rw [if_pos ha]
        rcases handleInitData_reset buffers c bytes node with hq | hq
        · exact safe_quiet _ _ h hq
        · exact safe_quiet { c with timeouts := 0 } _ ⟨h.1, h.2⟩ hq
      · rw [if_neg ha]
        unfold _handleAcceptIDData
        split
        · exact h
        · simp only
          split
          · exact safe_quiet _ _ h (checkNewID_quiet c _)
          · split
            · exact safe_quiet _ _ h (addConnection_quiet buffers c _ _)
            · split
              · split
                · unfold _sendSimpleDatagram
                  refine ⟨fun hl2 => ?_, fun ha2 => absurd ha2 ha⟩
                  rw [hl] at hl2
                  cases hl2
                · exact h
              · split
                · exact safe_quiet _ _ h (removeConnection_quiet c _)
                · exact h
    · rw [if_neg hb]
      exact h

theorem run_safe (buffers : List Buffer) :
    ∀ (evs : List Event) (c : RSPListener), ListeningSafe c → ListeningSafe (run buffers c evs)
  | [], _, h => h
  | e :: rest, c, h => by
    rw [run]
    by_cases hl : c.listening = true
    · rw [if_pos hl]
      exact h
    · rw [if_neg hl]
      exact run_safe buffers rest _ (handleEvent_safe buffers c e (by simpa using hl) h)

theorem handleAcceptIDData_deny (buffers : List Buffer) (c : RSPListener) (bytes : Nat)
    (node : DatagramNode) (random : Nat)
    (hdeny : deniesID c.id (Event.packet bytes node random) = true) :
    _handleAcceptIDData buffers c bytes node random = { c with
      timeouts := 0
      id := random
      sent := c.sent ++ [⟨ID_HELLO, CO_RSP_PROTOCOL_VERSION, random, c.sequence⟩] } := by
  simp only [deniesID, decide_eq_true_eq] at hdeny
  obtain ⟨h1, h2, h3, h4⟩ := hdeny
  unfold _handleAcceptIDData _getDatagramNode
  rw [if_neg (by omega), if_neg (by simpa using h2)]
  simp only
  rw [if_neg (by rw [h3]; decide), if_neg (by rw [h3]; decide), if_pos h3, if_pos h4]
  rfl

theorem handleInitData_resets (buffers : List Buffer) (c : RSPListener) (bytes : Nat)
    (node : DatagramNode) (random : Nat)
    (hreset : resetsTimeouts (Event.packet bytes node random) = true) :
    QuietStep { c with timeouts := 0 } (_handleInitData buffers c bytes node false) := by
  simp only [resetsTimeouts, decide_eq_true_eq] at hreset
  obtain ⟨h1, h2, h3⟩ := hreset
  unfold _handleInitData _getDatagramNode
  rw [if_neg (by omega), if_neg (by simpa using h2)]
  simp only [Bool.not_false, if_true]
  rcases h3 with h3 | h3
  · rw [if_pos h3]
    exact checkNewID_quiet _ _
  · rw [if_neg (by rw [h3]; decide), if_pos h3]
    exact addConnection_quiet buffers _ _ _

/-- C20, as amended. From `_initThread` on and while no `ID_DENY` for its
identifier arrives, a connection answers each of its first 19 timeouts with
an `ID_HELLO` for its identifier; besides these it sends only replies to the
announcements of others and node counts, and its identifier is not accepted.
At the 20th timeout in a row it sends `ID_CONFIRM`, is among its own children,
as a new child with its own sequence when no child had its identifier, and its
identifier is accepted. An `ID_DENY` for its identifier before that sets the
timeout count to zero, replaces the identifier and announces the new one.
After the identifier is accepted the connection is listening exactly from the
20th timeout on when no `ID_HELLO` or `ID_CONFIRM` arrives; each of these sets
the timeout count back to zero. A listening connection always has an accepted
identifier and is among its own children. -/
theorem handshake_phases (buffers : List Buffer) (id sequence : Nat) :
    (∀ evs : List Event, (∀ e ∈ evs, deniesID id e = false) → timeoutCount evs < 20 →
      Announcing id (timeoutCount evs) (_initThread buffers (start id sequence) evs)) ∧
    (∀ c : RSPListener, c.idAccepted = false → c.listening = false → c.timeouts = 19 →
      (handleEvent buffers c Event.timeout).idAccepted = true ∧
      (handleEvent buffers c Event.timeout).listening = false ∧
      (handleEvent buffers c Event.timeout).timeouts = 0 ∧
      (handleEvent buffers c Event.timeout).id = c.id ∧
      (_findConnection (handleEvent buffers c Event.timeout).children c.id).isSome = true ∧
      ((_findConnection c.children c.id) = none →
        (handleEvent buffers c Event.timeout).children
          = c.children ++ [newChild c.id c.sequence buffers]) ∧
      ∃ extra, (handleEvent buffers c Event.timeout).sent
          = c.sent ++ ⟨ID_CONFIRM, CO_RSP_PROTOCOL_VERSION, c.id, c.sequence⟩ :: extra ∧
        ∀ d ∈ extra, d.type = COUNTNODE) ∧
    (∀ (c : RSPListener) (bytes : Nat) (node : DatagramNode) (random : Nat),
      c.idAccepted = false → deniesID c.id (Event.packet bytes node random) = true →
      handleEvent buffers c (Event.packet bytes node random) = { c with
        timeouts := 0
        id := random
        sent := c.sent ++ [⟨ID_HELLO, CO_RSP_PROTOCOL_VERSION, random, c.sequence⟩] }) ∧
    (∀ (c : RSPListener) (evs : List Event), c.idAccepted = true → c.listening = false →
      c.timeouts = 0 → (∀ e ∈ evs, resetsTimeouts e = false) →
      ((run buffers c evs).listening = true ↔ 20 ≤ timeoutCount evs)) ∧
    (∀ (c : RSPListener) (bytes : Nat) (node : DatagramNode) (random : Nat),
      c.idAccepted = true → resetsTimeouts (Event.packet bytes node random) = true →
      (handleEvent buffers c (Event.packet bytes node random)).timeouts = 0 ∧
      (handleEvent buffers c (Event.packet bytes node random)).listening = c.listening) ∧
    (∀ evs : List Event, ListeningSafe (_initThread buffers (start id sequence) evs)) := by
  refine ⟨?_, ?_, ?_, ?_, ?_, ?_⟩
  · intro evs hd hk
    have h0 : Announcing id 0 (_sendSimpleDatagram { start id sequence with timeouts := 0 }
        ID_HELLO (start id sequence).id) :=
      ⟨rfl, rfl, rfl, rfl, (by
        intro d hd
        simp only [_sendSimpleDatagram, start, List.nil_append, List.mem_singleton] at hd
        rw [hd]
        exact Or.inl ⟨rfl, rfl⟩), rfl⟩
    have := run_announcing buffers id evs _ 0 h0 hd (by omega)
    rw [Nat.zero_add] at this
    exact this
  · intro c ha hl h19
    have hev : handleEvent buffers c Event.timeout = _handleAcceptIDTimeout buffers c := by
      simp only [handleEvent]
      rw [if_neg (by rw [ha]; simp)]
    rw [hev]
    obtain ⟨h1, h2, h3, h4, h5, h6, h7⟩ := acceptID_confirm buffers c (by omega)
    exact ⟨h1, h2.trans hl, h3, h4, h5, h6, h7⟩
  · intro c bytes node random ha hdeny
    have hb : bytes ≥ sizeofDatagramNode := by
      simp only [deniesID, decide_eq_true_eq] at hdeny
      exact hdeny.1
    simp only [handleEvent]
    rw [if_pos hb, if_neg (by rw [ha]; simp)]
    exact handleAcceptIDData_deny buffers c bytes node random hdeny
  · intro c evs ha hl h0 hr
    have := run_init_phase buffers evs c ha hl (by omega) hr
    rw [h0, Nat.zero_add] at this
    exact this
  · intro c bytes node random ha hreset
    have hb : bytes ≥ sizeofDatagramNode := by
      simp only [resetsTimeouts, decide_eq_true_eq] at hreset
      exact hreset.1
    simp only [handleEvent]
    rw [if_pos hb, if_pos ha]
    have hq := handleInitData_resets buffers c bytes node random hreset
    exact ⟨hq.timeouts, hq.listening⟩
  · intro evs
    apply run_safe
    refine ⟨fun h => ?_, fun h => ?_⟩
    · cases h
    · cases h

/-- C20, as stated, fails. A connection that announces the identifier 7 and
receives the `ID_HELLO` of a connection 9 sends an `ID_HELLO_REPLY`, which is
not an `ID_HELLO`. And a connection whose identifier was accepted at its 20th
timeout and that receives an `ID_HELLO` after 10 further timeouts is not
listening after 20 further timeouts; it is after 30. A connection that
receives an `ID_HELLO_REPLY` with its own identifier 7 and the sequence 500
while it announces takes that for a child, sends a node count, and is at its
20th timeout its own child with the sequence 500, not with its own 0. -/
theorem handshake_replies_and_restarts :
    (_initThread [] (start 7 0) [Event.packet 8 ⟨ID_HELLO, 0, 9, 0⟩ 0]).sent
      = [⟨ID_HELLO, 0, 7, 0⟩, ⟨ID_HELLO_REPLY, 0, 7, 0⟩] ∧
    (_initThread [] (start 7 0) (List.replicate 20 Event.timeout)).idAccepted = true ∧
    (_initThread [] (start 7 0) (List.replicate 20 Event.timeout ++
      List.replicate 10 Event.timeout ++ [Event.packet 8 ⟨ID_HELLO, 0, 9, 0⟩ 0] ++
      List.replicate 10 Event.timeout)).listening = false ∧
    (_initThread [] (start 7 0) (List.replicate 20 Event.timeout ++
      List.replicate 10 Event.timeout ++ [Event.packet 8 ⟨ID_HELLO, 0, 9, 0⟩ 0] ++
      List.replicate 20 Event.timeout)).listening = true ∧
    (_initThread [] (start 7 0) [Event.packet 8 ⟨ID_HELLO_REPLY, 0, 7, 500⟩ 0]).sent
      = [⟨ID_HELLO, 0, 7, 0⟩, ⟨COUNTNODE, 0, 7, 1⟩] ∧
    (_initThread [] (start 7 0) (Event.packet 8 ⟨ID_HELLO_REPLY, 0, 7, 500⟩ 0 ::
      List.replicate 20 Event.timeout)).children = [newChild 7 500 []] := by
  decide

/-- Witness of C20 as amended: the connection that announces the identifier
7 and gets 19 timeouts. -/
theorem handshake_phases_witness :
    Announcing 7 (timeoutCount (List.replicate 19 Event.timeout))
      (_initThread [] (start 7 0) (List.replicate 19 Event.timeout)) :=
  (handshake_phases [] 7 0).1 (List.replicate 19 Event.timeout) (by decide) (by decide)

end Handshake

/-! ## C21: refusing an identifier -/

section MembershipDeny

open RSPListener

/-- C21, failing input: the listener with the identifier 1 that knows a
connection 2 answers `ID_HELLO` for 2 with an `ID_DENY` that carries its own
identifier 1, not the 2 that is refused, and the connection that announces 2
leaves a refusal that carries 1 aside: it keeps its identifier. For every
listener and every identifier announced, the one datagram that `_checkNewID`
sends carries the identifier of the listener; it is an `ID_DENY` when the
identifier announced is the listener's or that of a child, and an
`ID_HELLO_REPLY` otherwise. -/
theorem checkNewID_denies_with_own_id :
    (_checkNewID listenerWithChild 2).sent = [⟨ID_DENY, 0, 1, 0⟩] ∧
    _handleAcceptIDData [] (start 2 0) 8 ⟨ID_DENY, 0, 1, 0⟩ 77 = start 2 0 ∧
    (_handleAcceptIDData [] (start 2 0) 8 ⟨ID_DENY, 0, 2, 0⟩ 77).id = 77 ∧
    (∀ (c : RSPListener) (x : Nat), ∃ d, (_checkNewID c x).sent = c.sent ++ [d] ∧
      d.connectionID = c.id ∧
      (d.type = ID_DENY ↔ (x = c.id ∨ (_findConnection c.children x).isSome = true)) ∧
      (d.type = ID_HELLO_REPLY ↔ ¬ (x = c.id ∨ (_findConnection c.children x).isSome = true))) := by
  refine ⟨by decide, by decide, by decide, ?_⟩
  intro c x
  unfold _checkNewID _sendSimpleDatagram
  by_cases h : x = c.id ∨ (_findConnection c.children x).isSome = true
  · rw [if_pos h]
    refine ⟨_, rfl, rfl, ?_, ?_⟩
    · exact ⟨fun _ => h, fun _ => rfl⟩
    · constructor
      · intro h2
        exact absurd h2 (show ID_DENY ≠ ID_HELLO_REPLY by decide)
      · intro h2
        exact absurd h h2
  · rw [if_neg h]
    refine ⟨_, rfl, rfl, ?_, ?_⟩
    · constructor
      · intro h2
        exact absurd h2 (show ID_HELLO_REPLY ≠ ID_DENY by decide)
      · intro h2
        exact absurd h2 h
    · exact ⟨fun _ => h, fun _ => rfl⟩

end MembershipDeny

/-! ## C22: the identifiers of the children -/

section MembershipChildren

open RSPListener

theorem eraseChild_eq_filter (id : Nat) :
    ∀ l : List ChildConnection, (l.map ChildConnection.id).Nodup →
      eraseChild id l = l.filter (fun child => decide (child.id ≠ id))
  | [], _ => rfl
  | child :: rest, h => by
    rw [List.map_cons, List.nodup_cons] at h
    unfold eraseChild
    by_cases h1 : child.id = id
    · rw [if_pos h1, List.filter_cons, if_neg (by simpa using h1)]
      symm
      rw [List.filter_eq_self]
      intro a ha
      simp only [decide_eq_true_eq]
      intro h2
      apply h.1
      rw [h1, ← h2]
      exact List.mem_map_of_mem _ ha
    · rw [if_neg h1, List.filter_cons, if_pos (by simpa using h1),
        eraseChild_eq_filter id rest h.2]

theorem sendCountNode_children (c : RSPListener) : (_sendCountNode c).children = c.children := by
  unfold _sendCountNode
  split <;> rfl

theorem findConnection_none_iff (l : List ChildConnection) (id : Nat) :
    _findConnection l id = none ↔ id ∉ l.map ChildConnection.id := by
  unfold _findConnection
  rw [List.find?_eq_none]
  constructor
  · intro h hmem
    obtain ⟨child, hc, rfl⟩ := List.mem_map.mp hmem
    exact absurd (by simp) (h child hc)
  · intro h child hc hid
    apply h
    rw [← of_decide_eq_true hid]
    exact List.mem_map_of_mem _ hc

theorem addConnection_nodup (buffers : List Buffer) (c : RSPListener) (id sequence : Nat)
    (h : (c.children.map ChildConnection.id).Nodup) :
    ((_addConnection buffers c id sequence).children.map ChildConnection.id).Nodup := by
  unfold _addConnection
  cases hf : _findConnection c.children id with
  | some child => exact h
  | none =>
    simp only
    rw [sendCountNode_children]
    show ((c.children ++ [newChild id sequence buffers]).map ChildConnection.id).Nodup
    rw [List.map_append, List.nodup_append]
    refine ⟨h, by simp, ?_⟩
    intro a ha hb
    simp only [List.map_cons, List.map_nil, List.mem_singleton] at hb
    have hid : a = id := hb
    rw [hid] at ha
    exact (findConnection_none_iff _ _).mp hf ha

theorem removeConnection_nodup (c : RSPListener) (id : Nat)
    (h : (c.children.map ChildConnection.id).Nodup) :
    ((_removeConnection c id).children.map ChildConnection.id).Nodup := by
  unfold _removeConnection
  split
  · exact h
  · rw [sendCountNode_children]
    show ((eraseChild id c.children).map ChildConnection.id).Nodup
    rw [eraseChild_eq_filter id _ h]
    exact (List.Nodup.sublist ((List.filter_sublist _).map _) h)

theorem applyOps_nodup (buffers : List Buffer) :
    ∀ (ops : List ChildOp) (c : RSPListener), (c.children.map ChildConnection.id).Nodup →
      ((applyOps buffers c ops).children.map ChildConnection.id).Nodup
  | [], _, h => h
  | ChildOp.add i q :: rest, c, h =>
    applyOps_nodup buffers rest _ (addConnection_nodup buffers c i q h)
  | ChildOp.remove i :: rest, c, h =>
    applyOps_nodup buffers rest _ (removeConnection_nodup c i h)

/-- C22: the identifiers of the children stay pairwise distinct under
`_addConnection` and `_removeConnection`. `_addConnection` with an identifier
that a child has returns false and changes nothing, and otherwise returns
true and appends one child with the identifier and the sequence given.
`_removeConnection` takes out the child with the identifier given and no
other child, and changes nothing when given the listener's identifier. -/
theorem children_ids_distinct (buffers : List Buffer) (c : RSPListener)
    (hdistinct : (c.children.map ChildConnection.id).Nodup) :
    (∀ ops : List ChildOp, ((applyOps buffers c ops).children.map ChildConnection.id).Nodup) ∧
    (∀ id sequence : Nat, id ∈ c.children.map ChildConnection.id →
      addConnectionReturns c id = false ∧ _addConnection buffers c id sequence = c) ∧
    (∀ id sequence : Nat, id ∉ c.children.map ChildConnection.id →
      addConnectionReturns c id = true ∧
      (_addConnection buffers c id sequence).children
        = c.children ++ [newChild id sequence buffers] ∧
      (newChild id sequence buffers).id = id ∧
      (newChild id sequence buffers).sequence = sequence) ∧
    (∀ id : Nat, id ≠ c.id →
      (_removeConnection c id).children
        = c.children.filter (fun child => decide (child.id ≠ id))) ∧
    _removeConnection c c.id = c := by
  refine ⟨fun ops => applyOps_nodup buffers ops c hdistinct, ?_, ?_, ?_, ?_⟩
  · intro id sequence hmem
    have hsome : ∃ child, _findConnection c.children id = some child := by
      cases hf : _findConnection c.children id with
      | none => exact absurd hmem ((findConnection_none_iff _ _).mp hf)
      | some child => exact ⟨child, rfl⟩
    obtain ⟨child, hf⟩ := hsome
    unfold addConnectionReturns _addConnection
    rw [hf]
    exact ⟨rfl, rfl⟩
  · intro id sequence hmem
    have hf := (findConnection_none_iff _ _).mpr hmem
    unfold addConnectionReturns _addConnection
    rw [hf]
    refine ⟨rfl, ?_, rfl, rfl⟩
    show (_sendCountNode _).children = _
    rw [sendCountNode_children]
  · intro id hid
    unfold _removeConnection
    rw [if_neg hid, sendCountNode_children]
    exact eraseChild_eq_filter id _ hdistinct
  · unfold _removeConnection
    rw [if_pos rfl]

/-- Witness of C22: the listener that knows itself and a connection 2. -/
theorem children_ids_distinct_witness :
    ((applyOps [] listenerWithChild [ChildOp.add 3 5, ChildOp.add 2 9, ChildOp.remove 2,
      ChildOp.remove 1]).children.map ChildConnection.id).Nodup :=
  (children_ids_distinct [] listenerWithChild (by decide)).1
    [ChildOp.add 3 5, ChildOp.add 2 9, ChildOp.remove 2, ChildOp.remove 1]

end MembershipChildren

/-! ## C23: the reply to a satisfied ack request -/

/-- C23, amended: when the reader holds everything up to the requested
sequence `reqID`, that is when `gotID = c.sequence - 1` is `reqID` or at most
`numBuffers` beyond it, `_handleAckRequest` answers with one ACK for the
writer of the child, and the ACK carries `gotID`. The number of buffers is
below 2^15. -/
theorem handleAckRequest_ack_carries_gotID (id numBuffers : Nat) (c : ChildConnection)
    (reqID : Nat) (hcs : c.sequence < 65536) (hreq : reqID < 65536)
    (hnum : numBuffers < 32768)
    (hgot : ((c.sequence + 65536 - 1) % 65536 + 65536 - reqID) % 65536 ≤ numBuffers) :
    _handleAckRequest id numBuffers c reqID
      = Sent.ack id c.id ((c.sequence + 65536 - 1) % 65536) := by
  unfold _handleAckRequest
  simp only [seqMod]
  rw [if_pos (by omega)]

/-- C23, counterexample: with `numBuffers = 4` a child that expects 11, and
so holds everything up to 10, answers a request for 8 with an ACK that
carries 10, not 8. -/
theorem handleAckRequest_ack_not_requested :
    _handleAckRequest 1 4 (newChild 9 11 []) 8 = Sent.ack 1 9 10 := by
  decide

/-- C23, witness: the child that expects 11 and a request
for 8. -/
theorem handleAckRequest_ack_carries_gotID_witness :
    _handleAckRequest 1 4 (newChild 9 11 []) 8
      = Sent.ack 1 (newChild 9 11 []).id (((newChild 9 11 []).sequence + 65536 - 1) % 65536) :=
  handleAckRequest_ack_carries_gotID 1 4 (newChild 9 11 []) 8 (by decide) (by decide)
    (by decide) (by decide)

/-! ## C24: the order of object versions -/

section Versions

open ObjectVersion

/-- C24: on `ObjectVersion`, `operator<` is the lexicographic order on
identifier and version; it is irreflexive and transitive, exactly one of
`a < b`, `a == b` and `a > b` holds, `a > b` is `b < a`, and `a != b` is the
negation of `a == b`. -/
theorem objectVersion_order (a b c : ObjectVersion) :
    (lt a b = true ↔ (a.identifier < b.identifier ∨
      (a.identifier = b.identifier ∧ a.version < b.version))) ∧
    (eq a b = true ↔ (a.identifier = b.identifier ∧ a.version = b.version)) ∧
    lt a a = false ∧
    (lt a b = true → lt b c = true → lt a c = true) ∧
    ((lt a b = true ∧ eq a b = false ∧ gt a b = false) ∨
      (lt a b = false ∧ eq a b = true ∧ gt a b = false) ∨
      (lt a b = false ∧ eq a b = false ∧ gt a b = true)) ∧
    (gt a b = true ↔ lt b a = true) ∧
    (ne a b = true ↔ ¬ eq a b = true) := by
  have hlt : ∀ x y : ObjectVersion, lt x y = true ↔ (x.identifier < y.identifier ∨
      (x.identifier = y.identifier ∧ x.version < y.version)) := by
    intro x y
    simp [lt]
  have heq : ∀ x y : ObjectVersion, eq x y = true ↔
      (x.identifier = y.identifier ∧ x.version = y.version) := by
    intro x y
    simp [eq]
  have hgt : ∀ x y : ObjectVersion, gt x y = true ↔ (y.identifier < x.identifier ∨
      (x.identifier = y.identifier ∧ y.version < x.version)) := by
    intro x y
    simp [gt]
  have hne : ne a b = true ↔ (a.identifier ≠ b.identifier ∨ a.version ≠ b.version) := by
    simp [ne]
  simp only [Bool.eq_false_iff, ne_eq, hlt, heq, hgt, hne]
  refine ⟨trivial, trivial, ?_, ?_, ?_, ?_, ?_⟩
  · omega
  · omega
  · omega
  · omega
  · omega

/-- Witness of C24: transitivity at three versions of two objects. -/
theorem objectVersion_order_witness : lt ⟨1, 5⟩ ⟨2, 0⟩ = true :=
  (objectVersion_order ⟨1, 5⟩ ⟨1, 7⟩ ⟨2, 0⟩).2.2.2.1 (by decide) (by decide)

end Versions

/-! ## C25: closing a closed connection -/

section Closing

open RSPObject

theorem update_length (l : List RSPObject) (i : Nat) (f : RSPObject → RSPObject) :
    (update l i f).length = l.length := by
  unfold update
  cases l[i]? with
  | none => rfl
  | some c => simp only [List.length_set]

theorem getElem?_update (l : List RSPObject) (i j : Nat) (f : RSPObject → RSPObject) :
    (update l i f)[j]? = if j = i then (l[i]?).map f else l[j]? := by
  unfold update
  cases h : l[i]? with
  | none =>
    by_cases hj : j = i
    · subst hj; simp only [h, if_true, Option.map_none']
    · simp only [hj, if_false]
  | some c =>
    have hi : i < l.length := by
      by_contra hge
      rw [List.getElem?_eq_none (by omega)] at h
      cases h
    rw [List.getElem?_set]
    by_cases hj : j = i
    · subst hj; simp only [if_true, hi, Option.map_some']
    · have hj2 : ¬ i = j := fun e => hj e.symm
      simp only [hj, hj2, if_false]

theorem frame_refl (self : Nat) (l : List RSPObject) : Frame self l l :=
  ⟨rfl, fun _ c1 h => ⟨c1, h, rfl, fun _ => ⟨rfl, rfl, rfl⟩⟩⟩

theorem frame_trans (self : Nat) (l l1 l2 : List RSPObject) (h1 : Frame self l l1)
    (h2 : Frame self l1 l2) : Frame self l l2 := by
  refine ⟨h2.1.trans h1.1, ?_⟩
  intro x c2 hx
  obtain ⟨c1, e1, w1, k1⟩ := h2.2 x c2 hx
  obtain ⟨c, e, w, k⟩ := h1.2 x c1 e1
  refine ⟨c, e, w1.trans w, fun hne => ?_⟩
  obtain ⟨a1, a2, a3⟩ := k1 hne
  obtain ⟨b1, b2, b3⟩ := k hne
  exact ⟨a1.trans b1, a2.trans b2, a3.trans b3⟩

theorem frame_update (self : Nat) (l : List RSPObject) (i : Nat) (f : RSPObject → RSPObject)
    (hw : ∀ c, (f c).writeBuffers = c.writeBuffers)
    (hcore : i ≠ self → ∀ c, (f c).state = c.state ∧ (f c).parent = c.parent ∧
      (f c).threadBuffers = c.threadBuffers) :
    Frame self l (update l i f) := by
  refine ⟨update_length l i f, ?_⟩
  intro x c1 hx
  rw [getElem?_update] at hx
  by_cases hxi : x = i
  · subst hxi
    rw [if_pos rfl] at hx
    cases hc : l[x]? with
    | none => rw [hc] at hx; cases hx
    | some c =>
      rw [hc] at hx
      simp only [Option.map_some', Option.some.injEq] at hx
      subst hx
      exact ⟨c, rfl, hw c, fun hne => hcore hne c⟩
  · rw [if_neg hxi] at hx
    exact ⟨c1, hx, rfl, fun _ => ⟨rfl, rfl, rfl⟩⟩

theorem frame_notifyChildren (self : Nat) :
    ∀ (children : List Nat) (l : List RSPObject), Frame self l (notifyChildren l children) := by
  intro children
  induction children with
  | nil => intro l; exact frame_refl self l
  | cons child rest ih =>
    intro l
    unfold notifyChildren
    refine frame_trans self _ _ _ ?_ (ih _)
    apply frame_update
    · intro c; rfl
    · intro _ c; exact ⟨rfl, rfl, rfl⟩

theorem closeOpen_spec (h : RSPHeap) (self : Nat) (c : RSPObject)
    (hc : h.connections[self]? = some c) :
    Frame self h.connections (closeOpen h self c).connections ∧
    ∃ c1, (closeOpen h self c).connections[self]? = some c1 ∧
      c1.state = ConnectionState.STATE_CLOSED ∧ c1.parent = none ∧ c1.threadBuffers = [] ∧
      c1.writeBuffers = c.writeBuffers := by
  have fself : ∀ (l : List RSPObject) (f : RSPObject → RSPObject),
      (∀ c, (f c).writeBuffers = c.writeBuffers) → Frame self l (update l self f) :=
    fun l f hw => frame_update self l self f hw (fun hne => absurd rfl hne)
  have f1 : Frame self h.connections
      (update h.connections self (fun c => _setState c ConnectionState.STATE_CLOSING)) :=
    fself _ _ (fun _ => rfl)
  have f2 : Frame self h.connections
      (if c.thread then
        update (notifyChildren
            (update h.connections self (fun c => _setState c ConnectionState.STATE_CLOSING))
            c.children) self
          (fun c => { c with thread := false, children := [], newChildren := [] })
      else update h.connections self (fun c => _setState c ConnectionState.STATE_CLOSING)) := by
    by_cases ht : c.thread = true
    · rw [if_pos ht]
      have f1b := frame_trans self _ _ _ f1
        (frame_notifyChildren self c.children
          (update h.connections self (fun c => _setState c ConnectionState.STATE_CLOSING)))
      refine frame_trans self _ _ _ f1b ?_
      apply fself
      intro c; rfl
    · rw [if_neg ht]
      exact f1
  generalize hl2 : (if c.thread then
        update (notifyChildren
            (update h.connections self (fun c => _setState c ConnectionState.STATE_CLOSING))
            c.children) self
          (fun c => { c with thread := false, children := [], newChildren := [] })
      else update h.connections self (fun c => _setState c ConnectionState.STATE_CLOSING)) = l2
    at f2
  have hself : self < h.connections.length := by
    by_contra hge
    rw [List.getElem?_eq_none (by omega)] at hc
    cases hc
  have hlt2 : self < l2.length := by rw [f2.1]; exact hself
  have hrun : (closeOpen h self c).connections
      = update (update l2 self
          (fun c => _setState
            { c with
              parent := none
              read := false
              write := false
              threadBuffers := []
              appBuffers := c.appBuffers ++ [none] }
            ConnectionState.STATE_CLOSED)) self (fun c => { c with eventOpen := false }) := by
    unfold closeOpen
    simp only [hl2]
  rw [hrun]
  constructor
  · have key : ∀ (g3 g4 : RSPObject → RSPObject),
        (∀ c, (g3 c).writeBuffers = c.writeBuffers) →
        (∀ c, (g4 c).writeBuffers = c.writeBuffers) →
        Frame self h.connections (update (update l2 self g3) self g4) :=
      fun g3 g4 h3 h4 =>
        frame_trans self _ _ _ (frame_trans self _ _ _ f2 (fself l2 g3 h3)) (fself _ g4 h4)
    refine key _ _ ?_ ?_ <;> intro c <;> rfl
  · obtain ⟨c2, hc2⟩ : ∃ c2, l2[self]? = some c2 :=
      ⟨l2[self], List.getElem?_eq_getElem hlt2⟩
    obtain ⟨c0, hc0, hw, _⟩ := f2.2 self c2 hc2
    rw [hc] at hc0
    simp only [Option.some.injEq] at hc0
    subst hc0
    rw [getElem?_update, if_pos rfl, getElem?_update, if_pos rfl, hc2]
    exact ⟨_, rfl, rfl, rfl, rfl, hw⟩

theorem produced_frame (self : Nat) (h h1 : RSPHeap) (hp : Produced h)
    (hf : Frame self h.connections h1.connections)
    (hself : ∀ c1, h1.connections[self]? = some c1 → Settled c1) : Produced h1 := by
  intro x c1 hx
  by_cases hxs : x = self
  · subst hxs
    have hs := hself c1 hx
    exact ⟨fun _ => hs, fun _ => hs.2.2.2⟩
  · obtain ⟨c, hc, hw, hcore⟩ := hf.2 x c1 hx
    obtain ⟨a1, a2, a3⟩ := hcore hxs
    obtain ⟨p1, p2⟩ := hp x c hc
    constructor
    · intro hst
      obtain ⟨_, s2, s3, s4⟩ := p1 (a1 ▸ hst)
      exact ⟨hst, a2.trans s2, a3.trans s3, hw.trans s4⟩
    · intro hpar
      rw [hw]
      exact p2 (by rw [← a2]; exact hpar)

theorem isWriting_false (c : RSPObject) :
    _isWriting c = false ↔ c.threadBuffers = [] ∧ c.writeBuffers = [] := by
  unfold _isWriting
  cases c.threadBuffers <;> cases c.writeBuffers <;> simp

theorem close_settled (fuel : Nat) (h : RSPHeap) (self : Nat) (c : RSPObject)
    (hc : h.connections[self]? = some c) (hs : Settled c) : close (fuel + 1) h self = some h := by
  obtain ⟨h1, h2, h3, h4⟩ := hs
  have hw : _isWriting c = false := (isWriting_false c).mpr ⟨h3, h4⟩
  have hcl : isClosed c = true := by simp [isClosed, h1]
  unfold close
  simp only [hc, h2, hw, Bool.and_false, Bool.false_eq_true, if_false, hcl, if_true]

theorem close_produced :
    ∀ (fuel : Nat) (h : RSPHeap) (self : Nat) (h1 : RSPHeap), Produced h →
      close fuel h self = some h1 →
      Produced h1 ∧ ∃ c1, h1.connections[self]? = some c1 ∧ Settled c1 := by
  intro fuel
  induction fuel with
  | zero => intro h self h1 _ hcl; simp [close] at hcl
  | succ fuel ih =>
    intro h self h1 hp hcl
    unfold close at hcl
    cases hc0 : h.connections[self]? with
    | none => rw [hc0] at hcl; cases hcl
    | some c0 =>
      rw [hc0] at hcl
      simp only at hcl
      -- the heap after the call of the parent
      have hesc : ∀ (e : Option RSPHeap), (∀ he, e = some he → Produced he) →
          (match e with
            | none => none
            | some h1 =>
              match h1.connections[self]? with
              | none => none
              | some c =>
                if (c.parent.isNone && _isWriting c) = true then none
                else if isClosed c = true then some h1
                else some (closeOpen h1 self c)) = some h1 →
          Produced h1 ∧ ∃ c1, h1.connections[self]? = some c1 ∧ Settled c1 := by
        intro e hpe hrun
        cases e with
        | none => cases hrun
        | some he =>
          have hpe1 := hpe he rfl
          simp only at hrun
          cases hc : he.connections[self]? with
          | none => rw [hc] at hrun; cases hrun
          | some c =>
            rw [hc] at hrun
            simp only at hrun
            by_cases hwait : (c.parent.isNone && _isWriting c) = true
            · rw [if_pos hwait] at hrun; cases hrun
            · rw [if_neg hwait] at hrun
              by_cases hclosed : isClosed c = true
              · rw [if_pos hclosed] at hrun
                simp only [Option.some.injEq] at hrun
                subst hrun
                have hst : c.state = ConnectionState.STATE_CLOSED := by
                  simpa [isClosed] using hclosed
                exact ⟨hpe1, c, hc, (hpe1 self c hc).1 hst⟩
              · rw [if_neg hclosed] at hrun
                simp only [Option.some.injEq] at hrun
                subst hrun
                obtain ⟨hf, c1, e1, s1, s2, s3, s4⟩ := closeOpen_spec he self c hc
                have hwb : c.writeBuffers = [] := by
                  cases hpar : c.parent with
                  | none =>
                    have : _isWriting c = false := by
                      cases hw : _isWriting c with
                      | false => rfl
                      | true => rw [hpar, hw] at hwait; exact absurd rfl hwait
                    exact ((isWriting_false c).mp this).2
                  | some p => exact (hpe1 self c hc).2 (by rw [hpar]; exact fun e => by cases e)
                have hset : Settled c1 := ⟨s1, s2, s3, s4.trans hwb⟩
                refine ⟨produced_frame self he _ hpe1 hf ?_, c1, e1, hset⟩
                intro c2 hc2
                rw [e1] at hc2
                simp only [Option.some.injEq] at hc2
                subst hc2
                exact hset
      apply hesc _ _ hcl
      intro he hhe
      cases hpar : c0.parent with
      | none =>
        rw [hpar] at hhe
        simp only [Option.some.injEq] at hhe
        subst hhe
        exact hp
      | some parent =>
        rw [hpar] at hhe
        simp only at hhe
        cases hpc : h.connections[parent]? with
        | none => rw [hpc] at hhe; cases hhe
        | some p =>
          rw [hpc] at hhe
          simp only at hhe
          by_cases hid : p.id = c0.id
          · rw [if_pos hid] at hhe
            exact (ih h parent he hp hhe).1
          · rw [if_neg hid] at hhe
            simp only [Option.some.injEq] at hhe
            subst hhe
            exact hp

theorem produced_new (ids : List Nat) (sent : List DatagramNode) :
    Produced ⟨ids.map newConnection, sent⟩ := by
  intro x c hx
  simp only [List.getElem?_map] at hx
  cases hid : ids[x]? with
  | none => rw [hid] at hx; cases hx
  | some id =>
    rw [hid] at hx
    simp only [Option.map_some', Option.some.injEq] at hx
    subst hx
    exact ⟨fun _ => ⟨rfl, rfl, rfl, rfl⟩, fun _ => rfl⟩

/-- C25: in a process whose connections are as the program makes them, where
a connection in the state `STATE_CLOSED` has no parent and nothing in
`_threadBuffers` and `_writeBuffers`, as the constructor and `close` leave
it, `close` called on a connection in the state `STATE_CLOSED` returns and
leaves all connections and the datagrams sent unchanged. In particular,
after a call of `close` on any connection has returned, that connection is
in the state `STATE_CLOSED`, the process is still of this kind, and a second
call returns and changes nothing. -/
theorem close_closed_unchanged (fuel : Nat) (h : RSPHeap) (self : Nat) (c : RSPObject)
    (hp : Produced h) (hc : h.connections[self]? = some c)
    (hstate : c.state = ConnectionState.STATE_CLOSED) :
    close (fuel + 1) h self = some h ∧
    ∀ (fuel0 : Nat) (h1 : RSPHeap) (x : Nat), close fuel0 h x = some h1 →
      Produced h1 ∧
      (∃ c1, h1.connections[x]? = some c1 ∧ c1.state = ConnectionState.STATE_CLOSED) ∧
      close (fuel + 1) h1 x = some h1 := by
  constructor
  · exact close_settled fuel h self c hc ((hp self c hc).1 hstate)
  · intro fuel0 h1 x hcl
    obtain ⟨hp1, c1, hc1, hs1⟩ := close_produced fuel0 h x h1 hp hcl
    exact ⟨hp1, ⟨c1, hc1, hs1.1⟩, close_settled fuel h1 x c1 hc1 hs1⟩

/-- C25, witness: a process with a connection fresh from the constructor at
the address 0 and, at the address 1, a listener with its two children.
`close` on the fresh connection changes nothing; `close` on the listener
sends `ID_EXIT`, and a second `close` on it changes nothing. -/
theorem close_closed_unchanged_witness :
    close 1 ⟨[newConnection 7, listeningConnection 1 [2, 3], childConnection 1 1 [emptyBuffer],
        childConnection 2 1 [emptyBuffer]], []⟩ 0
      = some ⟨[newConnection 7, listeningConnection 1 [2, 3], childConnection 1 1 [emptyBuffer],
        childConnection 2 1 [emptyBuffer]], []⟩ ∧
    ∃ h1, close 1 ⟨[newConnection 7, listeningConnection 1 [2, 3],
        childConnection 1 1 [emptyBuffer], childConnection 2 1 [emptyBuffer]], []⟩ 1 = some h1 ∧
      h1.sent = [⟨ID_EXIT, CO_RSP_PROTOCOL_VERSION, 1, 0⟩] ∧ close 1 h1 1 = some h1 := by
  have hp : Produced ⟨[newConnection 7, listeningConnection 1 [2, 3],
      childConnection 1 1 [emptyBuffer], childConnection 2 1 [emptyBuffer]], []⟩ := by
    intro x c hx
    match x with
    | 0 =>
      simp only [List.getElem?_cons_zero, Option.some.injEq] at hx
      subst hx
      exact ⟨fun _ => ⟨rfl, rfl, rfl, rfl⟩, fun _ => rfl⟩
    | 1 =>
      simp only [List.getElem?_cons_succ, List.getElem?_cons_zero, Option.some.injEq] at hx
      subst hx
      exact ⟨(fun e => by cases e), fun e => absurd rfl e⟩
    | 2 =>
      simp only [List.getElem?_cons_succ, List.getElem?_cons_zero, Option.some.injEq] at hx
      subst hx
      exact ⟨(fun e => by cases e), fun _ => rfl⟩
    | 3 =>
      simp only [List.getElem?_cons_succ, List.getElem?_cons_zero, Option.some.injEq] at hx
      subst hx
      exact ⟨(fun e => by cases e), fun _ => rfl⟩
    | x + 4 => simp at hx
  have hw := close_closed_unchanged 0 _ 0 (newConnection 7) hp rfl rfl
  refine ⟨hw.1, ?_⟩
  have hcl : ∃ h1, close 1 ⟨[newConnection 7, listeningConnection 1 [2, 3],
      childConnection 1 1 [emptyBuffer], childConnection 2 1 [emptyBuffer]], []⟩ 1 = some h1 ∧
      h1.sent = [⟨ID_EXIT, CO_RSP_PROTOCOL_VERSION, 1, 0⟩] := ⟨_, rfl, rfl⟩
  obtain ⟨h1, e1, e2⟩ := hcl
  exact ⟨h1, e1, e2, (hw.2 1 h1 1 e1).2.2⟩

end Closing

/-! ## C26: the early negative acknowledgement of `_handleData` -/

/-- C27, failing input: with four buffers per connection, a child that
expects the sequence 65535 and has an empty `_recvBuffers` receives the
datagram with the sequence 4, five packets ahead. `_handleData` parks it:
`_recvBuffers` then has five entries, one more than `numBuffers`. -/
theorem handleData_exceeds_numBuffers :
    (newChild 9 65535 (List.replicate 4 emptyBuffer)).recvBuffers = [] ∧
    (_handleData 1 64 4 (newChild 9 65535 (List.replicate 4 emptyBuffer))
        (burstDatagram 9 65535 5)).connection.recvBuffers
      = [none, none, none, none, some (burstDatagram 9 65535 5)] ∧
    (_handleData 1 64 4 (newChild 9 65535 (List.replicate 4 emptyBuffer))
        (burstDatagram 9 65535 5)).connection.recvBuffers.length = 5 := by
  decide

/-! ## C28: the number of ranges of a negative acknowledgement -/

set_option maxRecDepth 100000 in
/-- C28, failing input: with 1024 buffers per connection, a child that
expects the sequence 64940 and has 597 entries in `_recvBuffers`, every
second one a hole up to the sequence 65534, then the holes 65535 and 0 and
the datagram 1, answers the acknowledgement request for the sequence 0 with
301 ranges, one more than the array `nacks` holds. The last four are
`[65535, 65535]`, `[0, 0]`, `[1, 65535]` and `[0, 0]`: the scan leaves the
loop with 299 ranges after it split the range that wraps, the range up to
the requested sequence is the 300th, and splitting it writes `nacks[300]`. -/
theorem handleAckRequest_writes_301_ranges :
    childWithManyHoles.recvBuffers.length = 597 ∧
    childWithManyHoles.recvBuffers.length ≤ 1024 ∧
    CO_RSP_MAX_NACKS = 300 ∧
    (nackRanges (_handleAckRequest 1 1024 childWithManyHoles 0)).length = 301 ∧
    (nackRanges (_handleAckRequest 1 1024 childWithManyHoles 0)).drop 297
      = [⟨65535, 65535⟩, ⟨0, 0⟩, ⟨1, 65535⟩, ⟨0, 0⟩] := by
  decide

/-! ## C29: `_repeatData` resends the requested datagram -/

theorem mergeWrites_sequence (payloadSize : Nat) :
    ∀ (rest : List Buffer) (buffer : Buffer) (merged : List Buffer),
      (mergeWrites payloadSize buffer rest merged).1.sequence = buffer.sequence := by
  intro rest
  induction rest with
  | nil => intro buffer merged; rfl
  | cons x rest ih =>
    intro buffer merged
    unfold mergeWrites
    by_cases h1 : buffer.size < payloadSize
    · rw [if_pos h1]
      by_cases h2 : buffer.size + x.size > payloadSize
      · rw [if_pos h2]
      · rw [if_neg h2, ih]
    · rw [if_neg h1]

theorem finishLoop_drop (size : Nat) :
    ∀ (writeBuffers : List Buffer) (connection : ChildConnection)
      (readBuffers freeBuffers : List Buffer)
      (r : List Buffer × ChildConnection × List Buffer × List Buffer),
      finishLoop size writeBuffers connection readBuffers freeBuffers = some r →
      ∃ m, m ≤ writeBuffers.length ∧ r.1 = writeBuffers.drop m := by
  intro writeBuffers
  induction writeBuffers with
  | nil =>
    intro connection readBuffers freeBuffers r h
    simp only [finishLoop, Option.some.injEq] at h
    exact ⟨0, Nat.le_refl _, by rw [← h]; rfl⟩
  | cons x rest ih =>
    intro connection readBuffers freeBuffers r h
    unfold finishLoop at h
    by_cases hlen : (x :: rest).length > size
    · rw [if_pos hlen] at h
      cases hnew : _newDataBuffer connection x with
      | none => rw [hnew] at h; cases h
      | some t =>
        obtain ⟨newBuffer, buffer1, connection1⟩ := t
        rw [hnew] at h
        obtain ⟨m, hm, hr⟩ := ih _ _ _ r h
        exact ⟨m + 1, by simpa using hm, by rw [hr]; rfl⟩
    · rw [if_neg hlen] at h
      simp only [Option.some.injEq] at h
      exact ⟨0, Nat.zero_le _, by rw [← h]; rfl⟩

theorem finishWriteQueue_drop (c c1 : RSPConnection) (sequence : Nat)
    (h : _finishWriteQueue c sequence = some c1) :
    c1.sequence = c.sequence ∧ c1.wire = c.wire ∧ c1.repeatQueue = c.repeatQueue ∧
      ∃ m, m ≤ c.writeBuffers.length ∧ c1.writeBuffers = c.writeBuffers.drop m := by
  unfold _finishWriteQueue at h
  cases hself : _findConnection c.children c.id with
  | none => rw [hself] at h; cases h
  | some connection =>
    rw [hself] at h
    simp only at h
    cases hloop : finishLoop ((c.sequence + 2 * seqMod - sequence - 1) % seqMod) c.writeBuffers
        connection [] [] with
    | none => rw [hloop] at h; cases h
    | some r =>
      obtain ⟨m, hm, hr⟩ := finishLoop_drop _ _ _ _ _ r hloop
      obtain ⟨wb, c2, rb, fb⟩ := r
      rw [hloop] at h
      simp only [Option.some.injEq] at h
      subst h
      exact ⟨rfl, rfl, rfl, m, hm, hr⟩

theorem consecutive_drop (c c1 : RSPConnection) (m : Nat) (hc : WriteBuffersConsecutive c)
    (hseq : c1.sequence = c.sequence) (hm : m ≤ c.writeBuffers.length)
    (hwb : c1.writeBuffers = c.writeBuffers.drop m) : WriteBuffersConsecutive c1 := by
  obtain ⟨h1, h2⟩ := hc
  refine ⟨by rw [hseq]; exact h1, ?_⟩
  intro i hi
  rw [hwb, List.length_drop] at hi
  have := h2 (m + i) (by omega)
  rw [hwb, hseq, List.length_drop, List.get?_drop, this]
  congr 2
  omega

theorem consecutive_sendNext (cfg : Config) (c : RSPConnection) (first : Buffer)
    (rest : List Buffer) (hc : WriteBuffersConsecutive c) :
    WriteBuffersConsecutive (sendNext cfg c first rest) := by
  obtain ⟨h1, h2⟩ := hc
  obtain ⟨_, hwb, _, _, hseq, _, _⟩ := sendNext_fields cfg c first rest
  have hs := mergeWrites_sequence cfg.payloadSize rest { first with sequence := c.sequence } []
  unfold seqMod at *
  refine ⟨by rw [hseq]; exact Nat.mod_lt _ (by decide), ?_⟩
  intro i hi
  rw [hwb, hseq]
  rw [hwb, List.length_append, List.length_singleton] at hi
  rw [List.length_append, List.length_singleton]
  by_cases hlt : i < c.writeBuffers.length
  · rw [List.get?_append hlt, h2 i hlt]
    unfold seqBack seqMod
    congr 1
    omega
  · have hi2 : i = c.writeBuffers.length := by omega
    subst hi2
    rw [List.get?_append_right (Nat.le_refl _)]
    simp only [Nat.sub_self, List.get?_cons_zero, Option.map_some', hs]
    unfold seqBack seqMod
    congr 1
    omega

theorem consecutive_writeData (cfg : Config) (c c1 : RSPConnection)
    (hc : WriteBuffersConsecutive c) (h : _writeData cfg c = some c1) :
    WriteBuffersConsecutive c1 := by
  unfold _writeData at h
  cases hq : c.threadBuffers with
  | nil => rw [hq] at h; simp only [Option.some.injEq] at h; rw [← h]; exact hc
  | cons first rest =>
    rw [hq] at h
    simp only at h
    have hs := consecutive_sendNext cfg c first rest hc
    by_cases hone : (sendNext cfg c first rest).children.length = 1
    · rw [if_pos hone] at h
      obtain ⟨e1, _, _, m, hm, hd⟩ := finishWriteQueue_drop _ _ _ h
      exact consecutive_drop _ _ m hs e1 hm hd
    · rw [if_neg hone] at h
      simp only [Option.some.injEq] at h
      rw [← h]; exact hs

theorem consecutive_ops (cfg : Config) :
    ∀ (ops : List WriterOp) (c c1 : RSPConnection), WriteBuffersConsecutive c →
      applyWriterOps cfg c ops = some c1 → WriteBuffersConsecutive c1 := by
  intro ops
  induction ops with
  | nil => intro c c1 hc h; simp only [applyWriterOps, Option.some.injEq] at h; rw [← h]; exact hc
  | cons op rest ih =>
    intro c c1 hc h
    cases op with
    | writeData =>
      simp only [applyWriterOps] at h
      cases hw : _writeData cfg c with
      | none => rw [hw] at h; cases h
      | some c2 =>
        rw [hw] at h
        exact ih c2 c1 (consecutive_writeData cfg c c2 hc hw) h
    | finishWriteQueue sequence =>
      simp only [applyWriterOps] at h
      cases hw : _finishWriteQueue c sequence with
      | none => rw [hw] at h; cases h
      | some c2 =>
        rw [hw] at h
        obtain ⟨e1, _, _, m, hm, hd⟩ := finishWriteQueue_drop _ _ _ hw
        exact ih c2 c1 (consecutive_drop _ _ m hc e1 hm hd) h

theorem repeatStep_invalid (cfg : Config) (c : RSPConnection) (request : Nack) (rest : List Nack)
    (h : request.start = c.sequence) :
    repeatStep cfg c request rest = ({ c with repeatQueue := rest }, false) := by
  unfold repeatStep
  have : (c.sequence + seqMod - request.start) % seqMod = 0 := by
    unfold seqMod at *; omega
  simp only [this, if_true]

theorem repeatStep_fields (cfg : Config) (c : RSPConnection) (request : Nack) (rest : List Nack) :
    (repeatStep cfg c request rest).1.sequence = c.sequence ∧
      (repeatStep cfg c request rest).1.writeBuffers = c.writeBuffers ∧
      (repeatStep cfg c request rest).1.timeouts = c.timeouts ∧
      (repeatStep cfg c request rest).1.children = c.children ∧
      (repeatStep cfg c request rest).1.id = c.id := by
  obtain ⟨w1, w2, w3, w4, w5, w6, w7⟩ := waitWritable_fields cfg c
  have w8 : (_waitWritable cfg c).timeouts = c.timeouts := by
    unfold _waitWritable; split <;> rfl
  unfold repeatStep
  simp only
  by_cases hd : (c.sequence + seqMod - request.start) % seqMod = 0
  · rw [if_pos hd]; exact ⟨rfl, rfl, rfl, rfl, rfl⟩
  · rw [if_neg hd]
    by_cases hs : (c.sequence + seqMod - request.start) % seqMod ≤ c.writeBuffers.length
    · simp only [hs, decide_True, if_true]
      cases c.writeBuffers.get? (c.writeBuffers.length
          - (c.sequence + seqMod - request.start) % seqMod) with
      | none => exact ⟨rfl, rfl, rfl, rfl, rfl⟩
      | some buffer => exact ⟨w5, w2, w8, w6, w7⟩
    · simp only [hs, decide_False]
      exact ⟨rfl, rfl, rfl, rfl, rfl⟩

theorem repeatStep_send (cfg : Config) (c : RSPConnection) (request : Nack) (rest : List Nack)
    (hc : WriteBuffersConsecutive c) (ha : request.start < seqMod)
    (hvalid : request.start ≠ c.sequence)
    (hd : (c.sequence + seqMod - request.start) % seqMod ≤ c.writeBuffers.length) :
    ∃ buffer, c.writeBuffers.get? (c.writeBuffers.length
          - (c.sequence + seqMod - request.start) % seqMod) = some buffer ∧
      buffer.sequence = request.start ∧
      (repeatStep cfg c request rest).2 = true ∧
      (repeatStep cfg c request rest).1.wire
        = c.wire ++ [{ buffer with payload := buffer.payload.take buffer.size }] ∧
      (repeatStep cfg c request rest).1.repeatQueue = advanceRequest request rest := by
  obtain ⟨hseq, hwb⟩ := hc
  have hd0 : (c.sequence + seqMod - request.start) % seqMod ≠ 0 := by
    unfold seqMod at *; omega
  have hidx : c.writeBuffers.length - (c.sequence + seqMod - request.start) % seqMod
      < c.writeBuffers.length := by omega
  have hget := hwb _ hidx
  cases hb : c.writeBuffers.get? (c.writeBuffers.length
      - (c.sequence + seqMod - request.start) % seqMod) with
  | none =>
    rw [List.get?_eq_none] at hb
    omega
  | some buffer =>
    rw [hb] at hget
    simp only [Option.map_some', Option.some.injEq] at hget
    have hsq : buffer.sequence = request.start := by
      rw [hget]; unfold seqBack seqMod at *; omega
    obtain ⟨w1, _⟩ := waitWritable_fields cfg c
    refine ⟨buffer, rfl, hsq, ?_, ?_, ?_⟩
    · unfold repeatStep
      simp only [if_neg hd0, hd, decide_True]
    · unfold repeatStep
      simp only [if_neg hd0, hd, decide_True, if_true, hb, w1]
    · unfold repeatStep
      simp only [if_neg hd0, hd, decide_True, if_true, hb, advanceRequest]

theorem repeatStep_skip (cfg : Config) (c : RSPConnection) (request : Nack) (rest : List Nack)
    (hd : c.writeBuffers.length < (c.sequence + seqMod - request.start) % seqMod) :
    repeatStep cfg c request rest = ({ c with repeatQueue := advanceRequest request rest }, false) := by
  have hd0 : (c.sequence + seqMod - request.start) % seqMod ≠ 0 := by omega
  have hd1 : ¬ (c.sequence + seqMod - request.start) % seqMod ≤ c.writeBuffers.length := by omega
  unfold repeatStep
  simp only [if_neg hd0, hd1, decide_False, advanceRequest, Bool.false_eq_true, if_false]

theorem repeatStep_quiet (cfg : Config) (c : RSPConnection) (request : Nack) (rest : List Nack)
    (h : (repeatStep cfg c request rest).2 = false) :
    (repeatStep cfg c request rest).1.wire = c.wire ∧
      ((repeatStep cfg c request rest).1.repeatQueue = rest ∨
        (repeatStep cfg c request rest).1.repeatQueue = advanceRequest request rest) := by
  by_cases hd0 : (c.sequence + seqMod - request.start) % seqMod = 0
  · have : repeatStep cfg c request rest = ({ c with repeatQueue := rest }, false) := by
      unfold repeatStep; simp only [hd0, if_true]
    rw [this]; exact ⟨rfl, Or.inl rfl⟩
  · by_cases hs : (c.sequence + seqMod - request.start) % seqMod ≤ c.writeBuffers.length
    · exfalso
      have : (repeatStep cfg c request rest).2 = true := by
        unfold repeatStep; simp only [if_neg hd0, hs, decide_True]
      rw [this] at h; cases h
    · rw [repeatStep_skip cfg c request rest (by omega)]
      exact ⟨rfl, Or.inr rfl⟩

theorem repeatStep_wire (cfg : Config) (c : RSPConnection) (request : Nack) (rest : List Nack) :
    (repeatStep cfg c request rest).1.wire = c.wire ∨
      ∃ buffer ∈ c.writeBuffers, (repeatStep cfg c request rest).1.wire
        = c.wire ++ [{ buffer with payload := buffer.payload.take buffer.size }] := by
  obtain ⟨w1, _⟩ := waitWritable_fields cfg c
  unfold repeatStep
  simp only
  by_cases hd : (c.sequence + seqMod - request.start) % seqMod = 0
  · rw [if_pos hd]; exact Or.inl rfl
  · rw [if_neg hd]
    by_cases hs : (c.sequence + seqMod - request.start) % seqMod ≤ c.writeBuffers.length
    · simp only [hs, decide_True, if_true]
      cases hb : c.writeBuffers.get? (c.writeBuffers.length
          - (c.sequence + seqMod - request.start) % seqMod) with
      | none => exact Or.inl rfl
      | some buffer =>
        refine Or.inr ⟨buffer, List.get?_mem hb, ?_⟩
        simp only [w1]
    · simp only [hs, decide_False]
      exact Or.inl rfl

theorem advanceRequest_WF (request : Nack) (rest : List Nack)
    (h : RepeatQueueWF (request :: rest)) :
    RepeatQueueWF rest ∧ RepeatQueueWF (advanceRequest request rest) ∧
      repeatFuel rest < repeatFuel (request :: rest) ∧
      repeatFuel (advanceRequest request rest) < repeatFuel (request :: rest) := by
  have h0 := h request (List.mem_cons_self _ _)
  have hrest : RepeatQueueWF rest := fun r hr => h r (List.mem_cons_of_mem _ hr)
  refine ⟨hrest, ?_, ?_, ?_⟩
  · unfold advanceRequest
    by_cases he : request.start = request.end_
    · rw [if_pos he]; exact hrest
    · rw [if_neg he]
      intro r hr
      rcases List.mem_cons.mp hr with rfl | hr
      · exact ⟨Nat.mod_lt _ (by decide), h0.2⟩
      · exact hrest r hr
  · simp only [repeatFuel]; omega
  · unfold advanceRequest
    by_cases he : request.start = request.end_
    · rw [if_pos he]; simp only [repeatFuel]; omega
    · rw [if_neg he]
      simp only [repeatFuel]
      unfold seqMod at *
      omega

theorem repeatLoop_total (cfg : Config) :
    ∀ (fuel : Nat) (c : RSPConnection), RepeatQueueWF c.repeatQueue →
      repeatFuel c.repeatQueue ≤ fuel →
      ∃ c1, repeatLoop cfg fuel c = some c1 ∧ c1.sequence = c.sequence ∧
        c1.writeBuffers = c.writeBuffers ∧ c1.timeouts = c.timeouts ∧
        (c1.wire = c.wire ∧ c1.repeatQueue = [] ∨
          ∃ buffer ∈ c.writeBuffers,
            c1.wire = c.wire ++ [{ buffer with payload := buffer.payload.take buffer.size }]) := by
  intro fuel
  induction fuel with
  | zero =>
    intro c hwf hfuel
    cases hq : c.repeatQueue with
    | nil =>
      refine ⟨c, ?_, rfl, rfl, rfl, Or.inl ⟨rfl, hq⟩⟩
      simp only [repeatLoop, hq]
    | cons request rest =>
      rw [hq] at hfuel; simp only [repeatFuel] at hfuel; omega
  | succ fuel ih =>
    intro c hwf hfuel
    cases hq : c.repeatQueue with
    | nil =>
      refine ⟨c, ?_, rfl, rfl, rfl, Or.inl ⟨rfl, hq⟩⟩
      simp only [repeatLoop, hq]
    | cons request rest =>
      rw [hq] at hwf hfuel
      obtain ⟨f1, f2, f3, _, _⟩ := repeatStep_fields cfg c request rest
      obtain ⟨wf1, wf2, fu1, fu2⟩ := advanceRequest_WF request rest hwf
      simp only [repeatLoop, hq]
      cases hs : (repeatStep cfg c request rest).2 with
      | true =>
        simp only [if_true]
        refine ⟨_, rfl, f1, f2, f3, ?_⟩
        rcases repeatStep_wire cfg c request rest with hw | hw
        · exfalso
          by_cases hd0 : (c.sequence + seqMod - request.start) % seqMod = 0
          · have : (repeatStep cfg c request rest).2 = false := by
              unfold repeatStep; simp only [hd0, if_true]
            rw [this] at hs; cases hs
          · by_cases hle : (c.sequence + seqMod - request.start) % seqMod ≤ c.writeBuffers.length
            · have hidx : c.writeBuffers.length - (c.sequence + seqMod - request.start) % seqMod
                  < c.writeBuffers.length := by omega
              obtain ⟨w1, _⟩ := waitWritable_fields cfg c
              have hb := List.get?_eq_get hidx
              have : (repeatStep cfg c request rest).1.wire = c.wire ++
                  [{ c.writeBuffers.get ⟨_, hidx⟩ with
                      payload := (c.writeBuffers.get ⟨_, hidx⟩).payload.take
                        (c.writeBuffers.get ⟨_, hidx⟩).size }] := by
                unfold repeatStep
                simp only [if_neg hd0, hle, decide_True, if_true, hb, w1]
              rw [this] at hw
              have := congrArg List.length hw
              simp at this
            · rw [repeatStep_skip cfg c request rest (by omega)] at hs; cases hs
        · exact Or.inr hw
      | false =>
        simp only [Bool.false_eq_true, if_false]
        obtain ⟨q1, q2⟩ := repeatStep_quiet cfg c request rest hs
        have hwf1 : RepeatQueueWF (repeatStep cfg c request rest).1.repeatQueue := by
          rcases q2 with q2 | q2 <;> rw [q2] <;> assumption
        have hfu : repeatFuel (repeatStep cfg c request rest).1.repeatQueue ≤ fuel := by
          rcases q2 with q2 | q2 <;> rw [q2] <;> omega
        obtain ⟨c1, e1, e2, e3, e4, e5⟩ := ih _ hwf1 hfu
        refine ⟨c1, e1, e2.trans f1, e3.trans f2, e4.trans f3, ?_⟩
        rw [q1, f2] at e5
        exact e5

theorem repeatLoop_mono (cfg : Config) :
    ∀ (fuel : Nat) (c c1 : RSPConnection), repeatLoop cfg fuel c = some c1 →
      ∀ k, repeatLoop cfg (fuel + k) c = some c1 := by
  intro fuel
  induction fuel with
  | zero =>
    intro c c1 h k
    cases hq : c.repeatQueue with
    | nil =>
      simp only [repeatLoop, hq] at h
      cases k with
      | zero => simp only [repeatLoop, hq, h]
      | succ k => simp only [Nat.zero_add, repeatLoop, hq, h]
    | cons request rest => simp only [repeatLoop, hq] at h; cases h
  | succ fuel ih =>
    intro c c1 h k
    rw [Nat.add_right_comm]
    cases hq : c.repeatQueue with
    | nil =>
      simp only [repeatLoop, hq] at h
      simp only [repeatLoop, hq, h]
    | cons request rest =>
      simp only [repeatLoop, hq] at h ⊢
      cases hs : (repeatStep cfg c request rest).2 with
      | true => rw [hs] at h; simpa using h
      | false =>
        rw [hs] at h
        simp only [Bool.false_eq_true, if_false] at h ⊢
        exact ih _ _ h k

theorem repeatLoop_cons (cfg : Config) (fuel : Nat) (c : RSPConnection) (request : Nack)
    (rest : List Nack) (hq : c.repeatQueue = request :: rest) :
    repeatLoop cfg (fuel + 1) c
      = if (repeatStep cfg c request rest).2 then some (repeatStep cfg c request rest).1
        else repeatLoop cfg fuel (repeatStep cfg c request rest).1 := by
  simp only [repeatLoop, hq]

theorem repeatData_unfold (cfg : Config) (c : RSPConnection) (queue : List Nack)
    (hwf : RepeatQueueWF queue) (fuel : Nat) (hfuel : repeatFuel queue ≤ fuel) :
    repeatLoop cfg fuel { c with timeouts := 0, repeatQueue := queue }
      = _repeatData cfg { c with repeatQueue := queue } := by
  unfold _repeatData
  obtain ⟨c1, h1, _⟩ := repeatLoop_total cfg (repeatFuel queue)
    { c with timeouts := 0, repeatQueue := queue } hwf (Nat.le_refl _)
  have := repeatLoop_mono cfg _ _ _ h1 (fuel - repeatFuel queue)
  rw [Nat.add_sub_cancel' hfuel] at this
  rw [this]
  exact h1.symm

theorem consecutive_empty (c : RSPConnection) (hseq : c.sequence < seqMod)
    (hwb : c.writeBuffers = []) : WriteBuffersConsecutive c := by
  refine ⟨hseq, ?_⟩
  intro i hi
  rw [hwb] at hi
  cases hi

/-- C29, amended: in a writer state where `_writeBuffers` holds the last
packets written, with the consecutive sequences up to `_sequence - 1`, which
`_writeData` and `_finishWriteQueue` keep so, `_repeatData` returns, resets
the timeouts, leaves `_sequence` and `_writeBuffers` alone and sends at most
one datagram, a copy of a written buffer, and when it sends none the repeat
queue is empty afterwards. For the request `[a, b]` at the front of a queue
of 16-bit ranges, with `distance = _sequence - a` modulo 65536: when `a` is
`_sequence` the whole request is dropped and the call goes on with the
requests behind it; when `distance` is between 1 and the number of written
buffers, the buffer at index `size - distance` has the sequence `a`, it is
the one datagram sent, and the request is left as `[a + 1, b]` or removed
when `a = b`; when `distance` is larger, nothing is sent for `a` and the
call goes on with the request advanced in the same way. -/
theorem repeatData_resends_requested (cfg : Config) (c : RSPConnection) (request : Nack)
    (rest : List Nack) (hc : WriteBuffersConsecutive c) (hwf : RepeatQueueWF c.repeatQueue)
    (hq : c.repeatQueue = request :: rest) :
    (∀ ops c1, applyWriterOps cfg c ops = some c1 → WriteBuffersConsecutive c1) ∧
    (∃ c1, _repeatData cfg c = some c1 ∧ c1.timeouts = 0 ∧ c1.sequence = c.sequence ∧
      c1.writeBuffers = c.writeBuffers ∧
      (c1.wire = c.wire ∧ c1.repeatQueue = [] ∨
        ∃ buffer ∈ c.writeBuffers,
          c1.wire = c.wire ++ [{ buffer with payload := buffer.payload.take buffer.size }])) ∧
    (request.start = c.sequence →
      _repeatData cfg c = _repeatData cfg { c with repeatQueue := rest }) ∧
    (request.start ≠ c.sequence →
      (c.sequence + seqMod - request.start) % seqMod ≤ c.writeBuffers.length →
      ∃ buffer c1,
        c.writeBuffers.get? (c.writeBuffers.length
          - (c.sequence + seqMod - request.start) % seqMod) = some buffer ∧
        buffer.sequence = request.start ∧
        _repeatData cfg c = some c1 ∧
        c1.wire = c.wire ++ [{ buffer with payload := buffer.payload.take buffer.size }] ∧
        c1.repeatQueue = advanceRequest request rest) ∧
    (c.writeBuffers.length < (c.sequence + seqMod - request.start) % seqMod →
      _repeatData cfg c = _repeatData cfg { c with repeatQueue := advanceRequest request rest }) := by
  have hwf0 := hwf
  rw [hq] at hwf0
  obtain ⟨wf1, wf2, fu1, fu2⟩ := advanceRequest_WF request rest hwf0
  obtain ⟨n, hn⟩ : ∃ n, repeatFuel c.repeatQueue = n + 1 := by
    rw [hq]
    exact ⟨(request.end_ + seqMod - request.start) % seqMod + repeatFuel rest,
      by simp only [repeatFuel]; omega⟩
  have hn1 : repeatFuel (request :: rest) = n + 1 := by rw [← hq]; exact hn
  have hloop : _repeatData cfg c
      = if (repeatStep cfg { c with timeouts := 0 } request rest).2 then
          some (repeatStep cfg { c with timeouts := 0 } request rest).1
        else repeatLoop cfg n (repeatStep cfg { c with timeouts := 0 } request rest).1 := by
    unfold _repeatData
    rw [hn]
    exact repeatLoop_cons cfg n { c with timeouts := 0 } request rest hq
  refine ⟨fun ops c1 h => consecutive_ops cfg ops c c1 hc h, ?_, ?_, ?_, ?_⟩
  · obtain ⟨c1, h1, h2, h3, h4, h5⟩ := repeatLoop_total cfg (repeatFuel c.repeatQueue)
      { c with timeouts := 0 } hwf (Nat.le_refl _)
    exact ⟨c1, h1, h4, h2, h3, h5⟩
  · intro ha
    rw [hloop, repeatStep_invalid cfg { c with timeouts := 0 } request rest ha]
    simp only [Bool.false_eq_true, if_false]
    exact repeatData_unfold cfg c rest wf1 _ (by omega)
  · intro hvalid hd
    have hc0 : WriteBuffersConsecutive { c with timeouts := 0 } := hc
    obtain ⟨buffer, hb, hsq, hs, hw, hrq⟩ :=
      repeatStep_send cfg { c with timeouts := 0 } request rest hc0
        (hwf0 request (List.mem_cons_self _ _)).1 hvalid hd
    refine ⟨buffer, _, hb, hsq, ?_, hw, hrq⟩
    rw [hloop, hs]
    rfl
  · intro hd
    rw [hloop, repeatStep_skip cfg { c with timeouts := 0 } request rest hd]
    simp only [Bool.false_eq_true, if_false]
    exact repeatData_unfold cfg c _ wf2 _ (by omega)

/-- C29, counterexample: the writer has written the datagrams 990 to 999
and is about to write 1000; the request `[1000, 1005]` is at the front of
its repeat queue. `_repeatData` sends nothing and leaves the queue empty:
the request is not advanced to `[1001, 1005]`. -/
theorem repeatData_drops_invalid_request :
    WriteBuffersConsecutive (writerWithRepeats [⟨1000, 1005⟩]) ∧
    (_repeatData defaultConfig (writerWithRepeats [⟨1000, 1005⟩])).map
        (fun c1 => (c1.repeatQueue, c1.wire)) = some ([], []) := by
  decide

/-- C29, witness: the writer that has written the datagrams 990 to 999 and has
the request `[995, 997]` at the front of its repeat queue sends the datagram
995 again and is left with the request `[996, 997]`. -/
theorem repeatData_resends_requested_witness :
    WriteBuffersConsecutive (writerWithRepeats [⟨995, 997⟩]) ∧
    ∃ c1, _repeatData defaultConfig (writerWithRepeats [⟨995, 997⟩]) = some c1 ∧
      c1.wire = [burstDatagram 1 990 5] ∧ c1.repeatQueue = [⟨996, 997⟩] := by
  refine ⟨by decide, ?_⟩
  obtain ⟨buffer, c1, hb, _, h1, h2, h3⟩ :=
    (repeatData_resends_requested defaultConfig (writerWithRepeats [⟨995, 997⟩]) ⟨995, 997⟩ []
      (by decide) (by decide) rfl).2.2.2.1 (by decide) (by decide)
  have hb2 : buffer = burstDatagram 1 990 5 := by
    have : (writerWithRepeats [⟨995, 997⟩]).writeBuffers.get? (10 - 5)
        = some (burstDatagram 1 990 5) := by decide
    have hb1 : (writerWithRepeats [⟨995, 997⟩]).writeBuffers.get? (10 - 5) = some buffer := hb
    rw [this] at hb1
    exact (Option.some.inj hb1).symm
  subst hb2
  exact ⟨c1, h1, h2, h3⟩

/-! ## C30: the write timeout -/

/-- C30, failing input: the write timeout is computed from the number of
the attribute `IATTR_RSP_ACK_TIMEOUT` in `enum IAttribute`, which is 3, not
from its value: it is 6000 ms, less than the 20000 ms that 1000 timeouts of
the default 20 ms take. It reaches `ackTimeout * CO_RSP_MAX_TIMEOUTS` only
for an ack timeout of at most 6 ms. -/
theorem writeTimeOut_below_ack_retries :
    _writeTimeOut = 6000 ∧
    ¬ (20 * CO_RSP_MAX_TIMEOUTS ≤ _writeTimeOut) ∧
    ∀ ackTimeout : Nat, ackTimeout * CO_RSP_MAX_TIMEOUTS ≤ _writeTimeOut ↔ ackTimeout ≤ 6 := by
  refine ⟨by decide, by decide, ?_⟩
  intro ackTimeout
  have h : _writeTimeOut = 6000 := by decide
  rw [h]
  unfold CO_RSP_MAX_TIMEOUTS
  omega

end co
